import Mathlib

/-!
OpenPLC61850 mapper tool: a shallow embedding of `mapper.cpp`.

The mapper reads a Structured Text program (the binding source) and one or more
IEC 61850 SCL documents and writes, for every data attribute annotated with a
PLC variable, a line `MONITOR|CONTROL <path> <address>`.

Conventions of the embedding

* `std::string` is `String`; one `Char` stands for one C++ `char`.
* `std::unordered_map<std::string, std::string>` is an association list with
  unique keys (`unordered_map`).  The program never iterates over a map, so the
  order of the list is not observable.  Reading with `operator[]` inserts a
  default (empty) value when the key is absent; this is modelled (`index`).
* A parsed pugixml document is a tree of `xml_tree` nodes; a pugixml node handle
  (`xml_node`) is `Option xml_tree`, `none` being the null handle.
* The global variables of the program are the fields of `Globals`; every
  function that touches them takes and returns the record.
* C++ exceptions that nothing catches (`std::stoi`, `vector::at`) and undefined
  behaviour end the run; they are the `Except.error` results.
-/

namespace Mapper

/-! ## Strings and maps -/

/-- The C++ `std::unordered_map<std::string, std::string>`. -/
abbrev unordered_map := List (String × String)

namespace unordered_map

/-- The lookup `m.find(k)`: the value stored under `k`, if any. -/
def find (m : unordered_map) (k : String) : Option String :=
  List.lookup k m

/-- The keys of the map. -/
def keys (m : unordered_map) : List String :=
  m.map Prod.fst

/-- The statement `m[k] = v;`: insert or overwrite. -/
def assign : unordered_map → String → String → unordered_map
  | [], k, v => [(k, v)]
  | (k', v') :: rest, k, v =>
    if k == k' then (k', v) :: rest else (k', v') :: assign rest k v

/-- The expression `m[k]` read as a value: returns the stored value, and inserts
the key with an empty string when it is absent. -/
def index (m : unordered_map) (k : String) : String × unordered_map :=
  match m.find k with
  | some v => (v, m)
  | none => ("", m ++ [(k, "")])

end unordered_map

/-! ## The XML tree (pugixml with default parse options) -/

/-- A node of a parsed document: an element with its attributes and children in
document order, or a character-data node. -/
inductive xml_tree where
  | element (name : String) (attrs : List (String × String)) (children : List xml_tree)
  | pcdata (value : String)

/-- A pugixml node handle; `none` is the null handle. -/
abbrev xml_node := Option xml_tree

namespace xml_tree

/-- Tag name of a node (character data has none). -/
def name : xml_tree → String
  | element n _ _ => n
  | pcdata _ => ""

/-- Attribute list of a node. -/
def attrs : xml_tree → List (String × String)
  | element _ a _ => a
  | pcdata _ => []

/-- Children of a node in document order. -/
def children : xml_tree → List xml_tree
  | element _ _ c => c
  | pcdata _ => []

/-- Whether the node is an element with the given tag. -/
def isNamed (tag : String) : xml_tree → Bool
  | element n _ _ => n == tag
  | pcdata _ => false

/-- The expression `n.attribute(a).value()` on a non-null node: the value of the
first attribute called `a`, the empty string when there is none. -/
def attribute_value (n : xml_tree) (a : String) : String :=
  (List.lookup a n.attrs).getD ""

end xml_tree

/-- The handle of a node of the tree. -/
def xml_tree.node (t : xml_tree) : xml_node := some t

namespace xml_node

/-- The nodes visited by
`for (c = n.child(tag); c; c = c.next_sibling(tag))`: the child elements of `n`
with that tag, in document order. -/
def children_named (n : xml_node) (tag : String) : List xml_tree :=
  match n with
  | none => []
  | some t => t.children.filter (xml_tree.isNamed tag)

/-- The handle `n.child(tag)`: the first child element with that tag, null when
there is none or `n` is null. -/
def child (n : xml_node) (tag : String) : xml_node :=
  (children_named n tag).head?

/-- The expression `n.attribute(a).value()`; the empty string on a null handle or
a missing attribute. -/
def attribute_value (n : xml_node) (a : String) : String :=
  match n with
  | none => ""
  | some t => t.attribute_value a

end xml_node

/-- The expression `n.text().as_string()` on a non-null node: the value of a
character-data node, or of the first character-data child of an element; the
empty string when there is none. -/
def xml_tree.text_as_string : xml_tree → String
  | .pcdata v => v
  | .element _ _ cs =>
    match cs.find? (fun c => match c with | .pcdata _ => true | _ => false) with
    | some (.pcdata v) => v
    | _ => ""

/-- The expression `n.first_child().text().as_string()`. -/
def xml_node.first_child_text (n : xml_node) : String :=
  match n with
  | none => ""
  | some t =>
    match t.children.head? with
    | none => ""
    | some c => c.text_as_string

/-- A parsed document: its document node, whose children are the top-level
elements. -/
abbrev xml_document := xml_tree

/-! ## Globals -/

/-- The value `NO_TARGET`. -/
def NO_TARGET : Nat := 0
/-- The value `CLIENT`. -/
def CLIENT : Nat := 1
/-- The value `SERVER`. -/
def SERVER : Nat := 2

/-- The global variables of `mapper.cpp`. -/
structure Globals where
  stfilename : Option String := none
  numSCL : Int := 0
  sclfilenames : List String := []
  hasOutfile : Bool := false
  outfilename : Option String := none
  target : Nat := 0
  var_addr_map : unordered_map := []
  ipaddr_buffer : List String := []
  report_dataset_buffer : List (List String) := []
  controlVariables : List String := []
  mapvaraddr_buffer : List String := []
  deriving DecidableEq

/-- The globals at program start (zero-initialised, empty containers). -/
def Globals.initial : Globals := {}

/-! ## trimWhitespace -/

/-- Membership in the character set `" \n\r\t"`. -/
def isTrimChar (c : Char) : Bool :=
  c == ' ' || c == '\n' || c == '\r' || c == '\t'

/-- The constant `std::string::npos` (a 64-bit `size_t`). -/
def npos : Nat := 2 ^ 64 - 1

/-- The call `line.find_first_not_of(" \n\r\t")`. -/
def find_first_not_of (l : List Char) : Nat :=
  match l.findIdx? (fun c => !isTrimChar c) with
  | some i => i
  | none => npos

/-- The call `line.find_last_not_of(" \n\r\t")`. -/
def find_last_not_of (l : List Char) : Nat :=
  match l.reverse.findIdx? (fun c => !isTrimChar c) with
  | some i => l.length - 1 - i
  | none => npos

/-- Conversion of a `size_t` to a 32-bit `int` (two's complement truncation). -/
def size_t_to_int (n : Nat) : Int :=
  let m : Nat := n % 2 ^ 32
  if m < 2 ^ 31 then (m : Int) else (m : Int) - 2 ^ 32

/-- Wrap an integer into the range of a 32-bit `int`. -/
def wrap_int (z : Int) : Int :=
  let m := z % 2 ^ 32
  if m < 2 ^ 31 then m else m - 2 ^ 32

/-- Conversion of an `int` to a 64-bit `size_t`. -/
def int_to_size_t (z : Int) : Nat :=
  (z % 2 ^ 64).toNat

/-- The call `line.substr(pos, count)` for `pos` not beyond the end. -/
def substr (l : List Char) (pos count : Nat) : List Char :=
  (l.drop pos).take count

/-- The function `trimWhitespace`. -/
def trimWhitespace (line : String) : String :=
  let startIndex := size_t_to_int (find_first_not_of line.data)
  let endIndex := size_t_to_int (find_last_not_of line.data)
  let count := wrap_int (endIndex - startIndex + 1)
  if startIndex < 0 || endIndex < 0 then
    line
  else
    ⟨substr line.data (int_to_size_t startIndex) (int_to_size_t count)⟩

/-! ## process_st_file -/

/-- The lines that repeated `std::getline(stinput, line)` delivers for a file
with the given contents. -/
def getLinesAux : List Char → List (List Char)
  | [] => []
  | c :: cs =>
    if c == '\n' then [] :: getLinesAux cs
    else
      match getLinesAux cs with
      | [] => [[c]]
      | l :: ls => (c :: l) :: ls

/-- The lines of a file, as strings. -/
def getLines (contents : String) : List String :=
  (getLinesAux contents.data).map String.mk

/-- The class `[a-zA-Z0-9_]`. -/
def isNameChar (c : Char) : Bool :=
  c.isLower || c.isUpper || c.isDigit || c == '_'

/-- The class `[A-Z0-9.]`. -/
def isAddrChar (c : Char) : Bool :=
  c.isUpper || c.isDigit || c == '.'

/-- The class `[A-Z0]`. -/
def isTypeChar (c : Char) : Bool :=
  c.isUpper || c == '0'

/-- Match `[class]+` at the head of the input: the rest after the longest run,
`none` when the run is empty.  In `reg` every such run is followed by a literal
character outside the class, so the longest run is the only one that can lead to
a match. -/
def match_plus (p : Char → Bool) (s : List Char) : Option (List Char) :=
  if (s.takeWhile p).isEmpty then none else some (s.dropWhile p)

/-- Match a literal at the head of the input. -/
def match_lit (lit : List Char) (s : List Char) : Option (List Char) :=
  if lit.isPrefixOf s then some (s.drop lit.length) else none

/-- The test `std::regex_match(line, reg)` for
`reg = "[a-zA-Z0-9_]+ AT %[A-Z0-9.]+ : [A-Z0]+;"` (the whole line must match). -/
def regex_match_reg (line : String) : Bool :=
  ((((match_plus isNameChar line.data).bind
      (match_lit " AT %".data)).bind
      (match_plus isAddrChar)).bind
      (match_lit " : ".data)).bind
      (match_plus isTypeChar) == some [';']

/-- The call `std::getline(ss, token, ' ')` on a string stream holding `ss`: the
token (the characters before the first blank) and what is left in the stream. -/
def getline_blank (ss : List Char) : List Char × List Char :=
  (ss.takeWhile (fun c => c != ' '), (ss.dropWhile (fun c => c != ' ')).drop 1)

/-- The body of the `while` loop of `process_st_file` for one line; the state is
`inVar` and `var_addr_map`. -/
def process_st_line (st : Bool × unordered_map) (rawline : String) : Bool × unordered_map :=
  let line := trimWhitespace rawline
  if st.1 == false then
    if line == "VAR" then (true, st.2) else (false, st.2)
  else
    let m :=
      if regex_match_reg line then
        let t1 := getline_blank line.data
        let varName : String := ⟨t1.1⟩
        let t2 := getline_blank t1.2
        let t3 := getline_blank t2.2
        let address : String := ⟨t3.1⟩
        st.2.assign varName address
      else st.2
    if line == "END_VAR" then (false, m) else (true, m)

/-- The function `process_st_file`; the argument is the contents of the file
`stfilename`, `none` when it cannot be opened.  Returns the exit code and the
globals. -/
def process_st_file (contents : Option String) (g : Globals) : Int × Globals :=
  match contents with
  | none => (1, g)
  | some text =>
    (0, { g with
      var_addr_map := ((getLines text).foldl process_st_line (false, g.var_addr_map)).2 })

/-- The binding table that `process_st_file` builds from a readable source when
the table is empty before, as it is in `main`. -/
def st_table (text : String) : unordered_map :=
  (process_st_file (some text) Globals.initial).2.var_addr_map

/-! ## getVarAddrMapping -/

/-- The body of the `Property` loop of `getVarAddrMapping` for one node. -/
def property_step (pathstring : String) (g : Globals) (prop_node : xml_tree) : Globals :=
  let prop_name := prop_node.attribute_value "Name"
  let prop_value := prop_node.attribute_value "Value"
  if prop_name == "sMonitoringVar" && prop_value != "" then
    let r := g.var_addr_map.index prop_value
    let g := { g with var_addr_map := r.2 }
    let address := if r.1 == "" then "X" else r.1
    if g.target == CLIENT then
      { g with mapvaraddr_buffer := g.mapvaraddr_buffer ++ ["MONITOR " ++ pathstring ++ " " ++ address] }
    else if g.target == SERVER then
      { g with mapvaraddr_buffer := g.mapvaraddr_buffer ++ ["MONITOR " ++ pathstring ++ " " ++ address] }
    else g
  else if prop_name == "sControlVar" && prop_value != "" then
    let r := g.var_addr_map.index prop_value
    let g := { g with var_addr_map := r.2 }
    let address := if r.1 == "" then "X" else r.1
    if g.target == CLIENT then
      { g with
        mapvaraddr_buffer := g.mapvaraddr_buffer ++ ["CONTROL " ++ pathstring ++ " " ++ address]
        controlVariables := g.controlVariables ++ [pathstring ++ " " ++ address] }
    else if g.target == SERVER then
      { g with mapvaraddr_buffer := g.mapvaraddr_buffer ++ ["CONTROL " ++ pathstring ++ " " ++ address] }
    else g
  else g

mutual
/-- The recursive `getVarAddrMapping(parent, pathstring)`. -/
def getVarAddrMapping (parent : xml_tree) (pathstring : String) (g : Globals) : Globals :=
  match parent with
  | .pcdata _ => g
  | .element _ _ cs =>
    if cs.any (xml_tree.isNamed "Private") then
      getVarAddrMapping_private cs pathstring g
    else if cs.any (xml_tree.isNamed "Property") then
      (cs.filter (xml_tree.isNamed "Property")).foldl (property_step pathstring) g
    else g
/-- The `Private` loop of `getVarAddrMapping` over the children of a node. -/
def getVarAddrMapping_private (cs : List xml_tree) (pathstring : String) (g : Globals) :
    Globals :=
  match cs with
  | [] => g
  | priv_node :: rest =>
    if priv_node.isNamed "Private" then
      let newpathstring := pathstring ++ "." ++ priv_node.attribute_value "name"
      getVarAddrMapping_private rest pathstring (getVarAddrMapping priv_node newpathstring g)
    else
      getVarAddrMapping_private rest pathstring g
end


/-! ## get_scl_variables -/

/-- First loop of `get_scl_variables`: the map `lntype_lninst_mapping`. -/
def lntype_lninst_pass (ld : xml_node) : unordered_map :=
  (ld.children_named "LN").foldl
    (fun m ln_node =>
      let ln_type := ln_node.attribute_value "lnType"
      let ln_class := ln_node.attribute_value "lnClass"
      let ln_inst := ln_node.attribute_value "inst"
      m.assign ln_type (ln_class ++ ln_inst))
    []

/-- Body of the inner loop of the second pass for one `DO` of the `LNodeType`
with id `ln_type`; the state is `(lntype_lninst_mapping, do_ln_mapping)`. -/
def do_ln_step (ied_name ld_name ln_type : String) (st : unordered_map × unordered_map)
    (do_node : xml_tree) : unordered_map × unordered_map :=
  let do_namestring := do_node.attribute_value "name"
  let r := st.1.index ln_type
  (r.2, st.2.assign (do_node.attribute_value "type")
    (ied_name ++ ld_name ++ "/" ++ r.1 ++ "." ++ do_namestring))

/-- Second loop of `get_scl_variables`: the map `do_ln_mapping` (second
component), together with `lntype_lninst_mapping` after the reads. -/
def do_ln_pass (dtt : xml_node) (ied_name ld_name : String) (lntype_lninst_mapping : unordered_map) :
    unordered_map × unordered_map :=
  (dtt.children_named "LNodeType").foldl
    (fun st ln_node =>
      let ln_type := ln_node.attribute_value "id"
      (ln_node.node.children_named "DO").foldl
        (do_ln_step ied_name ld_name ln_type) st)
    (lntype_lninst_mapping, [])

/-- Body of the `DA` loop of the third pass; the state is `(do_ln_mapping,
globals)`. -/
def da_step (do_namestring : String) (st : unordered_map × Globals) (da_node : xml_tree) :
    unordered_map × Globals :=
  let r := st.1.index do_namestring
  (r.2, getVarAddrMapping da_node r.1 st.2)

/-- Third loop of `get_scl_variables`, over the `DOType` elements. -/
def dotype_pass (dtt : xml_node) (do_ln_mapping : unordered_map) (g : Globals) :
    unordered_map × Globals :=
  (dtt.children_named "DOType").foldl
    (fun st do_node =>
      let do_namestring := do_node.attribute_value "id"
      (do_node.node.children_named "DA").foldl (da_step do_namestring) st)
    (do_ln_mapping, g)

/-- The function `get_scl_variables`. -/
def get_scl_variables (sclfile : xml_document) (g : Globals) : Globals :=
  let dtt := (sclfile.node.child "SCL").child "DataTypeTemplates"
  let ied := (sclfile.node.child "SCL").child "IED"
  let ied_name := ied.attribute_value "name"
  let ld := ((ied.child "AccessPoint").child "Server").child "LDevice"
  let ld_name := ld.attribute_value "inst"
  let lntype_lninst_mapping := lntype_lninst_pass ld
  let do_ln_mapping := (do_ln_pass dtt ied_name ld_name lntype_lninst_mapping).2
  (dotype_pass dtt do_ln_mapping g).2

/-! ## Client-side extraction: endpoints, datasets, reports -/

/-- What ends a run abnormally: the exceptions of the standard library that the
program does not catch, and undefined behaviour. -/
inductive Exn where
  | invalid_argument
  | out_of_range
  | undefined_behaviour
  deriving DecidableEq, Repr

deriving instance DecidableEq for Except

/-- The function `get_IP_address`. -/
def get_IP_address (sclfile : xml_document) (g : Globals) : Globals :=
  let conap := (((sclfile.node.child "SCL").child "Communication").child
    "SubNetwork").child "ConnectedAP"
  (((conap.child "Address").children_named "P").foldl
    (fun (g : Globals) (ip : xml_tree) =>
      let iptype := ip.attribute_value "type"
      if iptype == "IP" then
        { g with ipaddr_buffer := g.ipaddr_buffer ++ [xml_node.first_child_text (some ip)] }
      else g)
    g)

/-- The function `get_dataSet_reference`. -/
def get_dataSet_reference (sclfile : xml_document) (given_name : String) : String :=
  let phydev := (sclfile.node.child "SCL").child "IED"
  let pdld_name := phydev.attribute_value "name"
  let logdev := ((phydev.child "AccessPoint").child "Server").child "LDevice"
  let pdld_name := pdld_name ++ logdev.attribute_value "inst"
  match ((logdev.child "LN0").children_named "DataSet").find?
      (fun dataset => dataset.attribute_value "name" == given_name) with
  | some dataset => pdld_name ++ "/LLN0$" ++ dataset.attribute_value "name"
  | none => "X"

/-- The white space that `strtol` skips (`isspace` in the C locale). -/
def isSpaceChar (c : Char) : Bool :=
  c == ' ' || c == '\t' || c == '\n' || c == '\x0b' || c == '\x0c' || c == '\r'

/-- Value of a string of decimal digits. -/
def digitsValue (ds : List Char) : Nat :=
  ds.foldl (fun acc c => 10 * acc + (c.toNat - '0'.toNat)) 0

/-- The call `std::stoi(s)`: skips leading white space, reads an optional sign
and the longest run of decimal digits; throws `invalid_argument` when there is no
digit and `out_of_range` when the value is not an `int`. -/
def stoi (s : String) : Except Exn Int :=
  let l := s.data.dropWhile isSpaceChar
  let signed : Bool × List Char :=
    match l with
    | '-' :: r => (true, r)
    | '+' :: r => (false, r)
    | _ => (false, l)
  let ds := signed.2.takeWhile Char.isDigit
  if ds.isEmpty then Except.error Exn.invalid_argument
  else
    let v : Int := if signed.1 then - (digitsValue ds : Int) else (digitsValue ds : Int)
    if v < -2147483648 || 2147483647 < v then Except.error Exn.out_of_range
    else Except.ok v

/-- The text that `sprintf(inst, "%02d", i)` writes for `i ≥ 0`: the decimal
digits of `i`, padded on the left with `0` to two characters. -/
def sprintf_02d (i : Nat) : String :=
  let ds := Nat.toDigits 10 i
  ⟨List.replicate (2 - ds.length) '0' ++ ds⟩

/-- The report instances that the inner `for` loop of `get_report_dataset`
appends for one `ReportControl`: `i` runs from 1 to `numInstances`. -/
def report_instances (pdld_name report_name dataset_ref : String) (numInstances : Int) :
    List String :=
  (List.range numInstances.toNat).map
    (fun k => pdld_name ++ "/LLN0.RP." ++ report_name ++ sprintf_02d (k + 1) ++ " " ++ dataset_ref)

/-- The outer loop of `get_report_dataset` over the `ReportControl` elements,
with `reports_datasets` as accumulator.  The buffer `char inst[10]` holds at most
nine digits, so a count of 1000000000 or more overruns it: undefined
behaviour. -/
def get_report_dataset_loop (sclfile : xml_document) (pdld_name : String) :
    List xml_tree → List String → Except Exn (List String)
  | [], reports_datasets => Except.ok reports_datasets
  | report :: rest, reports_datasets =>
    let report_name := report.attribute_value "name"
    let dataset_ref := get_dataSet_reference sclfile (report.attribute_value "datSet")
    match stoi ((report.node.child "RptEnabled").attribute_value "max") with
    | Except.error e => Except.error e
    | Except.ok numInstances =>
      if 1000000000 ≤ numInstances then Except.error Exn.undefined_behaviour
      else
        get_report_dataset_loop sclfile pdld_name rest
          (reports_datasets ++ report_instances pdld_name report_name dataset_ref numInstances)

/-- The function `get_report_dataset`. -/
def get_report_dataset (sclfile : xml_document) (g : Globals) : Except Exn Globals :=
  let phydev := (sclfile.node.child "SCL").child "IED"
  let pdld_name := phydev.attribute_value "name"
  let logdev := ((phydev.child "AccessPoint").child "Server").child "LDevice"
  let pdld_name := pdld_name ++ logdev.attribute_value "inst"
  match get_report_dataset_loop sclfile pdld_name
      ((logdev.child "LN0").children_named "ReportControl") [] with
  | Except.error e => Except.error e
  | Except.ok reports_datasets =>
    Except.ok { g with report_dataset_buffer := g.report_dataset_buffer ++ [reports_datasets] }

/-! ## process_scl_files -/

/-- Outcome of `sclfile.load_file(name)`: the parsed document, or one of the
failure statuses the program tells apart. -/
inductive load_result where
  | status_ok (sclfile : xml_document)
  | status_file_not_found
  | status_io_error
  | status_other

/-- The files the program can see: the contents of a readable text file, the
outcome of parsing an SCL file, and whether an output file can be created. -/
structure FileSystem where
  st_file : String → Option String
  scl_file : String → load_result
  out_creatable : String → Bool

/-- The `for` loop of `process_scl_files` over the remaining file names. -/
def process_scl_files_loop (fs : FileSystem) : List String → Globals → Except Exn (Int × Globals)
  | [], g => Except.ok (0, g)
  | it :: rest, g =>
    match fs.scl_file it with
    | .status_ok sclfile =>
      let g := get_scl_variables sclfile g
      if g.target == CLIENT then
        let g := get_IP_address sclfile g
        match get_report_dataset sclfile g with
        | Except.error e => Except.error e
        | Except.ok g =>
          process_scl_files_loop fs rest { g with controlVariables := g.controlVariables ++ [""] }
      else
        process_scl_files_loop fs rest g
    | _ => Except.ok (1, g)

/-- The function `process_scl_files`. -/
def process_scl_files (fs : FileSystem) (g : Globals) : Except Exn (Int × Globals) :=
  process_scl_files_loop fs g.sclfilenames g

/-! ## process_args -/

/-- The test `strncmp(arg, flag, strlen(flag)) == 0`: `arg` starts with
`flag`. -/
def starts_with (arg flag : String) : Bool :=
  flag.data.isPrefixOf arg.data

/-- The `for` loop of `process_args` over `argv[1..]`, with the locals `inST`,
`inSCL`, `inOutput`; the result is 1 when the loop returns early through
`print_command_error`, 0 when it runs to the end. -/
def process_args_loop : List String → Bool → Bool → Bool → Globals → Int × Globals
  | [], _, _, _, g => (0, g)
  | arg :: rest, inST, inSCL, inOutput, g =>
    if inST then
      process_args_loop rest false inSCL inOutput { g with stfilename := some arg }
    else if inOutput then
      process_args_loop rest inST inSCL false { g with outfilename := some arg, hasOutfile := true }
    else
      let inSCL1 := inSCL && !starts_with arg "-"
      let g := if inSCL1 then { g with sclfilenames := g.sclfilenames ++ [arg] } else g
      if !inSCL1 then
        if starts_with arg "-st" then process_args_loop rest true inSCL1 inOutput g
        else if starts_with arg "-scl" then process_args_loop rest inST true inOutput g
        else if starts_with arg "-o" then process_args_loop rest inST inSCL1 true g
        else if starts_with arg "-server" then
          if g.target > 0 then (1, g)
          else process_args_loop rest inST inSCL1 inOutput { g with target := SERVER }
        else if starts_with arg "-client" then
          if g.target > 0 then (1, g)
          else process_args_loop rest inST inSCL1 inOutput { g with target := CLIENT }
        else (1, g)
      else process_args_loop rest inST inSCL1 inOutput g

/-- The function `process_args`; `argv` includes the program name `argv[0]` and
`argc` is its length. -/
def process_args (argv : List String) (g : Globals) : Int × Globals :=
  if argv.length < 6 then (1, g)
  else
    let r := process_args_loop (argv.drop 1) false false false
      { g with numSCL := 0, target := NO_TARGET }
    if r.1 != 0 then r
    else if r.2.target == NO_TARGET then (1, r.2)
    else if r.2.target == SERVER && r.2.sclfilenames.length > 1 then (1, r.2)
    else (0, r.2)

/-! ## main -/

/-- The call `v.at(i)`: throws `out_of_range` beyond the end. -/
def vector_at {α : Type} (v : List α) (i : Nat) : Except Exn α :=
  match v.get? i with
  | some x => Except.ok x
  | none => Except.error Exn.out_of_range

/-- The inner loop `for (j; j < controlVariables.size(); j++)` of `main`, run on
the entries from position `j` on: the lines written, and by how much `j` has
advanced when the loop is left. -/
def control_group : List String → List String × Nat
  | [] => ([], 0)
  | line :: rest =>
    if line == "" then ([], 1)
    else ((line :: (control_group rest).1), (control_group rest).2 + 1)

/-- The client loop of `main` over the documents `i, i+1, …` (`n` of them are
left), with the running index `j` into `controlVariables`: the lines written to
`out`. -/
def client_groups (g : Globals) : Nat → Nat → Nat → Except Exn (List String)
  | 0, _, _ => Except.ok []
  | n + 1, i, j =>
    if g.ipaddr_buffer.length > 0 then
      match vector_at g.ipaddr_buffer i with
      | Except.error e => Except.error e
      | Except.ok ip =>
        match vector_at g.report_dataset_buffer i with
        | Except.error e => Except.error e
        | Except.ok report_datasets =>
          let c := control_group (g.controlVariables.drop j)
          match client_groups g n (i + 1) (j + c.2) with
          | Except.error e => Except.error e
          | Except.ok rest => Except.ok (ip :: (report_datasets ++ c.1 ++ rest))
    else Except.ok []

/-- The output section of `main`: the lines written to the stream `out` (the
output file, or standard output without the console headings). -/
def write_output (g : Globals) : Except Exn (List String) :=
  if g.target == SERVER then
    Except.ok g.mapvaraddr_buffer
  else if g.target == CLIENT then
    match client_groups g g.sclfilenames.length 0 0 with
    | Except.error e => Except.error e
    | Except.ok lines => Except.ok (lines ++ [""] ++ g.mapvaraddr_buffer)
  else Except.ok []

/-- The function `main`: the exit code and the lines written to `out` by a run
that ends normally.  Printing the null `stfilename` is undefined behaviour. -/
def main (fs : FileSystem) (argv : List String) : Except Exn (Int × List String) :=
  let a := process_args argv Globals.initial
  if a.1 != 0 then Except.ok (1, [])
  else
    match a.2.stfilename with
    | none => Except.error Exn.undefined_behaviour
    | some stname =>
      if a.2.hasOutfile && !fs.out_creatable (a.2.outfilename.getD "") then Except.ok (1, [])
      else
        let b := process_st_file (fs.st_file stname) a.2
        if b.1 != 0 then Except.ok (1, [])
        else
          match process_scl_files fs b.2 with
          | Except.error e => Except.error e
          | Except.ok c =>
            if c.1 != 0 then Except.ok (1, [])
            else
              match write_output c.2 with
              | Except.error e => Except.error e
              | Except.ok lines => Except.ok (0, lines)

/-! ## Notions of the specification: blocks and accepted binding lines -/

/-- The trimmed line is a binding of `name` to `addr`: it reads
`name AT addr : type;` with `name` in `[a-zA-Z0-9_]+`, `addr` a `%` followed by
`[A-Z0-9.]+` and `type` in `[A-Z0]+`; this is the language of `reg`. -/
def BindingLine (line name addr : String) : Prop :=
  ∃ a ty : List Char,
    line = name ++ " AT " ++ addr ++ " : " ++ String.mk ty ++ ";" ∧
    name.data ≠ [] ∧ (∀ c ∈ name.data, isNameChar c = true) ∧
    addr.data = '%' :: a ∧ a ≠ [] ∧ (∀ c ∈ a, isAddrChar c = true) ∧
    ty ≠ [] ∧ (∀ c ∈ ty, isTypeChar c = true)

/-- What `process_st_line` stores for a line in a block: the first and the third
blank-separated token when the line matches `reg`. -/
def parsed_binding (line : String) : Option (String × String) :=
  if regex_match_reg line then
    let t1 := getline_blank line.data
    let t2 := getline_blank t1.2
    let t3 := getline_blank t2.2
    some (⟨t1.1⟩, ⟨t3.1⟩)
  else none

/-- Line `i` of the trimmed lines `ls` lies in a block: some earlier line `j` is
`VAR` and no line strictly between `j` and `i` is `END_VAR`. -/
def InBlock (ls : List String) (i : Nat) : Prop :=
  ∃ j, j < i ∧ ls[j]? = some "VAR" ∧ ∀ k, j < k → k < i → ls[k]? ≠ some "END_VAR"

/-- Line `i` is an accepted binding of `name` to `addr`: it lies in a block and
has the binding form. -/
def AcceptedAt (ls : List String) (i : Nat) (name addr : String) : Prop :=
  InBlock ls i ∧ ∃ line, ls[i]? = some line ∧ BindingLine line name addr

/-! ## The minimal example of the specification -/

/-- Binding source of the minimal example: one `VAR` block with one binding. -/
def minimal_st : String :=
  "VAR\nV1 AT %IX0.0 : BOOL;\nEND_VAR\n"

/-- The structural document of the minimal example around a given `Property`
element: device `D`, logical device `1`, one `LN` of type `T1`, class `P`,
instance `1`, one `LNodeType` `T1` with the `DO` `Pos` of type `DOT1`, and the
`DOType` `DOT1` with one `DA` holding the property. -/
def minimal_scl (property : xml_tree) : xml_document :=
  .element "" [] [
    .element "SCL" [] [
      .element "IED" [("name", "D")] [
        .element "AccessPoint" [("name", "AP")] [
          .element "Server" [] [
            .element "LDevice" [("inst", "1")] [
              .element "LN" [("lnType", "T1"), ("lnClass", "P"), ("inst", "1")] []]]]],
      .element "DataTypeTemplates" [] [
        .element "LNodeType" [("id", "T1"), ("lnClass", "P")] [
          .element "DO" [("name", "Pos"), ("type", "DOT1")] []],
        .element "DOType" [("id", "DOT1")] [
          .element "DA" [("name", "stVal")] [property]]]]]

/-- The property of the minimal example, of name `sMonitoringVar` and value `V1`;
the program reads them from the attributes `Name` and `Value`. -/
def property_capitalised : xml_tree :=
  .element "Property" [("Name", "sMonitoringVar"), ("Value", "V1")] []

/-- A file system holding the minimal example as `prog.st` and `ied.scl`. -/
def minimal_fs (property : xml_tree) : FileSystem where
  st_file := fun f => if f == "prog.st" then some minimal_st else none
  scl_file := fun f =>
    if f == "ied.scl" then .status_ok (minimal_scl property) else .status_file_not_found
  out_creatable := fun _ => true

/-- The server invocation of the minimal example. -/
def minimal_argv : List String :=
  ["mapper", "-server", "-st", "prog.st", "-scl", "ied.scl"]

/-- A source with a binding outside a block, two bindings of `V1` in a block and
a line in the block that is not a binding. -/
def sample_st : String :=
  "V0 AT %IX9.9 : BOOL;\nVAR\n  V1 AT %IX0.0 : BOOL;\n  x : INT;\n  V1 AT %QX0.1 : BOOL;\nEND_VAR\n"

/-! ## Notions of the specification: the walk of a data attribute -/

/-- The address that `property_step` writes for the property value `v` when the
binding table is `m`: the stored address, `X` when there is none (or when it is
empty). -/
def resolve (m : unordered_map) (v : String) : String :=
  match m.find v with
  | some a => if a == "" then "X" else a
  | none => "X"

mutual
/-- The `Property` elements that the walk below a node reaches, in document
order, each with the names of the `Private` containers passed on the way down
(outermost first).  The `Property` children of a node that also has a `Private`
child are not reached. -/
def visited_leaves : xml_tree → List (List String × xml_tree)
  | .pcdata _ => []
  | .element _ _ cs =>
    if cs.any (xml_tree.isNamed "Private") then visited_leaves_private cs
    else (cs.filter (xml_tree.isNamed "Property")).map (fun leaf => ([], leaf))
/-- The leaves reached through the `Private` elements of a list of siblings. -/
def visited_leaves_private : List xml_tree → List (List String × xml_tree)
  | [] => []
  | c :: rest =>
    if c.isNamed "Private" then
      (visited_leaves c).map (fun l => (c.attribute_value "name" :: l.1, l.2))
        ++ visited_leaves_private rest
    else visited_leaves_private rest
end

mutual
/-- Every `Property` element below a node that is reached through nested
`Private` containers only, in document order, with the container names; unlike
`visited_leaves` this takes the `Property` children of every node. -/
def property_leaves : xml_tree → List (List String × xml_tree)
  | .pcdata _ => []
  | .element _ _ cs => property_leaves_list cs
/-- The leaves below a list of siblings, in document order. -/
def property_leaves_list : List xml_tree → List (List String × xml_tree)
  | [] => []
  | c :: rest =>
    if c.isNamed "Private" then
      (property_leaves c).map (fun l => (c.attribute_value "name" :: l.1, l.2))
        ++ property_leaves_list rest
    else if c.isNamed "Property" then ([], c) :: property_leaves_list rest
    else property_leaves_list rest
end

/-- The path of a leaf: the start path followed by `.` and the container name
for each container, `p + "." + n1 + … + "." + nk`. -/
def leaf_path (p : String) (names : List String) : String :=
  names.foldl (fun acc n => acc ++ "." ++ n) p

/-- The record of a leaf: `MONITOR path address` for a property named
`sMonitoringVar`, `CONTROL path address` for one named `sControlVar`, when the
value is not empty; no record otherwise.  `res` resolves a value to its
address. -/
def leaf_record (res : String → String) (p : String) (l : List String × xml_tree) :
    Option String :=
  let value := l.2.attribute_value "Value"
  if l.2.attribute_value "Name" == "sMonitoringVar" && value != "" then
    some ("MONITOR " ++ leaf_path p l.1 ++ " " ++ res value)
  else if l.2.attribute_value "Name" == "sControlVar" && value != "" then
    some ("CONTROL " ++ leaf_path p l.1 ++ " " ++ res value)
  else none

/-- The control-variable line of a leaf: `path address` for a property named
`sControlVar` with a non-empty value. -/
def leaf_control (res : String → String) (p : String) (l : List String × xml_tree) :
    Option String :=
  let value := l.2.attribute_value "Value"
  if l.2.attribute_value "Name" == "sControlVar" && value != "" then
    some (leaf_path p l.1 ++ " " ++ res value)
  else none

/-- The records of a list of leaves when the target is `CLIENT` or `SERVER`;
nothing is recorded for another target. -/
def records_of (target : Nat) (res : String → String) (p : String)
    (ls : List (List String × xml_tree)) : List String :=
  if target == CLIENT || target == SERVER then ls.filterMap (leaf_record res p) else []

/-- The control-variable lines of a list of leaves, kept for the target
`CLIENT` only. -/
def controls_of (target : Nat) (res : String → String) (p : String)
    (ls : List (List String × xml_tree)) : List String :=
  if target == CLIENT then ls.filterMap (leaf_control res p) else []

/-- The globals after a walk: a new binding table, records appended to
`mapvaraddr_buffer`, lines appended to `controlVariables`, all else kept. -/
def Globals.emit (g : Globals) (m : unordered_map) (records controls : List String) :
    Globals :=
  { g with
    var_addr_map := m
    mapvaraddr_buffer := g.mapvaraddr_buffer ++ records
    controlVariables := g.controlVariables ++ controls }

/-- The value that reading `m[k]` yields: the stored string, the empty string
for an absent key. -/
def lookup_or_empty (m : unordered_map) (k : String) : String :=
  (m.find k).getD ""

/-- The map `do_ln_mapping` that `get_scl_variables` builds for a document. -/
def scl_do_ln_mapping (sclfile : xml_document) : unordered_map :=
  let dtt := (sclfile.node.child "SCL").child "DataTypeTemplates"
  let ied := (sclfile.node.child "SCL").child "IED"
  let ld := ((ied.child "AccessPoint").child "Server").child "LDevice"
  (do_ln_pass dtt (ied.attribute_value "name") (ld.attribute_value "inst")
    (lntype_lninst_pass ld)).2

/-- The `DOType` elements of a document, in document order. -/
def scl_dotypes (sclfile : xml_document) : List xml_tree :=
  ((sclfile.node.child "SCL").child "DataTypeTemplates").children_named "DOType"

/-- The records of a document: for every `DOType` in document order, for every
`DA` of it in document order, the records of the leaves reached from the `DA`,
the start path being the one indexed under the id of the `DOType`. -/
def scl_records (target : Nat) (res : String → String) (sclfile : xml_document) :
    List String :=
  (scl_dotypes sclfile).flatMap (fun dt =>
    (dt.node.children_named "DA").flatMap (fun da =>
      records_of target res
        (lookup_or_empty (scl_do_ln_mapping sclfile) (dt.attribute_value "id"))
        (visited_leaves da)))

/-- The control-variable lines of a document, in the same order. -/
def scl_controls (target : Nat) (res : String → String) (sclfile : xml_document) :
    List String :=
  (scl_dotypes sclfile).flatMap (fun dt =>
    (dt.node.children_named "DA").flatMap (fun da =>
      controls_of target res
        (lookup_or_empty (scl_do_ln_mapping sclfile) (dt.attribute_value "id"))
        (visited_leaves da)))

/-- The address of a property value by the table alone: the address stored
under the value when it is a key, `X` when it is not. -/
def table_address (m : unordered_map) (v : String) : String :=
  match m.find v with
  | some a => a
  | none => "X"

/-- The device name and the first logical device of a document, as
`get_scl_variables` reads them. -/
def scl_ied_name (sclfile : xml_document) : String :=
  ((sclfile.node.child "SCL").child "IED").attribute_value "name"

/-- The first `LDevice` of the document (a null handle when there is none). -/
def scl_ldevice (sclfile : xml_document) : xml_node :=
  ((((sclfile.node.child "SCL").child "IED").child "AccessPoint").child "Server").child "LDevice"

/-- The label of the logical node type `L`: `lnClass` followed by `inst` of the
`LN` under the first `LDevice` whose `lnType` is `L` (the last one, should there
be several), the empty string when no `LN` has that type. -/
def ln_label (sclfile : xml_document) (L : String) : String :=
  match (((scl_ldevice sclfile).children_named "LN").filter
      (fun ln => ln.attribute_value "lnType" == L)).getLast? with
  | some ln => ln.attribute_value "lnClass" ++ ln.attribute_value "inst"
  | none => ""

/-- The `DO` entries of a document in document order, each with the id of its
`LNodeType`. -/
def scl_do_entries (sclfile : xml_document) : List (String × xml_tree) :=
  (((sclfile.node.child "SCL").child "DataTypeTemplates").children_named "LNodeType").flatMap
    (fun lt => (lt.node.children_named "DO").map (fun d => (lt.attribute_value "id", d)))

/-- The path composed for a `DO` entry of the `LNodeType` with id `e.1`:
device name, logical device instance, `/`, label, `.`, name of the `DO`. -/
def do_path (sclfile : xml_document) (e : String × xml_tree) : String :=
  scl_ied_name sclfile ++ (scl_ldevice sclfile).attribute_value "inst" ++ "/" ++
    ln_label sclfile e.1 ++ "." ++ e.2.attribute_value "name"

mutual
/-- No node of the tree has both a `Private` and a `Property` child. -/
def unmixed : xml_tree → Bool
  | .pcdata _ => true
  | .element _ _ cs =>
    !(cs.any (xml_tree.isNamed "Private") && cs.any (xml_tree.isNamed "Property"))
      && unmixed_list cs
/-- All trees of a list are unmixed. -/
def unmixed_list : List xml_tree → Bool
  | [] => true
  | c :: rest => unmixed c && unmixed_list rest
end

/-- A data attribute with a `Private` container and, next to it, a `Property`
of its own. -/
def mixed_da : xml_tree :=
  .element "DA" [("name", "stVal")] [
    .element "Private" [("name", "a")] [
      .element "Property" [("Name", "sMonitoringVar"), ("Value", "V1")] []],
    .element "Property" [("Name", "sMonitoringVar"), ("Value", "V2")] []]

/-! ## Notions of the specification: reports, datasets, endpoints -/

/-- The device name followed by the instance of the first logical device. -/
def scl_pdld_name (sclfile : xml_document) : String :=
  scl_ied_name sclfile ++ (scl_ldevice sclfile).attribute_value "inst"

/-- The `DataSet` elements under the `LN0` of the first logical device. -/
def scl_datasets (sclfile : xml_document) : List xml_tree :=
  ((scl_ldevice sclfile).child "LN0").children_named "DataSet"

/-- The `ReportControl` elements under the `LN0` of the first logical device, in
declaration order. -/
def scl_reports (sclfile : xml_document) : List xml_tree :=
  ((scl_ldevice sclfile).child "LN0").children_named "ReportControl"

/-- The declared maximum instance count of a `ReportControl`, as
`get_report_dataset` reads it. -/
def report_max (report : xml_tree) : Except Exn Int :=
  stoi ((report.node.child "RptEnabled").attribute_value "max")

/-- The count of a report is readable and fits the buffer of `sprintf`. -/
def report_readable (report : xml_tree) : Bool :=
  match report_max report with
  | Except.ok n => decide (n < 1000000000)
  | Except.error _ => false

/-- The declared count of a report, 0 when it cannot be read. -/
def report_count (report : xml_tree) : Int :=
  match report_max report with
  | Except.ok n => n
  | Except.error _ => 0

/-- The endpoints that `get_IP_address` appends for a document. -/
def scl_endpoints (sclfile : xml_document) : List String :=
  (get_IP_address sclfile Globals.initial).ipaddr_buffer

/-- A `ReportControl` element with a `RptEnabled` child. -/
def sample_report (name datSet max : String) : xml_tree :=
  .element "ReportControl" [("name", name), ("datSet", datSet)] [
    .element "RptEnabled" [("max", max)] []]

/-- A `ReportControl` element without a `RptEnabled` child. -/
def sample_report_no_max (name datSet : String) : xml_tree :=
  .element "ReportControl" [("name", name), ("datSet", datSet)] []

/-- A document for the client role: device `name`, logical device `1` with the
dataset `ds1` and the given reports under `LN0`, one `LN` of type `T1`, one
`DO` `Pos` of type `DOT1` whose `DA` holds the given children, and one
`P type="IP"` entry for each of the given addresses. -/
def sample_scl (name : String) (ips : List String) (reports : List xml_tree)
    (da_children : List xml_tree) : xml_document :=
  .element "" [] [
    .element "SCL" [] [
      .element "Communication" [] [
        .element "SubNetwork" [("name", "net")] [
          .element "ConnectedAP" [("iedName", name)] [
            .element "Address" []
              (.element "P" [("type", "IP-SUBNET")] [.pcdata "255.255.255.0"] ::
                ips.map (fun ip => .element "P" [("type", "IP")] [.pcdata ip]))]]],
      .element "IED" [("name", name)] [
        .element "AccessPoint" [("name", "AP")] [
          .element "Server" [] [
            .element "LDevice" [("inst", "1")] [
              .element "LN0" [("lnType", "T0"), ("lnClass", "LLN0"), ("inst", "")]
                (.element "DataSet" [("name", "ds1")] [] :: reports),
              .element "LN" [("lnType", "T1"), ("lnClass", "P"), ("inst", "1")] []]]]],
      .element "DataTypeTemplates" [] [
        .element "LNodeType" [("id", "T1"), ("lnClass", "P")] [
          .element "DO" [("name", "Pos"), ("type", "DOT1")] []],
        .element "DOType" [("id", "DOT1")] [
          .element "DA" [("name", "stVal")] da_children]]]]

/-- A `Property` element. -/
def sample_property (name value : String) : xml_tree :=
  .element "Property" [("Name", name), ("Value", value)] []

/-- The report instances of a document: for each `ReportControl` in declaration
order, the instances 1 to its count in ascending order. -/
def scl_report_list (sclfile : xml_document) : List String :=
  (scl_reports sclfile).flatMap (fun report =>
    (List.range (report_count report).toNat).map (fun k =>
      scl_pdld_name sclfile ++ "/LLN0.RP." ++ report.attribute_value "name" ++
        sprintf_02d (k + 1) ++ " " ++
        get_dataSet_reference sclfile (report.attribute_value "datSet")))

/-- The record dump of the server role for one document alone, with the binding
table `tbl`. -/
def server_dump (tbl : unordered_map) (sclfile : xml_document) : List String :=
  (get_scl_variables sclfile
    { Globals.initial with target := SERVER, var_addr_map := tbl }).mapvaraddr_buffer

/-- A file system with the minimal binding source as `prog.st` and the given
documents under the given names. -/
def sample_fs (files : List (String × xml_document)) : FileSystem where
  st_file := fun f => if f == "prog.st" then some minimal_st else none
  scl_file := fun f =>
    match files.lookup f with
    | some d => .status_ok d
    | none => .status_file_not_found
  out_creatable := fun _ => true

/-- A first client document: one endpoint, a report with two instances, a control
variable bound in the minimal source and a monitored variable that is not. -/
def sample_doc_a : xml_document :=
  sample_scl "A" ["10.0.0.1"] [sample_report "rcb" "ds1" "2"]
    [sample_property "sControlVar" "V1", sample_property "sMonitoringVar" "V9"]

/-- A second client document: one endpoint, no report, no variable. -/
def sample_doc_b : xml_document :=
  sample_scl "B" ["10.0.0.2"] [] []

/-- The file system holding the two client documents. -/
def sample_client_fs : FileSystem :=
  sample_fs [("a.scl", sample_doc_a), ("b.scl", sample_doc_b)]

/-- The globals of a client run over the two documents when `process_scl_files`
is entered: the binding table of the minimal source is loaded, the buffers are
empty. -/
def sample_client_globals : Globals :=
  { Globals.initial with
    target := CLIENT
    stfilename := some "prog.st"
    sclfilenames := ["a.scl", "b.scl"]
    var_addr_map := st_table minimal_st }

/-- The `P` entries of type `IP` under the `Address` of the first `ConnectedAP`,
in document order. -/
def scl_ip_entries (sclfile : xml_document) : List xml_tree :=
  ((((((sclfile.node.child "SCL").child "Communication").child "SubNetwork").child
    "ConnectedAP").child "Address").children_named "P").filter
      (fun ip => ip.attribute_value "type" == "IP")

/-- The text content of a `P` entry, as `get_IP_address` reads it. -/
def ip_text (ip : xml_tree) : String :=
  xml_node.first_child_text (some ip)

/-- The scan of the arguments by the loop of `process_args` when it is called
from `main`: the return code of the loop and the globals it leaves. -/
def args_scan (argv : List String) : Int × Globals :=
  process_args_loop (argv.drop 1) false false false
    { Globals.initial with numSCL := 0, target := NO_TARGET }

/-! ## Notions of the specification: the grammar of a record -/

/-- The tokens of a line: the pieces between single blanks. -/
def split_blank : List Char → List (List Char)
  | [] => [[]]
  | c :: cs =>
    if c == ' ' then [] :: split_blank cs
    else
      match split_blank cs with
      | [] => [[c]]
      | t :: ts => (c :: t) :: ts

/-- A line is a record: exactly three non-empty tokens separated by single
blanks, the first being `MONITOR` or `CONTROL`. -/
def is_record (r : String) : Bool :=
  match split_blank r.data with
  | [role, path, addr] =>
    (role == "MONITOR".data || role == "CONTROL".data) && !path.isEmpty && !addr.isEmpty
  | _ => false

/-- The string holds no blank. -/
def no_blank (s : String) : Bool :=
  s.data.all (fun c => c != ' ')

mutual
/-- No attribute value in the tree holds a blank. -/
def clean : xml_tree → Bool
  | .pcdata _ => true
  | .element _ attrs cs => attrs.all (fun a => no_blank a.2) && clean_list cs
/-- All trees of the list are clean. -/
def clean_list : List xml_tree → Bool
  | [] => true
  | c :: rest => clean c && clean_list rest
end

/-- The minimal document with the `DOType` renamed to `DOT2`, a type that no
`DO` refers to. -/
def orphan_scl : xml_document :=
  .element "" [] [
    .element "SCL" [] [
      .element "IED" [("name", "D")] [
        .element "AccessPoint" [("name", "AP")] [
          .element "Server" [] [
            .element "LDevice" [("inst", "1")] [
              .element "LN" [("lnType", "T1"), ("lnClass", "P"), ("inst", "1")] []]]]],
      .element "DataTypeTemplates" [] [
        .element "LNodeType" [("id", "T1"), ("lnClass", "P")] [
          .element "DO" [("name", "Pos"), ("type", "DOT1")] []],
        .element "DOType" [("id", "DOT2")] [
          .element "DA" [("name", "stVal")] [property_capitalised]]]]]

mutual
/-- No attribute value in the tree is empty. -/
def values_nonempty : xml_tree → Bool
  | .pcdata _ => true
  | .element _ attrs cs => attrs.all (fun a => a.2 != "") && values_nonempty_list cs
/-- No attribute value in the trees of the list is empty. -/
def values_nonempty_list : List xml_tree → Bool
  | [] => true
  | c :: rest => values_nonempty c && values_nonempty_list rest
end

/-- The table `m'` is `m` followed by keys bound to the empty string. -/
def grows (m m' : unordered_map) : Prop :=
  ∃ extra : List String, m' = m ++ extra.map (fun k => (k, ""))

/-- The value of a `Property` leaf that asks for a binding (named
`sMonitoringVar` or `sControlVar`, with a value) is a key of the table. -/
def leaf_bound (m : unordered_map) (leaf : xml_tree) : Prop :=
  (leaf.attribute_value "Name" = "sMonitoringVar" ∨
      leaf.attribute_value "Name" = "sControlVar") →
    leaf.attribute_value "Value" ≠ "" → leaf.attribute_value "Value" ∈ m.keys

/-- The records that the walk of a node appends, seen alone: the buffer after a
walk that starts with an empty buffer. -/
def walk_output (t : xml_tree) (p : String) (g : Globals) : List String :=
  (getVarAddrMapping t p { g with mapvaraddr_buffer := [] }).mapvaraddr_buffer

/-- The records found under one `DOType` of a document: those of the leaves
reached from its `DA` elements, each leaf once, from the start path `start`. -/
def dotype_records (res : String → String) (start : String) (dt : xml_tree) : List String :=
  (dt.node.children_named "DA").flatMap (fun da =>
    (visited_leaves da).filterMap (leaf_record res start))

/-- The line of a `CONTROL` record without its leading `CONTROL `; nothing for
another line. -/
def strip_control (r : String) : Option String :=
  if starts_with r "CONTROL " then some ⟨r.data.drop 8⟩ else none

/-- A document in which two `DO` entries, of two `LNodeType`s, share the type
`DOT1`, and two `LN` elements share the type `T2`. -/
def shared_type_scl : xml_document :=
  .element "" [] [
    .element "SCL" [] [
      .element "IED" [("name", "D")] [
        .element "AccessPoint" [("name", "AP")] [
          .element "Server" [] [
            .element "LDevice" [("inst", "1")] [
              .element "LN" [("lnType", "T1"), ("lnClass", "P"), ("inst", "1")] [],
              .element "LN" [("lnType", "T2"), ("lnClass", "Q"), ("inst", "1")] [],
              .element "LN" [("lnType", "T2"), ("lnClass", "Q"), ("inst", "2")] []]]]],
      .element "DataTypeTemplates" [] [
        .element "LNodeType" [("id", "T1"), ("lnClass", "P")] [
          .element "DO" [("name", "Pos"), ("type", "DOT1")] []],
        .element "LNodeType" [("id", "T2"), ("lnClass", "Q")] [
          .element "DO" [("name", "Op"), ("type", "DOT1")] []],
        .element "DOType" [("id", "DOT1")] [
          .element "DA" [("name", "stVal")] [
            sample_property "sMonitoringVar" "V1", sample_property "sControlVar" "V1"]]]]]

/-- The sign and the rest that `std::stoi` finds after the leading white space
of a string. -/
def stoi_scan (s : String) : Bool × List Char :=
  match s.data.dropWhile isSpaceChar with
  | '-' :: r => (true, r)
  | '+' :: r => (false, r)
  | _ => (false, s.data.dropWhile isSpaceChar)

/-- What is left of a string for `std::stoi` to read digits from: the string
without its leading white space and without one sign. -/
def after_sign (s : String) : List Char :=
  (stoi_scan s).2

/-- The integer that the string begins with, after optional white space and an
optional sign: the value of the longest run of digits, negated after `-`. -/
def leading_integer (s : String) : Int :=
  if (stoi_scan s).1 then - (digitsValue ((after_sign s).takeWhile Char.isDigit) : Int)
  else (digitsValue ((after_sign s).takeWhile Char.isDigit) : Int)

/-- The string begins, after optional white space and an optional sign, with a
decimal digit. -/
def begins_with_integer (s : String) : Bool :=
  match after_sign s with
  | c :: _ => c.isDigit
  | [] => false

/-- The string begins with a decimal digit. -/
def begins_with_digit (s : String) : Bool :=
  match s.data with
  | c :: _ => c.isDigit
  | [] => false

/-- The value of the `max` attribute of the `RptEnabled` child of a report. -/
def report_max_text (report : xml_tree) : String :=
  (report.node.child "RptEnabled").attribute_value "max"

/-- The string with its maximal prefix and its maximal suffix of characters of the set
`" \n\r\t"` removed. -/
def trim_both_ends (l : List Char) : List Char :=
  (l.dropWhile isTrimChar).rdropWhile isTrimChar

/-! ## Notions of the specification: the command line -/

/-- One option of the command line, as the usage text lists them: a role, the
binding source, a run of structural documents, the output destination. -/
inductive arg_option
  | server
  | client
  | st (file : String)
  | scl (docs : List String)
  | out (file : String)
  deriving DecidableEq

/-- The words an option takes on the command line. -/
def arg_option.words : arg_option → List String
  | .server => ["-server"]
  | .client => ["-client"]
  | .st file => ["-st", file]
  | .scl docs => "-scl" :: docs
  | .out file => ["-o", file]

/-- The structural-document paths an option supplies. -/
def arg_option.documents : arg_option → List String
  | .scl docs => docs
  | _ => []

/-- A document path does not begin with a dash (a word that does is a flag). -/
def arg_option.well_formed : arg_option → Bool
  | .scl docs => docs.all (fun d => d.data.head? != some '-')
  | _ => true

/-- The argument list made of the program name, the words of the options in
order, and any further words. -/
def command_line (prog : String) (opts : List arg_option) (rest : List String) : List String :=
  prog :: (opts.flatMap arg_option.words ++ rest)

/-- A line after whitespace trimming: the line without its maximal prefix and
its maximal suffix of characters of the set `" \n\r\t"`. -/
def trimmed (line : String) : String :=
  ⟨trim_both_ends line.data⟩

/-- A source delivered with carriage returns and indentation: one block with
one binding. -/
def crlf_st : String :=
  "VAR\r\n\t V1 AT %IX0.0 : BOOL; \r\nEND_VAR\r\n"

/-! ## Theorems -/

/-! ### The binding pattern -/

theorem match_plus_append (p : Char → Bool) (n : List Char) (c : Char) (r : List Char)
    (hn : n ≠ []) (hp : ∀ x ∈ n, p x = true) (hc : p c = false) :
    match_plus p (n ++ c :: r) = some (c :: r) := by
  unfold match_plus
  rw [List.takeWhile_append_of_pos hp, List.dropWhile_append_of_pos hp,
    List.takeWhile_cons_of_neg (by simp [hc]), List.dropWhile_cons_of_neg (by simp [hc])]
  cases n with
  | nil => exact absurd rfl hn
  | cons a t => simp

theorem match_plus_some (p : Char → Bool) (s r : List Char) (h : match_plus p s = some r) :
    ∃ n, s = n ++ r ∧ n ≠ [] ∧ (∀ x ∈ n, p x = true) := by
  unfold match_plus at h
  split at h
  · exact absurd h (by simp)
  · rename_i hne
    refine ⟨s.takeWhile p, ?_, ?_, fun x hx => List.mem_takeWhile_imp hx⟩
    · have := Option.some.inj h
      rw [← this, List.takeWhile_append_dropWhile]
    · intro h0; exact hne (by simp [h0])

theorem match_lit_append (lit r : List Char) : match_lit lit (lit ++ r) = some r := by
  unfold match_lit
  have : lit.isPrefixOf (lit ++ r) = true := by
    rw [List.isPrefixOf_iff_prefix]; exact List.prefix_append lit r
  simp [this]

theorem match_lit_some (lit s r : List Char) (h : match_lit lit s = some r) : s = lit ++ r := by
  unfold match_lit at h
  split at h
  · rename_i hp
    rw [List.isPrefixOf_iff_prefix, List.prefix_iff_eq_append] at hp
    have := Option.some.inj h
    rw [← this, hp]
  · exact absurd h (by simp)

theorem getline_blank_append (n r : List Char) (hn : ∀ x ∈ n, x ≠ ' ') :
    getline_blank (n ++ ' ' :: r) = (n, r) := by
  unfold getline_blank
  have hp : ∀ x ∈ n, (fun c => c != ' ') x = true := by
    intro x hx; simpa using hn x hx
  rw [List.takeWhile_append_of_pos hp, List.dropWhile_append_of_pos hp]
  simp

theorem isNameChar_ne_blank (c : Char) (h : isNameChar c = true) : c ≠ ' ' := by
  rintro rfl; revert h; decide

theorem isAddrChar_ne_blank (c : Char) (h : isAddrChar c = true) : c ≠ ' ' := by
  rintro rfl; revert h; decide

theorem BindingLine_data {line name addr : String} (h : BindingLine line name addr) :
    ∃ a ty : List Char,
      line.data = name.data ++ ' ' :: 'A' :: 'T' :: ' ' :: '%' :: (a ++ ' ' :: ':' :: ' ' :: (ty ++ [';'])) ∧
      name.data ≠ [] ∧ (∀ c ∈ name.data, isNameChar c = true) ∧
      addr.data = '%' :: a ∧ a ≠ [] ∧ (∀ c ∈ a, isAddrChar c = true) ∧
      ty ≠ [] ∧ (∀ c ∈ ty, isTypeChar c = true) := by
  obtain ⟨a, ty, hl, h1, h2, h3, h4, h5, h6, h7⟩ := h
  refine ⟨a, ty, ?_, h1, h2, h3, h4, h5, h6, h7⟩
  rw [hl]
  simp only [String.data_append, h3]
  show name.data ++ [' ', 'A', 'T', ' '] ++ '%' :: a ++ [' ', ':', ' '] ++ ty ++ [';'] = _
  simp

theorem lit_at : " AT %".data = [' ', 'A', 'T', ' ', '%'] := rfl
theorem lit_colon : " : ".data = [' ', ':', ' '] := rfl

theorem parsed_binding_of_data (line : String) (n a ty : List Char)
    (hl : line.data = n ++ ' ' :: 'A' :: 'T' :: ' ' :: '%' :: (a ++ ' ' :: ':' :: ' ' :: (ty ++ [';'])))
    (h1 : n ≠ []) (h2 : ∀ c ∈ n, isNameChar c = true)
    (h4 : a ≠ []) (h5 : ∀ c ∈ a, isAddrChar c = true)
    (h6 : ty ≠ []) (h7 : ∀ c ∈ ty, isTypeChar c = true) :
    parsed_binding line = some (⟨n⟩, ⟨'%' :: a⟩) := by
  have hm : regex_match_reg line = true := by
    unfold regex_match_reg
    rw [hl, match_plus_append isNameChar n ' ' _ h1 h2 (by decide), lit_at, lit_colon,
      Option.some_bind]
    have m1 : ∀ r : List Char,
        match_lit [' ', 'A', 'T', ' ', '%'] (' ' :: 'A' :: 'T' :: ' ' :: '%' :: r) = some r :=
      fun r => match_lit_append [' ', 'A', 'T', ' ', '%'] r
    have m2 : ∀ r : List Char, match_lit [' ', ':', ' '] (' ' :: ':' :: ' ' :: r) = some r :=
      fun r => match_lit_append [' ', ':', ' '] r
    rw [m1, Option.some_bind,
      match_plus_append isAddrChar a ' ' _ h4 h5 (by decide), Option.some_bind,
      m2, Option.some_bind,
      match_plus_append isTypeChar ty ';' [] h6 h7 (by decide)]
    simp
  unfold parsed_binding
  rw [if_pos hm, hl]
  have g1 := getline_blank_append n ('A' :: 'T' :: ' ' :: '%' :: (a ++ ' ' :: ':' :: ' ' :: (ty ++ [';'])))
    (fun x hx => isNameChar_ne_blank x (h2 x hx))
  have g2 := getline_blank_append ['A', 'T'] ('%' :: (a ++ ' ' :: ':' :: ' ' :: (ty ++ [';'])))
    (by decide)
  have g3 := getline_blank_append ('%' :: a) (':' :: ' ' :: (ty ++ [';']))
    (by
      intro x hx
      rcases List.mem_cons.mp hx with rfl | hx
      · decide
      · exact isAddrChar_ne_blank x (h5 x hx))
  simp only [List.cons_append, List.nil_append] at g2 g3
  simp only [g1, g2, g3]

theorem parsed_binding_iff (line name addr : String) :
    parsed_binding line = some (name, addr) ↔ BindingLine line name addr := by
  constructor
  · intro h
    have hm : regex_match_reg line = true := by
      by_contra hc
      simp [parsed_binding, hc] at h
    unfold regex_match_reg at hm
    rw [beq_iff_eq] at hm
    obtain ⟨r4, hr4, hm⟩ := Option.bind_eq_some.mp hm
    obtain ⟨r3, hr3, hr4⟩ := Option.bind_eq_some.mp hr4
    obtain ⟨r2, hr2, hr3⟩ := Option.bind_eq_some.mp hr3
    obtain ⟨r1, hr1, hr2⟩ := Option.bind_eq_some.mp hr2
    obtain ⟨n, e1, n1, n2⟩ := match_plus_some _ _ _ hr1
    have e2 := match_lit_some _ _ _ hr2
    obtain ⟨a, e3, a1, a2⟩ := match_plus_some _ _ _ hr3
    have e4 := match_lit_some _ _ _ hr4
    obtain ⟨ty, e5, t1, t2⟩ := match_plus_some _ _ _ hm
    have hl : line.data = n ++ ' ' :: 'A' :: 'T' :: ' ' :: '%' :: (a ++ ' ' :: ':' :: ' ' :: (ty ++ [';'])) := by
      rw [e1, e2, e3, e4, e5, lit_at, lit_colon]; simp
    have hp := parsed_binding_of_data line n a ty hl n1 n2 a1 a2 t1 t2
    rw [hp] at h
    have hh := Option.some.inj h
    have hn : name = ⟨n⟩ := (congrArg Prod.fst hh).symm
    have ha : addr = ⟨'%' :: a⟩ := (congrArg Prod.snd hh).symm
    subst hn; subst ha
    refine ⟨a, ty, ?_, n1, n2, rfl, a1, a2, t1, t2⟩
    apply String.ext
    rw [hl]
    simp only [String.data_append]
    show _ = n ++ [' ', 'A', 'T', ' '] ++ '%' :: a ++ [' ', ':', ' '] ++ ty ++ [';']
    simp
  · intro h
    obtain ⟨a, ty, hl, h1, h2, h3, h4, h5, h6, h7⟩ := BindingLine_data h
    rw [parsed_binding_of_data line name.data a ty hl h1 h2 h4 h5 h6 h7, ← h3]


/-! ### Blocks -/

theorem InBlock_append (ls : List String) (t : String) (i : Nat) (hi : i ≤ ls.length) :
    InBlock (ls ++ [t]) i ↔ InBlock ls i := by
  unfold InBlock
  constructor
  · rintro ⟨j, hj, hv, hk⟩
    refine ⟨j, hj, ?_, fun k h1 h2 => ?_⟩
    · rwa [List.getElem?_append_left (by omega)] at hv
    · have := hk k h1 h2
      rwa [List.getElem?_append_left (by omega)] at this
  · rintro ⟨j, hj, hv, hk⟩
    refine ⟨j, hj, ?_, fun k h1 h2 => ?_⟩
    · rwa [List.getElem?_append_left (by omega)]
    · rw [List.getElem?_append_left (by omega)]
      exact hk k h1 h2

theorem InBlock_succ (ls : List String) (t : String) :
    InBlock (ls ++ [t]) (ls.length + 1) ↔
      t = "VAR" ∨ (InBlock ls ls.length ∧ t ≠ "END_VAR") := by
  unfold InBlock
  constructor
  · rintro ⟨j, hj, hv, hk⟩
    by_cases hjl : j = ls.length
    · subst hjl
      left
      rw [List.getElem?_concat_length] at hv
      exact Option.some.inj hv
    · right
      have hjlt : j < ls.length := by omega
      refine ⟨⟨j, hjlt, ?_, fun k h1 h2 => ?_⟩, ?_⟩
      · rwa [List.getElem?_append_left hjlt] at hv
      · have := hk k h1 (by omega)
        rwa [List.getElem?_append_left h2] at this
      · have := hk ls.length hjlt (by omega)
        rw [List.getElem?_concat_length] at this
        intro h; exact this (by rw [h])
  · rintro (h | ⟨⟨j, hj, hv, hk⟩, hne⟩)
    · refine ⟨ls.length, by omega, ?_, fun k h1 h2 => by omega⟩
      rw [List.getElem?_concat_length, h]
    · refine ⟨j, by omega, ?_, fun k h1 h2 => ?_⟩
      · rwa [List.getElem?_append_left hj]
      · by_cases hkl : k = ls.length
        · subst hkl
          rw [List.getElem?_concat_length]
          intro h; exact hne (Option.some.inj h)
        · rw [List.getElem?_append_left (by omega)]
          exact hk k h1 (by omega)

theorem AcceptedAt_lt {ls : List String} {i : Nat} {n a : String} (h : AcceptedAt ls i n a) :
    i < ls.length := by
  obtain ⟨_, line, hl, _⟩ := h
  exact (List.getElem?_eq_some.mp hl).1

theorem AcceptedAt_append (ls : List String) (t : String) (i : Nat) (n a : String) :
    AcceptedAt (ls ++ [t]) i n a ↔
      AcceptedAt ls i n a ∨ (i = ls.length ∧ InBlock ls ls.length ∧ BindingLine t n a) := by
  constructor
  · intro h
    have hlt := AcceptedAt_lt h
    rw [List.length_append, List.length_singleton] at hlt
    obtain ⟨hb, line, hl, hbl⟩ := h
    by_cases hi : i = ls.length
    · subst hi
      right
      rw [List.getElem?_concat_length] at hl
      rw [InBlock_append ls t _ (le_refl _)] at hb
      exact ⟨rfl, hb, (Option.some.inj hl) ▸ hbl⟩
    · left
      have hi2 : i < ls.length := by omega
      rw [InBlock_append ls t _ (by omega)] at hb
      rw [List.getElem?_append_left hi2] at hl
      exact ⟨hb, line, hl, hbl⟩
  · rintro (h | ⟨rfl, hb, hbl⟩)
    · have hlt := AcceptedAt_lt h
      obtain ⟨hb, line, hl, hbl⟩ := h
      exact ⟨(InBlock_append ls t _ (by omega)).mpr hb, line,
        by rw [List.getElem?_append_left hlt]; exact hl, hbl⟩
    · exact ⟨(InBlock_append ls t _ (le_refl _)).mpr hb, t, List.getElem?_concat_length ls t, hbl⟩

/-! ### The minimal example -/

/-- C1: with the minimal binding source and the minimal document, whose `DA` has
a property of name `sMonitoringVar` and value `V1` (held by the `Property`
attributes `Name` and `Value` that the program reads), the binding table is
`V1 ↦ %IX0.0`, the record list that `get_scl_variables` produces in the server
role is exactly the single line `MONITOR D1/P1.Pos %IX0.0`, and `main` exits 0
having written exactly that line. -/
theorem C1_minimal_example :
    st_table minimal_st = [("V1", "%IX0.0")]
    ∧ (get_scl_variables (minimal_scl property_capitalised)
        { Globals.initial with target := SERVER, var_addr_map := st_table minimal_st }
      ).mapvaraddr_buffer = ["MONITOR D1/P1.Pos %IX0.0"]
    ∧ main (minimal_fs property_capitalised) minimal_argv
        = Except.ok (0, ["MONITOR D1/P1.Pos %IX0.0"]) := by
  decide

/-! ### The binding table -/

theorem find_assign (m : unordered_map) (k v k' : String) :
    (m.assign k v).find k' = if k' = k then some v else m.find k' := by
  induction m with
  | nil =>
    by_cases h : k' = k
    · simp [unordered_map.assign, unordered_map.find, List.lookup, h]
    · have hb : (k' == k) = false := by simpa using h
      simp [unordered_map.assign, unordered_map.find, List.lookup, h, hb]
  | cons e rest ih =>
    obtain ⟨k1, v1⟩ := e
    unfold unordered_map.assign
    simp only [unordered_map.find] at ih ⊢
    by_cases h1 : k = k1
    · subst h1
      by_cases h : k' = k
      · simp [h, List.lookup_cons]
      · have hb : (k' == k) = false := by simpa using h
        simp [h, hb, List.lookup_cons]
    · have hb1 : (k == k1) = false := by simpa using h1
      rw [hb1]
      simp only [Bool.false_eq_true, if_false, List.lookup_cons]
      by_cases h : k' = k1
      · subst h
        have h2 : ¬ k' = k := fun h => h1 h.symm
        simp [h2]
      · have hb : (k' == k1) = false := by simpa using h
        simp only [hb, ih]

theorem process_st_line_eq (st : Bool × unordered_map) (raw : String) :
    process_st_line st raw =
      if st.1 = false then (decide (trimWhitespace raw = "VAR"), st.2)
      else (decide (trimWhitespace raw ≠ "END_VAR"),
        match parsed_binding (trimWhitespace raw) with
        | some b => st.2.assign b.1 b.2
        | none => st.2) := by
  unfold process_st_line parsed_binding
  generalize trimWhitespace raw = t
  by_cases h1 : st.1 = false
  · by_cases h2 : t = "VAR" <;> simp [h1, h2]
  · have h1t : st.1 = true := by simpa using h1
    cases h3 : regex_match_reg t <;> simp [h1t] <;> split <;> simp_all


theorem BindingLine_unique {t n a n' a' : String} (h : BindingLine t n a)
    (h' : BindingLine t n' a') : n = n' ∧ a = a' := by
  have e := (parsed_binding_iff t n a).mpr h
  have e' := (parsed_binding_iff t n' a').mpr h'
  rw [e] at e'
  have := Option.some.inj e'
  exact ⟨congrArg Prod.fst this, congrArg Prod.snd this⟩

theorem not_InBlock_nil (i : Nat) : ¬ InBlock [] i := by
  rintro ⟨j, _, hv, _⟩
  simp at hv

/-- The state of the loop of `process_st_file` after the raw lines `L`. -/
theorem st_fold_spec (L : List String) :
    (((L.foldl process_st_line (false, [])).1 = true ↔
        InBlock (L.map trimWhitespace) L.length) ∧
      ∀ n a, (L.foldl process_st_line (false, [])).2.find n = some a ↔
        ∃ i, AcceptedAt (L.map trimWhitespace) i n a ∧
          ∀ i' a', AcceptedAt (L.map trimWhitespace) i' n a' → i' ≤ i) := by
  induction L using List.reverseRecOn with
  | nil =>
    refine ⟨?_, fun n a => ?_⟩
    · simp [not_InBlock_nil]
    · constructor
      · intro h; simp [unordered_map.find] at h
      · rintro ⟨i, ⟨hb, _⟩, _⟩
        exact absurd hb (not_InBlock_nil i)
  | append_singleton L x ih =>
    obtain ⟨ihb, ihm⟩ := ih
    rw [List.foldl_concat, List.map_append, List.map_singleton, List.length_append,
      List.length_singleton, process_st_line_eq]
    generalize hS : L.foldl process_st_line (false, []) = S at ihb ihm
    generalize hls : L.map trimWhitespace = ls at ihb ihm
    have hlen : L.length = ls.length := by rw [← hls, List.length_map]
    rw [hlen] at ihb ⊢
    generalize trimWhitespace x = t
    have hsucc := InBlock_succ ls t
    by_cases hb : S.1 = false
    · -- outside a block: only the flag can change
      have hnb : ¬ InBlock ls ls.length := fun h => by
        have := ihb.mpr h; rw [hb] at this; exact absurd this (by simp)
      rw [if_pos hb]
      refine ⟨?_, fun n a => ?_⟩
      · rw [hsucc]; simp [hnb]
      · rw [ihm]
        constructor
        · rintro ⟨i, hi, hmax⟩
          refine ⟨i, (AcceptedAt_append ls t i n a).mpr (Or.inl hi), fun i' a' h' => ?_⟩
          rcases (AcceptedAt_append ls t i' n a').mp h' with h' | ⟨_, h', _⟩
          · exact hmax i' a' h'
          · exact absurd h' hnb
        · rintro ⟨i, hi, hmax⟩
          rcases (AcceptedAt_append ls t i n a).mp hi with hi' | ⟨_, h', _⟩
          · exact ⟨i, hi', fun i' a' h' =>
              hmax i' a' ((AcceptedAt_append ls t i' n a').mpr (Or.inl h'))⟩
          · exact absurd h' hnb
    · have hbt : S.1 = true := by simpa using hb
      have hib : InBlock ls ls.length := ihb.mp hbt
      rw [if_neg hb]
      refine ⟨?_, fun n a => ?_⟩
      · rw [hsucc]
        by_cases he : t = "END_VAR"
        · subst he; simp [hib]
        · simp [he, hib]
      · cases hp : parsed_binding t with
        | none =>
          have hno : ∀ n a, ¬ BindingLine t n a := fun n a h => by
            rw [(parsed_binding_iff t n a).mpr h] at hp; exact absurd hp (by simp)
          show S.2.find n = some a ↔ _
          rw [ihm]
          constructor
          · rintro ⟨i, hi, hmax⟩
            refine ⟨i, (AcceptedAt_append ls t i n a).mpr (Or.inl hi), fun i' a' h' => ?_⟩
            rcases (AcceptedAt_append ls t i' n a').mp h' with h' | ⟨_, _, h'⟩
            · exact hmax i' a' h'
            · exact absurd h' (hno _ _)
          · rintro ⟨i, hi, hmax⟩
            rcases (AcceptedAt_append ls t i n a).mp hi with hi' | ⟨_, _, h'⟩
            · exact ⟨i, hi', fun i' a' h' =>
                hmax i' a' ((AcceptedAt_append ls t i' n a').mpr (Or.inl h'))⟩
            · exact absurd h' (hno _ _)
        | some b =>
          obtain ⟨n0, a0⟩ := b
          have hbl : BindingLine t n0 a0 := (parsed_binding_iff t n0 a0).mp hp
          show (S.2.assign n0 a0).find n = some a ↔ _
          rw [find_assign]
          by_cases hn : n = n0
          · subst hn
            rw [if_pos rfl]
            constructor
            · intro h
              have ha : a0 = a := Option.some.inj h
              subst ha
              refine ⟨ls.length, (AcceptedAt_append ls t _ n a0).mpr (Or.inr ⟨rfl, hib, hbl⟩),
                fun i' a' h' => ?_⟩
              have := AcceptedAt_lt h'
              rw [List.length_append, List.length_singleton] at this
              omega
            · rintro ⟨i, hi, hmax⟩
              have h1 := hmax ls.length a0
                ((AcceptedAt_append ls t _ n a0).mpr (Or.inr ⟨rfl, hib, hbl⟩))
              rcases (AcceptedAt_append ls t i n a).mp hi with hi' | ⟨_, _, h'⟩
              · have := AcceptedAt_lt hi'; omega
              · rw [(BindingLine_unique hbl h').2]
          · rw [if_neg hn, ihm]
            have hno : ∀ a, ¬ BindingLine t n a := fun a h =>
              hn (BindingLine_unique h hbl).1
            constructor
            · rintro ⟨i, hi, hmax⟩
              refine ⟨i, (AcceptedAt_append ls t i n a).mpr (Or.inl hi), fun i' a' h' => ?_⟩
              rcases (AcceptedAt_append ls t i' n a').mp h' with h' | ⟨_, _, h'⟩
              · exact hmax i' a' h'
              · exact absurd h' (hno _)
            · rintro ⟨i, hi, hmax⟩
              rcases (AcceptedAt_append ls t i n a).mp hi with hi' | ⟨_, _, h'⟩
              · exact ⟨i, hi', fun i' a' h' =>
                  hmax i' a' ((AcceptedAt_append ls t i' n a').mpr (Or.inl h'))⟩
              · exact absurd h' (hno _)


theorem st_table_eq (text : String) :
    st_table text = ((getLines text).foldl process_st_line (false, [])).2 := rfl

theorem mem_keys_iff (m : unordered_map) (n : String) :
    n ∈ m.keys ↔ ∃ a, m.find n = some a := by
  induction m with
  | nil => simp [unordered_map.keys, unordered_map.find]
  | cons e rest ih =>
    obtain ⟨k1, v1⟩ := e
    simp only [unordered_map.keys, unordered_map.find, List.map_cons, List.mem_cons,
      List.lookup_cons] at ih ⊢
    by_cases h : n = k1
    · subst h; simp
    · have hb : (n == k1) = false := by simpa using h
      simp only [h, hb, false_or]
      exact ih

theorem exists_last_accepted (ls : List String) (n : String)
    (h : ∃ i a, AcceptedAt ls i n a) :
    ∃ i a, AcceptedAt ls i n a ∧ ∀ i' a', AcceptedAt ls i' n a' → i' ≤ i := by
  classical
  obtain ⟨i0, a0, h0⟩ := h
  have hP : ∃ a, AcceptedAt ls i0 n a := ⟨a0, h0⟩
  obtain ⟨a, ha⟩ := Nat.findGreatest_spec (P := fun i => ∃ a, AcceptedAt ls i n a)
    (le_of_lt (AcceptedAt_lt h0)) hP
  exact ⟨_, a, ha, fun i' a' h' =>
    Nat.le_findGreatest (P := fun i => ∃ a, AcceptedAt ls i n a)
      (le_of_lt (AcceptedAt_lt h')) ⟨a', h'⟩⟩

/-- C2: for every binding source and every name with at least one accepted line
(a line in a `VAR … END_VAR` block of the form `name AT addr : type;`), the table
built by `process_st_file` maps the name to the address of the last accepted
line for it; name and address are the identifier before ` AT ` and the
`%`-token between ` AT ` and ` : `. -/
theorem C2_last_accepted_line_wins (text n : String)
    (h : ∃ i a, AcceptedAt ((getLines text).map trimWhitespace) i n a) :
    ∃ i a, AcceptedAt ((getLines text).map trimWhitespace) i n a ∧
      (∀ i' a', AcceptedAt ((getLines text).map trimWhitespace) i' n a' → i' ≤ i) ∧
      (st_table text).find n = some a := by
  obtain ⟨i, a, hi, hmax⟩ := exists_last_accepted _ n h
  exact ⟨i, a, hi, hmax, ((st_fold_spec (getLines text)).2 n a).mpr ⟨i, hi, hmax⟩⟩

/-- Line 2 of the sample source is an accepted binding of `V1`. -/
theorem sample_accepted :
    AcceptedAt ((getLines sample_st).map trimWhitespace) 2 "V1" "%IX0.0" :=
  ⟨⟨1, by decide, by decide, fun k h1 h2 => by omega⟩, "V1 AT %IX0.0 : BOOL;", by decide,
    "IX0.0".data, "BOOL".data, by decide, by decide, by decide, by decide, by decide, by decide,
    by decide, by decide⟩

/-- An instance of C2: the sample source binds `V1` twice in its block. -/
theorem C2_last_accepted_line_wins_witness :
    ∃ i a, AcceptedAt ((getLines sample_st).map trimWhitespace) i "V1" a ∧
      (∀ i' a', AcceptedAt ((getLines sample_st).map trimWhitespace) i' "V1" a' → i' ≤ i) ∧
      (st_table sample_st).find "V1" = some a :=
  C2_last_accepted_line_wins sample_st "V1" ⟨2, "%IX0.0", sample_accepted⟩

/-! ### The walk of a data attribute -/

theorem find_append_single (m : unordered_map) (v k : String) :
    unordered_map.find (m ++ [(v, "")]) k =
      match m.find k with
      | some a => some a
      | none => if k = v then some "" else none := by
  induction m with
  | nil =>
    by_cases h : k = v
    · simp [unordered_map.find, List.lookup, h]
    · have hb : (k == v) = false := by simpa using h
      simp [unordered_map.find, List.lookup, h, hb]
  | cons e rest ih =>
    obtain ⟨k1, v1⟩ := e
    simp only [unordered_map.find, List.cons_append, List.lookup_cons] at ih ⊢
    by_cases h : k = k1
    · subst h; simp
    · have hb : (k == k1) = false := by simpa using h
      simp only [hb, ih]

theorem resolve_index_snd (m : unordered_map) (v : String) :
    resolve (m.index v).2 = resolve m := by
  funext k
  unfold unordered_map.index
  cases hf : m.find v with
  | some a => rfl
  | none =>
    show resolve (m ++ [(v, "")]) k = resolve m k
    unfold resolve
    rw [find_append_single]
    cases hk : m.find k with
    | some b => rfl
    | none =>
      by_cases h : k = v <;> simp [h]

theorem resolve_index_fst (m : unordered_map) (v : String) :
    (if (m.index v).1 == "" then "X" else (m.index v).1) = resolve m v := by
  unfold unordered_map.index resolve
  cases hf : m.find v with
  | some a => rfl
  | none => simp

theorem emit_emit (g : Globals) (m1 m2 : unordered_map) (r1 c1 r2 c2 : List String) :
    (g.emit m1 r1 c1).emit m2 r2 c2 = g.emit m2 (r1 ++ r2) (c1 ++ c2) := by
  simp [Globals.emit, List.append_assoc]

theorem emit_self (g : Globals) : g.emit g.var_addr_map [] [] = g := by
  simp [Globals.emit]

theorem leaf_path_cons (p a : String) (ns : List String) :
    leaf_path p (a :: ns) = leaf_path (p ++ "." ++ a) ns := rfl

theorem leaf_record_cons (res : String → String) (p a : String) (l : List String × xml_tree) :
    leaf_record res p (a :: l.1, l.2) = leaf_record res (p ++ "." ++ a) l := rfl

theorem leaf_control_cons (res : String → String) (p a : String) (l : List String × xml_tree) :
    leaf_control res p (a :: l.1, l.2) = leaf_control res (p ++ "." ++ a) l := rfl

theorem records_of_append (t : Nat) (res : String → String) (p : String)
    (l1 l2 : List (List String × xml_tree)) :
    records_of t res p (l1 ++ l2) = records_of t res p l1 ++ records_of t res p l2 := by
  unfold records_of
  split <;> simp [List.filterMap_append]

theorem controls_of_append (t : Nat) (res : String → String) (p : String)
    (l1 l2 : List (List String × xml_tree)) :
    controls_of t res p (l1 ++ l2) = controls_of t res p l1 ++ controls_of t res p l2 := by
  unfold controls_of
  split <;> simp [List.filterMap_append]

theorem records_of_nil (t : Nat) (res : String → String) (p : String) :
    records_of t res p [] = [] := by
  unfold records_of; split <;> rfl

theorem controls_of_nil (t : Nat) (res : String → String) (p : String) :
    controls_of t res p [] = [] := by
  unfold controls_of; split <;> rfl

theorem records_of_nested (t : Nat) (res : String → String) (p a : String)
    (ls : List (List String × xml_tree)) :
    records_of t res p (ls.map (fun l => (a :: l.1, l.2))) =
      records_of t res (p ++ "." ++ a) ls := by
  unfold records_of
  split
  · rw [List.filterMap_map]; rfl
  · rfl

theorem controls_of_nested (t : Nat) (res : String → String) (p a : String)
    (ls : List (List String × xml_tree)) :
    controls_of t res p (ls.map (fun l => (a :: l.1, l.2))) =
      controls_of t res (p ++ "." ++ a) ls := by
  unfold controls_of
  split
  · rw [List.filterMap_map]; rfl
  · rfl

/-- One step of the `Property` loop appends the record (and control line) of the
leaf and keeps the resolution of every value. -/
theorem property_step_emit (p : String) (g : Globals) (leaf : xml_tree) :
    ∃ m, resolve m = resolve g.var_addr_map ∧
      property_step p g leaf =
        g.emit m (records_of g.target (resolve g.var_addr_map) p [([], leaf)])
          (controls_of g.target (resolve g.var_addr_map) p [([], leaf)]) := by
  have hA := resolve_index_fst g.var_addr_map (leaf.attribute_value "Value")
  have hS := resolve_index_snd g.var_addr_map (leaf.attribute_value "Value")
  unfold property_step records_of controls_of
  simp only [List.filterMap_cons, List.filterMap_nil, leaf_record, leaf_control, leaf_path,
    List.foldl_nil]
  by_cases h1 : (leaf.attribute_value "Name" == "sMonitoringVar" &&
      leaf.attribute_value "Value" != "") = true
  · have h2 : (leaf.attribute_value "Name" == "sControlVar") = false := by
      have := (Bool.and_eq_true _ _).mp h1
      have hn : leaf.attribute_value "Name" = "sMonitoringVar" := by simpa using this.1
      rw [hn]; decide
    refine ⟨(g.var_addr_map.index (leaf.attribute_value "Value")).2, hS, ?_⟩
    simp only [h1, h2, if_true, Bool.false_and, hA]
    by_cases hc : (g.target == CLIENT) = true
    · simp [hc, Globals.emit]
    · by_cases hs : (g.target == SERVER) = true
      · simp [hc, hs, Globals.emit]
      · simp [hc, hs, Globals.emit]
  · by_cases h3 : (leaf.attribute_value "Name" == "sControlVar" &&
        leaf.attribute_value "Value" != "") = true
    · refine ⟨(g.var_addr_map.index (leaf.attribute_value "Value")).2, hS, ?_⟩
      simp only [h1, h3, if_true, hA]
      by_cases hc : (g.target == CLIENT) = true
      · simp [hc, Globals.emit]
      · by_cases hs : (g.target == SERVER) = true
        · simp [hc, hs, Globals.emit]
        · simp [hc, hs, Globals.emit]
    · refine ⟨g.var_addr_map, rfl, ?_⟩
      simp only [h1, h3]
      by_cases hc : (g.target == CLIENT) = true
      · simp [hc, Globals.emit]
      · by_cases hs : (g.target == SERVER) = true
        · simp [hc, hs, Globals.emit]
        · simp [hc, hs, Globals.emit]

theorem emit_target (g : Globals) (m : unordered_map) (r c : List String) :
    (g.emit m r c).target = g.target := rfl

theorem emit_var_addr_map (g : Globals) (m : unordered_map) (r c : List String) :
    (g.emit m r c).var_addr_map = m := rfl

/-- The `Property` loop appends the records of the properties in order. -/
theorem property_loop_emit (p : String) (props : List xml_tree) : ∀ g : Globals,
    ∃ m, resolve m = resolve g.var_addr_map ∧
      props.foldl (property_step p) g =
        g.emit m
          (records_of g.target (resolve g.var_addr_map) p (props.map (fun leaf => ([], leaf))))
          (controls_of g.target (resolve g.var_addr_map) p
            (props.map (fun leaf => ([], leaf)))) := by
  induction props with
  | nil =>
    intro g
    exact ⟨g.var_addr_map, rfl, by
      simp [records_of_nil, controls_of_nil, emit_self]⟩
  | cons a rest ih =>
    intro g
    obtain ⟨m1, hm1, e1⟩ := property_step_emit p g a
    obtain ⟨m2, hm2, e2⟩ := ih (property_step p g a)
    refine ⟨m2, ?_, ?_⟩
    · rw [hm2, e1, emit_var_addr_map, hm1]
    · rw [List.foldl_cons, e2]
      rw [e1, emit_target, emit_var_addr_map, hm1, emit_emit]
      have hc : ∀ l : List xml_tree, (a :: l).map (fun leaf => (([] : List String), leaf)) =
          [([], a)] ++ l.map (fun leaf => ([], leaf)) := fun _ => rfl
      rw [hc, records_of_append, controls_of_append]

mutual
/-- The walk of a node appends to the buffers the records and control lines of
the leaves it reaches, in document order, and keeps the resolution of every
value. -/
theorem walk_emit (t : xml_tree) (p : String) (g : Globals) :
    ∃ m, resolve m = resolve g.var_addr_map ∧
      getVarAddrMapping t p g =
        g.emit m (records_of g.target (resolve g.var_addr_map) p (visited_leaves t))
          (controls_of g.target (resolve g.var_addr_map) p (visited_leaves t)) :=
  match t with
  | .pcdata _ => ⟨g.var_addr_map, rfl, by
      simp [getVarAddrMapping, visited_leaves, records_of_nil, controls_of_nil, emit_self]⟩
  | .element n a cs => by
    unfold getVarAddrMapping visited_leaves
    by_cases h : cs.any (xml_tree.isNamed "Private") = true
    · rw [if_pos h, if_pos h]
      exact walk_private_emit cs p g
    · rw [if_neg h, if_neg h]
      by_cases h2 : cs.any (xml_tree.isNamed "Property") = true
      · rw [if_pos h2]
        exact property_loop_emit p _ g
      · rw [if_neg h2]
        have hnil : cs.filter (xml_tree.isNamed "Property") = [] := by
          rw [List.filter_eq_nil_iff]
          intro x hx hp
          exact h2 (List.any_eq_true.mpr ⟨x, hx, hp⟩)
        rw [hnil]
        exact ⟨g.var_addr_map, rfl, by
          simp [records_of_nil, controls_of_nil, emit_self]⟩
/-- The `Private` loop over a list of siblings, likewise. -/
theorem walk_private_emit (cs : List xml_tree) (p : String) (g : Globals) :
    ∃ m, resolve m = resolve g.var_addr_map ∧
      getVarAddrMapping_private cs p g =
        g.emit m (records_of g.target (resolve g.var_addr_map) p (visited_leaves_private cs))
          (controls_of g.target (resolve g.var_addr_map) p (visited_leaves_private cs)) :=
  match cs with
  | [] => ⟨g.var_addr_map, rfl, by
      simp [getVarAddrMapping_private, visited_leaves_private, records_of_nil, controls_of_nil,
        emit_self]⟩
  | c :: rest => by
    unfold getVarAddrMapping_private visited_leaves_private
    by_cases h : c.isNamed "Private" = true
    · rw [if_pos h, if_pos h]
      obtain ⟨m1, hm1, e1⟩ := walk_emit c (p ++ "." ++ c.attribute_value "name") g
      obtain ⟨m2, hm2, e2⟩ := walk_private_emit rest p
        (getVarAddrMapping c (p ++ "." ++ c.attribute_value "name") g)
      refine ⟨m2, ?_, ?_⟩
      · rw [hm2, e1, emit_var_addr_map, hm1]
      · show getVarAddrMapping_private rest p
          (getVarAddrMapping c (p ++ "." ++ c.attribute_value "name") g) = _
        rw [e2, e1, emit_target, emit_var_addr_map, hm1, emit_emit, records_of_append,
          controls_of_append, records_of_nested, controls_of_nested]
    · rw [if_neg h, if_neg h]
      exact walk_private_emit rest p g
end

theorem index_fst (m : unordered_map) (k : String) :
    (m.index k).1 = lookup_or_empty m k := by
  unfold unordered_map.index lookup_or_empty
  cases m.find k <;> rfl

theorem lookup_or_empty_index (m : unordered_map) (k : String) :
    lookup_or_empty (m.index k).2 = lookup_or_empty m := by
  funext k'
  unfold unordered_map.index
  cases hf : m.find k with
  | some a => rfl
  | none =>
    show lookup_or_empty (m ++ [(k, "")]) k' = lookup_or_empty m k'
    unfold lookup_or_empty
    rw [find_append_single]
    cases hk : m.find k' with
    | some b => rfl
    | none => by_cases h : k' = k <;> simp [h]

/-- The `DA` loop of one `DOType`. -/
theorem da_loop_emit (id : String) (das : List xml_tree) :
    ∀ (dm : unordered_map) (g : Globals),
    ∃ dm' m, lookup_or_empty dm' = lookup_or_empty dm ∧ resolve m = resolve g.var_addr_map ∧
      das.foldl (da_step id) (dm, g) =
        (dm', g.emit m
          (das.flatMap (fun da => records_of g.target (resolve g.var_addr_map)
            (lookup_or_empty dm id) (visited_leaves da)))
          (das.flatMap (fun da => controls_of g.target (resolve g.var_addr_map)
            (lookup_or_empty dm id) (visited_leaves da)))) := by
  induction das with
  | nil =>
    intro dm g
    exact ⟨dm, g.var_addr_map, rfl, rfl, by simp [emit_self]⟩
  | cons da rest ih =>
    intro dm g
    obtain ⟨m1, hm1, e1⟩ := walk_emit da (dm.index id).1 g
    obtain ⟨dm2, m2, hd2, hm2, e2⟩ := ih (dm.index id).2 (getVarAddrMapping da (dm.index id).1 g)
    refine ⟨dm2, m2, ?_, ?_, ?_⟩
    · rw [hd2, lookup_or_empty_index]
    · rw [hm2, e1, emit_var_addr_map, hm1]
    · rw [List.foldl_cons]
      show rest.foldl (da_step id) ((dm.index id).2, getVarAddrMapping da (dm.index id).1 g) = _
      rw [e2, e1, emit_target, emit_var_addr_map, hm1, emit_emit, lookup_or_empty_index,
        index_fst]
      simp [List.flatMap_cons]

/-- The loop over the `DOType` elements. -/
theorem dotype_loop_emit (dts : List xml_tree) :
    ∀ (dm : unordered_map) (g : Globals),
    ∃ dm' m, lookup_or_empty dm' = lookup_or_empty dm ∧ resolve m = resolve g.var_addr_map ∧
      dts.foldl (fun st do_node =>
          (do_node.node.children_named "DA").foldl (da_step (do_node.attribute_value "id")) st)
        (dm, g) =
        (dm', g.emit m
          (dts.flatMap (fun dt => (dt.node.children_named "DA").flatMap (fun da =>
            records_of g.target (resolve g.var_addr_map)
              (lookup_or_empty dm (dt.attribute_value "id")) (visited_leaves da))))
          (dts.flatMap (fun dt => (dt.node.children_named "DA").flatMap (fun da =>
            controls_of g.target (resolve g.var_addr_map)
              (lookup_or_empty dm (dt.attribute_value "id")) (visited_leaves da))))) := by
  induction dts with
  | nil =>
    intro dm g
    exact ⟨dm, g.var_addr_map, rfl, rfl, by simp [emit_self]⟩
  | cons dt rest ih =>
    intro dm g
    obtain ⟨dm1, m1, hd1, hm1, e1⟩ :=
      da_loop_emit (dt.attribute_value "id") (dt.node.children_named "DA") dm g
    obtain ⟨dm2, m2, hd2, hm2, e2⟩ := ih dm1 (g.emit m1
      ((dt.node.children_named "DA").flatMap (fun da =>
        records_of g.target (resolve g.var_addr_map)
          (lookup_or_empty dm (dt.attribute_value "id")) (visited_leaves da)))
      ((dt.node.children_named "DA").flatMap (fun da =>
        controls_of g.target (resolve g.var_addr_map)
          (lookup_or_empty dm (dt.attribute_value "id")) (visited_leaves da))))
    refine ⟨dm2, m2, ?_, ?_, ?_⟩
    · rw [hd2, hd1]
    · rw [hm2, emit_var_addr_map, hm1]
    · rw [List.foldl_cons, e1, e2, emit_target, emit_var_addr_map, hm1, hd1, emit_emit]
      simp [List.flatMap_cons]

/-- The effect of `get_scl_variables`: the records and control lines of the
document are appended, and the binding table resolves every value as before. -/
theorem get_scl_variables_emit (sclfile : xml_document) (g : Globals) :
    ∃ m, resolve m = resolve g.var_addr_map ∧
      get_scl_variables sclfile g =
        g.emit m (scl_records g.target (resolve g.var_addr_map) sclfile)
          (scl_controls g.target (resolve g.var_addr_map) sclfile) := by
  obtain ⟨dm', m, _, hm, e⟩ := dotype_loop_emit (scl_dotypes sclfile) (scl_do_ln_mapping sclfile) g
  refine ⟨m, hm, ?_⟩
  unfold get_scl_variables dotype_pass
  show (List.foldl _ (scl_do_ln_mapping sclfile, g) (scl_dotypes sclfile)).2 = _
  rw [e]
  rfl

theorem BindingLine_addr_ne_empty {t n a : String} (h : BindingLine t n a) : a ≠ "" := by
  obtain ⟨x, _, _, _, _, h3, _⟩ := h
  intro he
  rw [he] at h3
  exact absurd h3 (by simp)

theorem st_table_value_ne_empty (text n a : String) (h : (st_table text).find n = some a) :
    a ≠ "" := by
  rw [st_table_eq] at h
  obtain ⟨i, ⟨_, line, _, hbl⟩, _⟩ := ((st_fold_spec (getLines text)).2 n a).mp h
  exact BindingLine_addr_ne_empty hbl

theorem resolve_st_table (text : String) :
    resolve (st_table text) = table_address (st_table text) := by
  funext v
  unfold resolve table_address
  cases h : (st_table text).find v with
  | none => rfl
  | some a =>
    have := st_table_value_ne_empty text v a h
    simp [this]

/-- C4: with the binding table built by `process_st_file` from any source, every
record that `getVarAddrMapping` (and so `get_scl_variables`, for every document)
appends for a property value `v` carries the address stored under `v` when `v`
is a key of the table and exactly `X` when it is not; this address is never the
empty string; the walk is total. -/
theorem C4_sentinel_on_binding_miss (text : String) (g : Globals) :
    (∀ (parent : xml_tree) (pathstring : String),
      (getVarAddrMapping parent pathstring
          { g with var_addr_map := st_table text }).mapvaraddr_buffer =
        g.mapvaraddr_buffer ++
          records_of g.target (table_address (st_table text)) pathstring
            (visited_leaves parent)) ∧
    (∀ sclfile : xml_document,
      (get_scl_variables sclfile { g with var_addr_map := st_table text }).mapvaraddr_buffer =
        g.mapvaraddr_buffer ++ scl_records g.target (table_address (st_table text)) sclfile) ∧
    (∀ v a, (st_table text).find v = some a → table_address (st_table text) v = a) ∧
    (∀ v, v ∉ (st_table text).keys → table_address (st_table text) v = "X") ∧
    (∀ v, table_address (st_table text) v ≠ "") := by
  refine ⟨fun parent p => ?_, fun sclfile => ?_, fun v a h => ?_, fun v h => ?_, fun v => ?_⟩
  · obtain ⟨m, _, e⟩ := walk_emit parent p { g with var_addr_map := st_table text }
    rw [e, resolve_st_table]
    rfl
  · obtain ⟨m, _, e⟩ := get_scl_variables_emit sclfile { g with var_addr_map := st_table text }
    rw [e, resolve_st_table]
    rfl
  · unfold table_address; rw [h]
  · unfold table_address
    cases hf : (st_table text).find v with
    | none => rfl
    | some a => exact absurd ((mem_keys_iff _ _).mpr ⟨a, hf⟩) h
  · unfold table_address
    cases hf : (st_table text).find v with
    | none => decide
    | some a => exact st_table_value_ne_empty text v a hf

/-! ### The index of data-object paths -/

theorem find_foldl_assign_label (lns : List xml_tree) (L : String) :
    ∀ m : unordered_map,
    (lns.foldl (fun m ln_node =>
        m.assign (ln_node.attribute_value "lnType")
          (ln_node.attribute_value "lnClass" ++ ln_node.attribute_value "inst")) m).find L =
      match (lns.filter (fun ln => ln.attribute_value "lnType" == L)).getLast? with
      | some ln => some (ln.attribute_value "lnClass" ++ ln.attribute_value "inst")
      | none => m.find L := by
  induction lns using List.reverseRecOn with
  | nil => intro m; rfl
  | append_singleton lns x ih =>
    intro m
    rw [List.foldl_concat, find_assign, List.filter_append]
    by_cases h : L = x.attribute_value "lnType"
    · have hb : (x.attribute_value "lnType" == L) = true := by simp [h]
      rw [if_pos h]
      simp [List.filter_cons, hb]
    · have hb : (x.attribute_value "lnType" == L) = false := by
        simpa using fun e => h e.symm
      rw [if_neg h, ih]
      simp [List.filter_cons, hb]

theorem lookup_lntype_pass (sclfile : xml_document) (L : String) :
    lookup_or_empty (lntype_lninst_pass (scl_ldevice sclfile)) L = ln_label sclfile L := by
  unfold lookup_or_empty lntype_lninst_pass ln_label
  rw [find_foldl_assign_label]
  cases ((scl_ldevice sclfile).children_named "LN" |>.filter
      (fun ln => ln.attribute_value "lnType" == L)).getLast? <;> rfl

theorem do_loop_spec (ied_name ld_name L : String) (dos : List xml_tree) :
    ∀ st : unordered_map × unordered_map,
    ∃ lm, lookup_or_empty lm = lookup_or_empty st.1 ∧
      dos.foldl (do_ln_step ied_name ld_name L) st =
        (lm, (dos.map (fun d => (L, d))).foldl (fun m e =>
          m.assign (e.2.attribute_value "type")
            (ied_name ++ ld_name ++ "/" ++ lookup_or_empty st.1 e.1 ++ "." ++
              e.2.attribute_value "name")) st.2) := by
  induction dos with
  | nil => intro st; exact ⟨st.1, rfl, rfl⟩
  | cons d rest ih =>
    intro st
    obtain ⟨lm, hlm, e⟩ := ih (do_ln_step ied_name ld_name L st d)
    refine ⟨lm, ?_, ?_⟩
    · rw [hlm]; exact lookup_or_empty_index st.1 L
    · rw [List.foldl_cons, e]
      have h1 : (do_ln_step ied_name ld_name L st d).1 = (st.1.index L).2 := rfl
      have h2 : (do_ln_step ied_name ld_name L st d).2 =
          st.2.assign (d.attribute_value "type")
            (ied_name ++ ld_name ++ "/" ++ lookup_or_empty st.1 L ++ "." ++
              d.attribute_value "name") := by
        show st.2.assign _ (ied_name ++ ld_name ++ "/" ++ (st.1.index L).1 ++ "." ++ _) = _
        rw [index_fst]
      rw [h1, h2, lookup_or_empty_index]
      rfl

theorem lnodetype_loop_spec (ied_name ld_name : String) (lts : List xml_tree) :
    ∀ st : unordered_map × unordered_map,
    ∃ lm, lookup_or_empty lm = lookup_or_empty st.1 ∧
      lts.foldl (fun st ln_node =>
          (ln_node.node.children_named "DO").foldl
            (do_ln_step ied_name ld_name (ln_node.attribute_value "id")) st) st =
        (lm, (lts.flatMap (fun lt =>
            (lt.node.children_named "DO").map (fun d => (lt.attribute_value "id", d)))).foldl
          (fun m e =>
            m.assign (e.2.attribute_value "type")
              (ied_name ++ ld_name ++ "/" ++ lookup_or_empty st.1 e.1 ++ "." ++
                e.2.attribute_value "name")) st.2) := by
  induction lts with
  | nil => intro st; exact ⟨st.1, rfl, rfl⟩
  | cons lt rest ih =>
    intro st
    obtain ⟨lm1, h1, e1⟩ := do_loop_spec ied_name ld_name (lt.attribute_value "id")
      (lt.node.children_named "DO") st
    obtain ⟨lm2, h2, e2⟩ := ih ((lt.node.children_named "DO").foldl
      (do_ln_step ied_name ld_name (lt.attribute_value "id")) st)
    refine ⟨lm2, ?_, ?_⟩
    · rw [h2, e1, h1]
    · rw [List.foldl_cons, e2, e1, h1, List.flatMap_cons, List.foldl_append]

theorem find_foldl_assign_not_mem (f : String × xml_tree → String)
    (es : List (String × xml_tree)) (t : String)
    (h : ∀ e ∈ es, e.2.attribute_value "type" ≠ t) :
    ∀ m : unordered_map,
      (es.foldl (fun m e => m.assign (e.2.attribute_value "type") (f e)) m).find t = m.find t := by
  induction es with
  | nil => intro m; rfl
  | cons e rest ih =>
    intro m
    rw [List.foldl_cons, ih (fun e he => h e (List.mem_cons_of_mem _ he)), find_assign,
      if_neg (fun he => h e (List.mem_cons_self _ _) he.symm)]

/-- The map `do_ln_mapping` of a document: the paths of the `DO` entries indexed
under their types, in document order. -/
theorem scl_do_ln_mapping_eq (sclfile : xml_document) :
    scl_do_ln_mapping sclfile =
      (scl_do_entries sclfile).foldl
        (fun (m : unordered_map) e =>
          m.assign (e.2.attribute_value "type") (do_path sclfile e)) [] := by
  obtain ⟨lm, _, e⟩ := lnodetype_loop_spec (scl_ied_name sclfile)
    ((scl_ldevice sclfile).attribute_value "inst")
    (((sclfile.node.child "SCL").child "DataTypeTemplates").children_named "LNodeType")
    (lntype_lninst_pass (scl_ldevice sclfile), [])
  refine (congrArg Prod.snd e).trans ?_
  show List.foldl _ [] (scl_do_entries sclfile) = _
  congr 1
  funext m e
  show unordered_map.assign m _ (_ ++ _ ++ "/" ++
    lookup_or_empty (lntype_lninst_pass (scl_ldevice sclfile)) e.1 ++ "." ++ _) = _
  rw [lookup_lntype_pass]
  rfl

/-- C5: the map `do_ln_mapping` of `get_scl_variables` is built by indexing, for
every `DO` entry (name `d`, type `t`) of every `LNodeType` (id `L`) in document
order, the path device name + logical device instance + `/` + label(`L`) + `.` +
`d` under `t`; label(`L`) is `lnClass` + `inst` of the `LN` of type `L` and the
empty string when there is none.  In particular the path stored under `t` after
the pass is the one of the last `DO` entry of type `t`. -/
theorem C5_data_object_path_composition (sclfile : xml_document) :
    scl_do_ln_mapping sclfile =
      (scl_do_entries sclfile).foldl
        (fun (m : unordered_map) e =>
          m.assign (e.2.attribute_value "type") (do_path sclfile e)) [] ∧
    (∀ pre e post, scl_do_entries sclfile = pre ++ e :: post →
      (∀ e' ∈ post, e'.2.attribute_value "type" ≠ e.2.attribute_value "type") →
      (scl_do_ln_mapping sclfile).find (e.2.attribute_value "type") =
        some (do_path sclfile e)) ∧
    (∀ L, (∀ ln ∈ (scl_ldevice sclfile).children_named "LN",
        ln.attribute_value "lnType" ≠ L) → ln_label sclfile L = "") := by
  have hmain := scl_do_ln_mapping_eq sclfile
  refine ⟨hmain, fun pre e post hsplit hlast => ?_, fun L hL => ?_⟩
  · rw [hmain, hsplit, List.foldl_append, List.foldl_cons,
      find_foldl_assign_not_mem (do_path sclfile) post _ hlast, find_assign, if_pos rfl]
  · unfold ln_label
    have : ((scl_ldevice sclfile).children_named "LN").filter
        (fun ln => ln.attribute_value "lnType" == L) = [] := by
      rw [List.filter_eq_nil_iff]
      intro ln hln hb
      exact hL ln hln (by simpa using hb)
    rw [this]
    rfl

/-! ### Leaves reached by the walk -/

theorem property_leaves_list_no_private (cs : List xml_tree)
    (h : cs.any (xml_tree.isNamed "Private") = false) :
    property_leaves_list cs =
      (cs.filter (xml_tree.isNamed "Property")).map (fun leaf => ([], leaf)) := by
  induction cs with
  | nil => simp [property_leaves_list]
  | cons c rest ih =>
    rw [List.any_cons, Bool.or_eq_false_iff] at h
    unfold property_leaves_list
    rw [if_neg (by simp [h.1]), ih h.2]
    by_cases hp : c.isNamed "Property" = true
    · rw [if_pos hp, List.filter_cons_of_pos hp]; rfl
    · rw [if_neg hp, List.filter_cons_of_neg hp]

mutual
theorem visited_eq_property_leaves (t : xml_tree) (h : unmixed t = true) :
    visited_leaves t = property_leaves t :=
  match t with
  | .pcdata _ => by simp [visited_leaves, property_leaves]
  | .element n a cs => by
    unfold unmixed at h
    rw [Bool.and_eq_true] at h
    obtain ⟨hmix, hlist⟩ := h
    unfold visited_leaves property_leaves
    by_cases hp : cs.any (xml_tree.isNamed "Private") = true
    · rw [if_pos hp]
      have hno : cs.any (xml_tree.isNamed "Property") = false := by
        rw [hp] at hmix; simpa using hmix
      exact (visited_private_eq_property_leaves cs hlist hno).symm
    · rw [if_neg hp]
      exact (property_leaves_list_no_private cs (by simpa using hp)).symm
theorem visited_private_eq_property_leaves (cs : List xml_tree) (h : unmixed_list cs = true)
    (hno : cs.any (xml_tree.isNamed "Property") = false) :
    property_leaves_list cs = visited_leaves_private cs :=
  match cs with
  | [] => by simp [property_leaves_list, visited_leaves_private]
  | c :: rest => by
    unfold unmixed_list at h
    rw [Bool.and_eq_true] at h
    rw [List.any_cons, Bool.or_eq_false_iff] at hno
    unfold property_leaves_list visited_leaves_private
    by_cases hp : c.isNamed "Private" = true
    · rw [if_pos hp, if_pos hp, visited_eq_property_leaves c h.1,
        visited_private_eq_property_leaves rest h.2 hno.2]
    · rw [if_neg hp, if_neg hp, if_neg (by simp [hno.1])]
      exact visited_private_eq_property_leaves rest h.2 hno.2
end

theorem records_of_eq (t : Nat) (h : t = CLIENT ∨ t = SERVER) (res : String → String)
    (p : String) (ls : List (List String × xml_tree)) :
    records_of t res p ls = ls.filterMap (leaf_record res p) := by
  unfold records_of
  rcases h with h | h <;> simp [h]

/-- C6 (as stated): the walk does not yield a record for every qualifying
`Property` leaf reached through `Private` containers.  In `mixed_da` the
property with value `V2` is a child of the data attribute itself (no container
on the way) and qualifies, yet the only record is the one of the property inside
the container `a`. -/
theorem C6_shadowed_property_yields_no_record :
    (getVarAddrMapping mixed_da "p"
        { Globals.initial with target := SERVER, var_addr_map := st_table minimal_st }
      ).mapvaraddr_buffer = ["MONITOR p.a %IX0.0"]
    ∧ (property_leaves mixed_da).filterMap
        (leaf_record (resolve (st_table minimal_st)) "p")
        = ["MONITOR p.a %IX0.0", "MONITOR p X"]
    ∧ (getVarAddrMapping mixed_da "p"
        { Globals.initial with target := SERVER, var_addr_map := st_table minimal_st }
      ).mapvaraddr_buffer ≠
        (property_leaves mixed_da).filterMap
          (leaf_record (resolve (st_table minimal_st)) "p") := by
  decide

/-- C6 (amended): for every data attribute and start path `p`, the records
appended by `getVarAddrMapping` are those of the `Property` leaves reached
through nested `Private` containers whose parent has no `Private` child
(`visited_leaves`), in document order: a leaf below the containers `n1 … nk`
gives `MONITOR` resp. `CONTROL` with the path `p.n1.….nk` when its name is
`sMonitoringVar` resp. `sControlVar` and its value is not empty, and nothing
otherwise.  For a document the records follow the `DOType` and `DA` elements in
document order.  Where no node has both `Private` and `Property` children the
leaves reached are all the `Property` leaves. -/
theorem C6_walk_records_in_document_order (g : Globals)
    (ht : g.target = CLIENT ∨ g.target = SERVER) :
    (∀ (da : xml_tree) (p : String),
      (getVarAddrMapping da p g).mapvaraddr_buffer =
        g.mapvaraddr_buffer ++
          (visited_leaves da).filterMap (leaf_record (resolve g.var_addr_map) p)) ∧
    (∀ sclfile : xml_document,
      (get_scl_variables sclfile g).mapvaraddr_buffer =
        g.mapvaraddr_buffer ++
          (scl_dotypes sclfile).flatMap (fun dt =>
            (dt.node.children_named "DA").flatMap (fun da =>
              (visited_leaves da).filterMap
                (leaf_record (resolve g.var_addr_map)
                  (lookup_or_empty (scl_do_ln_mapping sclfile) (dt.attribute_value "id")))))) ∧
    (∀ da : xml_tree, unmixed da = true → visited_leaves da = property_leaves da) := by
  refine ⟨fun da p => ?_, fun sclfile => ?_, fun da h => visited_eq_property_leaves da h⟩
  · obtain ⟨m, _, e⟩ := walk_emit da p g
    rw [e, records_of_eq _ ht]
    rfl
  · obtain ⟨m, _, e⟩ := get_scl_variables_emit sclfile g
    rw [e]
    show g.mapvaraddr_buffer ++ scl_records g.target (resolve g.var_addr_map) sclfile = _
    unfold scl_records
    simp only [records_of_eq _ ht]

/-- An instance of C6 (amended) on the data attribute with mixed children. -/
theorem C6_walk_records_in_document_order_witness :
    (SERVER = CLIENT ∨ SERVER = SERVER) ∧
    (getVarAddrMapping mixed_da "p"
        { Globals.initial with target := SERVER, var_addr_map := st_table minimal_st }
      ).mapvaraddr_buffer =
      [] ++ (visited_leaves mixed_da).filterMap
        (leaf_record (resolve (st_table minimal_st)) "p") :=
  ⟨Or.inr rfl,
    (C6_walk_records_in_document_order
      { Globals.initial with target := SERVER, var_addr_map := st_table minimal_st }
      (Or.inr rfl)).1 mixed_da "p"⟩

/-! ### Reports and datasets -/

theorem get_report_dataset_loop_ok (sclfile : xml_document) (pdld : String)
    (reports : List xml_tree) (h : ∀ r ∈ reports, report_readable r = true) :
    ∀ acc : List String,
      get_report_dataset_loop sclfile pdld reports acc =
        Except.ok (acc ++ reports.flatMap (fun report =>
          (List.range (report_count report).toNat).map (fun k =>
            pdld ++ "/LLN0.RP." ++ report.attribute_value "name" ++ sprintf_02d (k + 1) ++ " " ++
              get_dataSet_reference sclfile (report.attribute_value "datSet")))) := by
  induction reports with
  | nil => intro acc; simp [get_report_dataset_loop]
  | cons r rest ih =>
    intro acc
    have hr := h r (List.mem_cons_self _ _)
    unfold report_readable at hr
    unfold get_report_dataset_loop
    cases hm : report_max r with
    | error e => rw [hm] at hr; exact absurd hr (by simp)
    | ok n =>
      rw [hm] at hr
      have hn : n < 1000000000 := by simpa using hr
      have hm' : stoi ((r.node.child "RptEnabled").attribute_value "max") = Except.ok n := hm
      simp only [hm']
      rw [if_neg (by omega), ih (fun x hx => h x (List.mem_cons_of_mem _ hx))]
      have hc : report_count r = n := by unfold report_count; rw [hm]
      simp [List.flatMap_cons, hc, report_instances, List.append_assoc]

theorem get_report_dataset_ok (sclfile : xml_document) (g : Globals)
    (h : ∀ r ∈ scl_reports sclfile, report_readable r = true) :
    get_report_dataset sclfile g =
      Except.ok { g with
        report_dataset_buffer := g.report_dataset_buffer ++
          [(scl_reports sclfile).flatMap (fun report =>
            (List.range (report_count report).toNat).map (fun k =>
              scl_pdld_name sclfile ++ "/LLN0.RP." ++ report.attribute_value "name" ++
                sprintf_02d (k + 1) ++ " " ++
                get_dataSet_reference sclfile (report.attribute_value "datSet")))] } := by
  have e := get_report_dataset_loop_ok sclfile (scl_pdld_name sclfile) (scl_reports sclfile) h []
  unfold get_report_dataset
  show (match get_report_dataset_loop sclfile (scl_pdld_name sclfile) (scl_reports sclfile) []
    with
    | Except.error e => Except.error e
    | Except.ok reports_datasets => Except.ok _) = _
  rw [e]
  rfl

/-- C7 (as stated): a report with a readable count gets no instance at all when
another report of the document has no `RptEnabled` child, since `std::stoi`
throws and nothing is appended; and a count of 1000000000 overruns the buffer of
`sprintf`. -/
theorem C7_unreadable_sibling_count_emits_nothing :
    report_max (sample_report "rcb" "ds1" "2") = Except.ok 2
    ∧ get_report_dataset
        (sample_scl "D" ["10.0.0.1"]
          [sample_report "rcb" "ds1" "2", sample_report_no_max "r2" "ds1"] [])
        Globals.initial = Except.error Exn.invalid_argument
    ∧ get_report_dataset
        (sample_scl "D" ["10.0.0.1"] [sample_report "rcb" "ds1" "1000000000"] [])
        Globals.initial = Except.error Exn.undefined_behaviour := by
  decide

/-- C7 (amended): for every document in which every `ReportControl` has a
readable maximum instance count below 1000000000, `get_report_dataset` appends
one report list: for each `ReportControl` in declaration order, with name `r`
and count `N`, the `N` instances device + ldevice + `/LLN0.RP.` + `r` + `i`
zero-padded to two digits + blank + resolved dataset path, for `i` from 1 to `N`
ascending (none for `N ≤ 0`).  The suffixes for 1, 2, 3 are `01`, `02`, `03`. -/
theorem C7_report_instance_enumeration (sclfile : xml_document) (g : Globals)
    (h : ∀ r ∈ scl_reports sclfile, report_readable r = true) :
    get_report_dataset sclfile g =
      Except.ok { g with
        report_dataset_buffer := g.report_dataset_buffer ++
          [(scl_reports sclfile).flatMap (fun report =>
            (List.range (report_count report).toNat).map (fun k =>
              scl_ied_name sclfile ++ (scl_ldevice sclfile).attribute_value "inst" ++
                "/LLN0.RP." ++ report.attribute_value "name" ++
                sprintf_02d (k + 1) ++ " " ++
                get_dataSet_reference sclfile (report.attribute_value "datSet")))] }
    ∧ (List.range 3).map (fun k => sprintf_02d (k + 1)) = ["01", "02", "03"] :=
  ⟨get_report_dataset_ok sclfile g h, by decide⟩

/-- An instance of C7 (amended): a report with three instances. -/
theorem C7_report_instance_enumeration_witness :
    (∀ r ∈ scl_reports (sample_scl "D" ["10.0.0.1"] [sample_report "rcb" "ds1" "3"] []),
      report_readable r = true)
    ∧ get_report_dataset (sample_scl "D" ["10.0.0.1"] [sample_report "rcb" "ds1" "3"] [])
        Globals.initial =
      Except.ok { Globals.initial with
        report_dataset_buffer :=
          [["D1/LLN0.RP.rcb01 D1/LLN0$ds1", "D1/LLN0.RP.rcb02 D1/LLN0$ds1",
            "D1/LLN0.RP.rcb03 D1/LLN0$ds1"]] } :=
  ⟨by decide,
    (C7_report_instance_enumeration
      (sample_scl "D" ["10.0.0.1"] [sample_report "rcb" "ds1" "3"] []) Globals.initial
      (by decide)).1.trans (by decide)⟩

theorem dataset_path_ne_X (p g : String) : p ++ "/LLN0$" ++ g ≠ "X" := by
  intro h
  have := congrArg (fun s => s.data.length) h
  simp only [String.data_append, List.length_append, List.length_cons, List.length_nil] at this
  omega

/-- C8: `get_dataSet_reference` returns device name + ldevice inst + `/LLN0$` +
`g` exactly when some `DataSet` child of the `LN0` of the first `LDevice` has the
name `g`, and returns `X` otherwise. -/
theorem C8_dataset_reference_resolution (sclfile : xml_document) (given_name : String) :
    (get_dataSet_reference sclfile given_name =
        scl_ied_name sclfile ++ (scl_ldevice sclfile).attribute_value "inst" ++ "/LLN0$" ++
          given_name ↔
      ∃ ds ∈ scl_datasets sclfile, ds.attribute_value "name" = given_name) ∧
    ((¬ ∃ ds ∈ scl_datasets sclfile, ds.attribute_value "name" = given_name) →
      get_dataSet_reference sclfile given_name = "X") := by
  have hdef : get_dataSet_reference sclfile given_name =
      match (scl_datasets sclfile).find?
        (fun dataset => dataset.attribute_value "name" == given_name) with
      | some dataset => scl_ied_name sclfile ++ (scl_ldevice sclfile).attribute_value "inst" ++
          "/LLN0$" ++ dataset.attribute_value "name"
      | none => "X" := rfl
  rw [hdef]
  cases hf : (scl_datasets sclfile).find?
      (fun dataset => dataset.attribute_value "name" == given_name) with
  | none =>
    have hnone := List.find?_eq_none.mp hf
    have hno : ¬ ∃ ds ∈ scl_datasets sclfile, ds.attribute_value "name" = given_name := by
      rintro ⟨ds, hds, hn⟩
      exact hnone ds hds (by simp [hn])
    refine ⟨⟨fun h => absurd h.symm (dataset_path_ne_X _ _), fun h => absurd h hno⟩,
      fun _ => rfl⟩
  | some ds =>
    have hp : ds.attribute_value "name" = given_name := by
      simpa using List.find?_some hf
    have hmem := List.mem_of_find?_eq_some hf
    refine ⟨⟨fun _ => ⟨ds, hmem, hp⟩, fun _ => ?_⟩, fun h => absurd ⟨ds, hmem, hp⟩ h⟩
    show _ ++ ds.attribute_value "name" = _
    rw [hp]

/-- An instance of C8: a declared and an undeclared dataset name. -/
theorem C8_dataset_reference_resolution_witness :
    get_dataSet_reference (sample_scl "D" [] [] []) "ds1" = "D1/LLN0$ds1"
    ∧ get_dataSet_reference (sample_scl "D" [] [] []) "other" = "X" :=
  ⟨((C8_dataset_reference_resolution (sample_scl "D" [] [] []) "ds1").1.mpr
      ⟨.element "DataSet" [("name", "ds1")] [], List.mem_cons_self _ _, by decide⟩).trans
      (by decide),
    (C8_dataset_reference_resolution (sample_scl "D" [] [] []) "other").2 (by decide)⟩

/-! ### The client run -/

theorem get_IP_address_foldl (ps : List xml_tree) : ∀ g : Globals,
    ps.foldl (fun (g : Globals) (ip : xml_tree) =>
        if ip.attribute_value "type" == "IP" then
          { g with ipaddr_buffer := g.ipaddr_buffer ++ [xml_node.first_child_text (some ip)] }
        else g) g =
      { g with ipaddr_buffer := (g.ipaddr_buffer ++
          (ps.filter (fun ip => ip.attribute_value "type" == "IP")).map
            (fun ip => xml_node.first_child_text (some ip))) } := by
  induction ps with
  | nil => intro g; simp
  | cons p rest ih =>
    intro g
    rw [List.foldl_cons, ih]
    by_cases h : (p.attribute_value "type" == "IP") = true
    · simp [h, List.filter_cons]
    · simp [h, List.filter_cons]

theorem get_IP_address_eq (sclfile : xml_document) (g : Globals) :
    get_IP_address sclfile g =
      { g with ipaddr_buffer := g.ipaddr_buffer ++ scl_endpoints sclfile } := by
  unfold scl_endpoints get_IP_address
  rw [get_IP_address_foldl, get_IP_address_foldl]
  simp [Globals.initial]

theorem get_report_dataset_frame (sclfile : xml_document) (g g1 : Globals)
    (h : get_report_dataset sclfile g = Except.ok g1) :
    ∃ rs, g1 = { g with report_dataset_buffer := g.report_dataset_buffer ++ [rs] } := by
  unfold get_report_dataset at h
  simp only at h
  split at h
  · exact absurd h (by simp)
  · rename_i rs _
    exact ⟨rs, (Except.ok.inj h).symm⟩

theorem records_of_client_server (res : String → String) (p : String)
    (ls : List (List String × xml_tree)) :
    records_of CLIENT res p ls = records_of SERVER res p ls := rfl

theorem scl_records_client_server (res : String → String) (sclfile : xml_document) :
    scl_records CLIENT res sclfile = scl_records SERVER res sclfile := rfl

theorem server_dump_eq (tbl : unordered_map) (sclfile : xml_document) :
    server_dump tbl sclfile = scl_records SERVER (resolve tbl) sclfile := by
  unfold server_dump
  obtain ⟨m, _, e⟩ := get_scl_variables_emit sclfile
    { Globals.initial with target := SERVER, var_addr_map := tbl }
  rw [e]
  simp [Globals.emit, Globals.initial]

/-- A client run of the loop of `process_scl_files` that ends normally has
appended the records of the documents, in order, and keeps target and
resolution. -/
theorem scl_loop_client_records (fs : FileSystem) :
    ∀ (names : List String) (docs : List xml_document) (g : Globals) (rc : Int) (g1 : Globals),
      g.target = CLIENT →
      names.map fs.scl_file = docs.map load_result.status_ok →
      process_scl_files_loop fs names g = Except.ok (rc, g1) →
      g1.target = CLIENT ∧ g1.sclfilenames = g.sclfilenames ∧
      g1.mapvaraddr_buffer = g.mapvaraddr_buffer ++
        docs.flatMap (scl_records CLIENT (resolve g.var_addr_map)) := by
  intro names
  induction names with
  | nil =>
    intro docs g rc g1 ht hload h
    cases docs with
    | nil =>
      simp only [process_scl_files_loop] at h
      have := (Except.ok.inj h)
      have hg : g1 = g := (congrArg Prod.snd this).symm
      subst hg
      simp [ht]
    | cons d ds => simp at hload
  | cons name rest ih =>
    intro docs g rc g1 ht hload h
    cases docs with
    | nil => simp at hload
    | cons d ds =>
      simp only [List.map_cons, List.cons.injEq] at hload
      obtain ⟨hd, hrest⟩ := hload
      unfold process_scl_files_loop at h
      rw [hd] at h
      simp only at h
      obtain ⟨m, hm, e⟩ := get_scl_variables_emit d g
      have ht2 : (get_scl_variables d g).target = CLIENT := by rw [e]; exact ht
      rw [if_pos (by simp [ht2])] at h
      split at h
      · exact absurd h (by simp)
      · rename_i g2 hrep
        obtain ⟨rs, hg2⟩ := get_report_dataset_frame _ _ _ hrep
        have := ih ds _ rc g1 (by rw [hg2, get_IP_address_eq]; exact ht2) hrest h
        obtain ⟨h1, h2, h3⟩ := this
        refine ⟨h1, ?_, ?_⟩
        · rw [h2, hg2, get_IP_address_eq, e]; rfl
        · rw [h3, hg2, get_IP_address_eq, e]
          simp only [Globals.emit, List.flatMap_cons, List.append_assoc, hm, ht]

theorem append_blank_ne_empty (a b : String) : a ++ " " ++ b ≠ "" := by
  intro h
  have := congrArg (fun s => s.data.length) h
  simp only [String.data_append, List.length_append, List.length_cons, List.length_nil] at this
  omega

theorem leaf_record_ne_empty (res : String → String) (p : String) (l : List String × xml_tree)
    (x : String) (h : leaf_record res p l = some x) : x ≠ "" := by
  unfold leaf_record at h
  simp only at h
  split at h
  · rw [← Option.some.inj h]; exact append_blank_ne_empty _ _
  · split at h
    · rw [← Option.some.inj h]; exact append_blank_ne_empty _ _
    · exact absurd h (by simp)

theorem leaf_control_ne_empty (res : String → String) (p : String) (l : List String × xml_tree)
    (x : String) (h : leaf_control res p l = some x) : x ≠ "" := by
  unfold leaf_control at h
  simp only at h
  split at h
  · rw [← Option.some.inj h]; exact append_blank_ne_empty _ _
  · exact absurd h (by simp)

theorem records_of_ne_empty (t : Nat) (res : String → String) (p : String)
    (ls : List (List String × xml_tree)) : ∀ x ∈ records_of t res p ls, x ≠ "" := by
  intro x hx
  unfold records_of at hx
  split at hx
  · obtain ⟨l, _, hl⟩ := List.mem_filterMap.mp hx
    exact leaf_record_ne_empty res p l x hl
  · simp at hx

theorem controls_of_ne_empty (t : Nat) (res : String → String) (p : String)
    (ls : List (List String × xml_tree)) : ∀ x ∈ controls_of t res p ls, x ≠ "" := by
  intro x hx
  unfold controls_of at hx
  split at hx
  · obtain ⟨l, _, hl⟩ := List.mem_filterMap.mp hx
    exact leaf_control_ne_empty res p l x hl
  · simp at hx

theorem scl_records_ne_empty (t : Nat) (res : String → String) (sclfile : xml_document) :
    ∀ x ∈ scl_records t res sclfile, x ≠ "" := by
  intro x hx
  unfold scl_records at hx
  obtain ⟨dt, _, hx⟩ := List.mem_flatMap.mp hx
  obtain ⟨da, _, hx⟩ := List.mem_flatMap.mp hx
  exact records_of_ne_empty _ _ _ _ x hx

theorem scl_controls_ne_empty (t : Nat) (res : String → String) (sclfile : xml_document) :
    ∀ x ∈ scl_controls t res sclfile, x ≠ "" := by
  intro x hx
  unfold scl_controls at hx
  obtain ⟨dt, _, hx⟩ := List.mem_flatMap.mp hx
  obtain ⟨da, _, hx⟩ := List.mem_flatMap.mp hx
  exact controls_of_ne_empty _ _ _ _ x hx

/-- The state after a client run of the loop of `process_scl_files` over
documents whose report counts are all readable. -/
theorem scl_loop_client_ok (fs : FileSystem) :
    ∀ (names : List String) (docs : List xml_document) (g : Globals),
      g.target = CLIENT →
      names.map fs.scl_file = docs.map load_result.status_ok →
      (∀ d ∈ docs, ∀ r ∈ scl_reports d, report_readable r = true) →
      ∃ m, resolve m = resolve g.var_addr_map ∧
        process_scl_files_loop fs names g = Except.ok (0, { g with
          var_addr_map := m
          mapvaraddr_buffer := (g.mapvaraddr_buffer ++
            docs.flatMap (scl_records CLIENT (resolve g.var_addr_map)))
          controlVariables := (g.controlVariables ++
            docs.flatMap (fun d => scl_controls CLIENT (resolve g.var_addr_map) d ++ [""]))
          ipaddr_buffer := (g.ipaddr_buffer ++ docs.flatMap scl_endpoints)
          report_dataset_buffer := (g.report_dataset_buffer ++ docs.map scl_report_list) }) := by
  intro names
  induction names with
  | nil =>
    intro docs g ht hload hread
    cases docs with
    | nil => exact ⟨g.var_addr_map, rfl, by simp [process_scl_files_loop]⟩
    | cons d ds => simp at hload
  | cons name rest ih =>
    intro docs g ht hload hread
    cases docs with
    | nil => simp at hload
    | cons d ds =>
      simp only [List.map_cons, List.cons.injEq] at hload
      obtain ⟨hd, hrest⟩ := hload
      obtain ⟨m, hm, e⟩ := get_scl_variables_emit d g
      have ht2 : (get_scl_variables d g).target = CLIENT := by rw [e]; exact ht
      have hrep := get_report_dataset_ok d (get_IP_address d (get_scl_variables d g))
        (hread d (List.mem_cons_self _ _))
      obtain ⟨m2, hm2, e2⟩ := ih ds
        { get_IP_address d (get_scl_variables d g) with
          report_dataset_buffer :=
            ((get_IP_address d (get_scl_variables d g)).report_dataset_buffer ++
              [scl_report_list d])
          controlVariables :=
            ((get_IP_address d (get_scl_variables d g)).controlVariables ++ [""]) }
        (by rw [get_IP_address_eq]; exact ht2) hrest
        (fun x hx => hread x (List.mem_cons_of_mem _ hx))
      refine ⟨m2, ?_, ?_⟩
      · rw [hm2, get_IP_address_eq, e]; exact hm
      · unfold process_scl_files_loop
        rw [hd]
        simp only
        rw [if_pos (by simp [ht2]), hrep]
        simp only
        refine Eq.trans e2 ?_
        rw [get_IP_address_eq, e]
        simp only [Globals.emit, List.flatMap_cons, List.map_cons, List.append_assoc, hm, ht,
          List.singleton_append]

theorem vector_at_of_drop {α : Type} (l : List α) (x : α) (r : List α) :
    ∀ i, l.drop i = x :: r → vector_at l i = Except.ok x ∧ l.drop (i + 1) = r ∧ 0 < l.length := by
  induction l with
  | nil => intro i h; simp at h
  | cons a t ih =>
    intro i h
    cases i with
    | zero =>
      simp only [List.drop_zero, List.cons.injEq] at h
      obtain ⟨rfl, rfl⟩ := h
      simp [vector_at]
    | succ k =>
      rw [List.drop_succ_cons] at h
      obtain ⟨h1, h2, _⟩ := ih k h
      refine ⟨?_, ?_, by simp⟩
      · unfold vector_at at h1 ⊢
        rw [List.get?_cons_succ]
        exact h1
      · rw [List.drop_succ_cons]; exact h2

theorem control_group_cons (a : String) (l : List String) (h : a ≠ "") :
    control_group (a :: l) = (a :: (control_group l).1, (control_group l).2 + 1) := by
  have ha : (a == "") = false := by simpa using h
  rw [control_group]
  simp [ha]

theorem control_group_append (c rest : List String) (h : ∀ x ∈ c, x ≠ "") :
    control_group (c ++ "" :: rest) = (c, c.length + 1) := by
  induction c with
  | nil => simp [control_group]
  | cons a t ih =>
    have := ih (fun x hx => h x (List.mem_cons_of_mem _ hx))
    rw [List.cons_append, control_group_cons _ _ (h a (List.mem_cons_self _ _)), this]
    rfl

/-- The client loop of `main` when the buffers hold, from the positions `i` and
`j` on, one endpoint, one report list and one group of control lines closed by
an empty string for each remaining document. -/
theorem client_groups_spec (g : Globals) :
    ∀ (gs : List (String × List String × List String)) (i j : Nat),
      g.ipaddr_buffer.drop i = gs.map (fun x => x.1) →
      g.report_dataset_buffer.drop i = gs.map (fun x => x.2.1) →
      g.controlVariables.drop j = gs.flatMap (fun x => x.2.2 ++ [""]) →
      (∀ x ∈ gs, ∀ l ∈ x.2.2, l ≠ "") →
      client_groups g gs.length i j =
        Except.ok (gs.flatMap (fun x => x.1 :: (x.2.1 ++ x.2.2))) := by
  intro gs
  induction gs with
  | nil => intro i j _ _ _ _; rfl
  | cons x rest ih =>
    intro i j hip hrd hcv hne
    obtain ⟨a1, a2, a3⟩ := vector_at_of_drop _ _ _ i hip
    obtain ⟨b1, b2, _⟩ := vector_at_of_drop _ _ _ i hrd
    have hcv2 : g.controlVariables.drop j = x.2.2 ++ "" :: rest.flatMap (fun x => x.2.2 ++ [""]) := by
      rw [hcv]; simp [List.flatMap_cons]
    have hcg := control_group_append x.2.2 (rest.flatMap (fun x => x.2.2 ++ [""]))
      (hne x (List.mem_cons_self _ _))
    have hdrop : g.controlVariables.drop (j + (x.2.2.length + 1)) =
        rest.flatMap (fun x => x.2.2 ++ [""]) := by
      rw [← List.drop_drop, hcv2]
      simp
    have hrest := ih (i + 1) (j + (x.2.2.length + 1)) a2 b2 hdrop
      (fun y hy => hne y (List.mem_cons_of_mem _ hy))
    simp only [List.length_cons, client_groups]
    rw [if_pos (by simpa using a3), a1, b1]
    simp only
    rw [hcv2, hcg]
    simp only
    rw [hrest]
    simp [List.flatMap_cons]

theorem vector_at_of_lt {α : Type} (l : List α) (i : Nat) (h : i < l.length) :
    ∃ x, vector_at l i = Except.ok x := by
  unfold vector_at
  rw [List.get?_eq_get h]
  exact ⟨_, rfl⟩

/-- The client loop of `main` ends normally when there is no endpoint at all, or
an endpoint and a report list for every remaining document. -/
theorem client_groups_total (g : Globals) :
    ∀ (n i j : Nat),
      (g.ipaddr_buffer = [] ∨ i + n ≤ g.ipaddr_buffer.length) →
      i + n ≤ g.report_dataset_buffer.length →
      ∃ out, client_groups g n i j = Except.ok out := by
  intro n
  induction n with
  | zero => intro i j _ _; exact ⟨[], rfl⟩
  | succ n ih =>
    intro i j hip hrd
    unfold client_groups
    by_cases hlen : g.ipaddr_buffer.length > 0
    · rw [if_pos hlen]
      have hip2 : i + (n + 1) ≤ g.ipaddr_buffer.length := by
        rcases hip with h | h
        · rw [h] at hlen; simp at hlen
        · exact h
      obtain ⟨x, hx⟩ := vector_at_of_lt g.ipaddr_buffer i (by omega)
      obtain ⟨y, hy⟩ := vector_at_of_lt g.report_dataset_buffer i (by omega)
      obtain ⟨rest, hrest⟩ := ih (i + 1)
        (j + (control_group (g.controlVariables.drop j)).2) (Or.inr (by omega)) (by omega)
      rw [hx, hy]
      simp only
      rw [hrest]
      exact ⟨_, rfl⟩
    · rw [if_neg hlen]; exact ⟨[], rfl⟩

theorem write_output_client_ok (g : Globals) (h : g.target = CLIENT) (lines : List String)
    (hc : client_groups g g.sclfilenames.length 0 0 = Except.ok lines) :
    write_output g = Except.ok (lines ++ [""] ++ g.mapvaraddr_buffer) := by
  unfold write_output
  have h1 : ¬ (g.target == SERVER) = true := by rw [h]; decide
  have h2 : (g.target == CLIENT) = true := by rw [h]; decide
  rw [if_neg h1, if_pos h2, hc]

theorem write_output_client_inv (g : Globals) (h : g.target = CLIENT) (out : List String)
    (hw : write_output g = Except.ok out) :
    ∃ lines, out = lines ++ [""] ++ g.mapvaraddr_buffer := by
  unfold write_output at hw
  have h1 : ¬ (g.target == SERVER) = true := by rw [h]; decide
  have h2 : (g.target == CLIENT) = true := by rw [h]; decide
  rw [if_neg h1, if_pos h2] at hw
  split at hw
  · exact absurd hw (by simp)
  · rename_i lines _
    exact ⟨lines, (Except.ok.inj hw).symm⟩

/-- C9 (as stated): a document without an `IP` address entry gets no group at
all, although it has report instances and a control variable: the first line
written is the blank separator.  And with two documents of which the first has
two `IP` entries and the second none, the second group shows an address of the
first document. -/
theorem C9_document_without_endpoint_has_no_group :
    main (sample_fs [("a.scl", sample_scl "A" [] [sample_report "rcb" "ds1" "2"]
          [sample_property "sControlVar" "V1"])])
        ["mapper", "-client", "-st", "prog.st", "-scl", "a.scl"]
      = Except.ok (0, ["", "CONTROL A1/P1.Pos %IX0.0"])
    ∧ scl_report_list (sample_scl "A" [] [sample_report "rcb" "ds1" "2"]
          [sample_property "sControlVar" "V1"])
      = ["A1/LLN0.RP.rcb01 A1/LLN0$ds1", "A1/LLN0.RP.rcb02 A1/LLN0$ds1"]
    ∧ scl_controls CLIENT (resolve (st_table minimal_st))
        (sample_scl "A" [] [sample_report "rcb" "ds1" "2"] [sample_property "sControlVar" "V1"])
      = ["A1/P1.Pos %IX0.0"]
    ∧ main (sample_fs [("a.scl", sample_scl "A" ["10.0.0.1", "10.0.0.9"] [] []),
          ("b.scl", sample_scl "B" [] [] [])])
        ["mapper", "-client", "-st", "prog.st", "-scl", "a.scl", "b.scl"]
      = Except.ok (0, ["10.0.0.1", "10.0.0.9", ""])
    ∧ scl_endpoints (sample_scl "B" [] [] []) = [] := by
  decide

/-- C9 (amended): for every list of documents processed in client role, each
with exactly one `IP` address entry and with readable report counts, the run
ends normally and the lines written before the blank separator are, document by
document in input order, the endpoint, then the report instances in resolver
order, then the control-variable lines in walker order; a document without
control variables contributes only its endpoint and report lines. -/
theorem C9_client_groups_in_input_order (fs : FileSystem) (g0 : Globals)
    (docs : List xml_document)
    (ht : g0.target = CLIENT)
    (hbuf : g0.ipaddr_buffer = [] ∧ g0.report_dataset_buffer = [] ∧ g0.controlVariables = [])
    (hload : g0.sclfilenames.map fs.scl_file = docs.map load_result.status_ok)
    (hone : ∀ d ∈ docs, ∃ e, scl_endpoints d = [e])
    (hread : ∀ d ∈ docs, ∀ r ∈ scl_reports d, report_readable r = true) :
    ∃ g1, process_scl_files fs g0 = Except.ok (0, g1) ∧
      write_output g1 =
        Except.ok (docs.flatMap (fun d =>
            scl_endpoints d ++ scl_report_list d ++
              scl_controls CLIENT (resolve g0.var_addr_map) d)
          ++ [""] ++ g1.mapvaraddr_buffer) := by
  obtain ⟨m, _, e⟩ := scl_loop_client_ok fs g0.sclfilenames docs g0 ht hload hread
  obtain ⟨h1, h2, h3⟩ := hbuf
  refine ⟨_, e, ?_⟩
  have hlen : g0.sclfilenames.length = docs.length := by
    have := congrArg List.length hload
    simpa using this
  have hep : docs.flatMap scl_endpoints = docs.map (fun d => (scl_endpoints d).headD "") := by
    clear e hload hread hlen
    induction docs with
    | nil => rfl
    | cons d ds ih =>
      obtain ⟨x, hx⟩ := hone d (List.mem_cons_self _ _)
      rw [List.flatMap_cons, List.map_cons, ih (fun y hy => hone y (List.mem_cons_of_mem _ hy)), hx]
      rfl
  have hfinal : (docs.map (fun d => ((scl_endpoints d).headD "", scl_report_list d,
      scl_controls CLIENT (resolve g0.var_addr_map) d))).flatMap
        (fun x => x.1 :: (x.2.1 ++ x.2.2)) =
      docs.flatMap (fun d => scl_endpoints d ++ scl_report_list d ++
        scl_controls CLIENT (resolve g0.var_addr_map) d) := by
    clear e hload hread hlen hep
    induction docs with
    | nil => rfl
    | cons d ds ih =>
      obtain ⟨x, hx⟩ := hone d (List.mem_cons_self _ _)
      simp only [List.map_cons, List.flatMap_cons]
      rw [ih (fun y hy => hone y (List.mem_cons_of_mem _ hy)), hx]
      simp
  have hspec := client_groups_spec
    { g0 with
      var_addr_map := m
      mapvaraddr_buffer := (g0.mapvaraddr_buffer ++
        docs.flatMap (scl_records CLIENT (resolve g0.var_addr_map)))
      controlVariables := (g0.controlVariables ++
        docs.flatMap (fun d => scl_controls CLIENT (resolve g0.var_addr_map) d ++ [""]))
      ipaddr_buffer := (g0.ipaddr_buffer ++ docs.flatMap scl_endpoints)
      report_dataset_buffer := (g0.report_dataset_buffer ++ docs.map scl_report_list) }
    (docs.map (fun d => ((scl_endpoints d).headD "", scl_report_list d,
      scl_controls CLIENT (resolve g0.var_addr_map) d))) 0 0
    (by simp [h1, hep, List.map_map, Function.comp_def])
    (by simp [h2, List.map_map, Function.comp_def])
    (by simp [h3, List.flatMap_map])
    (by
      intro x hx l hl
      obtain ⟨d, _, rfl⟩ := List.mem_map.mp hx
      exact scl_controls_ne_empty _ _ _ l hl)
  rw [List.length_map, ← hlen, hfinal] at hspec
  refine write_output_client_ok _ ?_ _ hspec
  exact ht

/-- Each of the two sample documents has exactly one endpoint. -/
theorem sample_docs_one_endpoint :
    ∀ d ∈ [sample_doc_a, sample_doc_b], ∃ e, scl_endpoints d = [e] := by
  intro d hd
  rcases List.mem_cons.mp hd with rfl | hd
  · exact ⟨"10.0.0.1", by decide⟩
  · rcases List.mem_cons.mp hd with rfl | hd
    · exact ⟨"10.0.0.2", by decide⟩
    · simp at hd

/-- An instance of C9 (amended): the two sample documents in client role. -/
theorem C9_client_groups_in_input_order_witness :
    ∃ g1, process_scl_files sample_client_fs sample_client_globals = Except.ok (0, g1) ∧
      write_output g1 =
        Except.ok (["10.0.0.1", "A1/LLN0.RP.rcb01 A1/LLN0$ds1", "A1/LLN0.RP.rcb02 A1/LLN0$ds1",
            "A1/P1.Pos %IX0.0", "10.0.0.2"]
          ++ [""] ++ g1.mapvaraddr_buffer) := by
  have h := C9_client_groups_in_input_order sample_client_fs sample_client_globals
    [sample_doc_a, sample_doc_b] rfl ⟨rfl, rfl, rfl⟩ rfl sample_docs_one_endpoint (by decide)
  have e : [sample_doc_a, sample_doc_b].flatMap (fun d =>
      scl_endpoints d ++ scl_report_list d ++
        scl_controls CLIENT (resolve sample_client_globals.var_addr_map) d) =
      ["10.0.0.1", "A1/LLN0.RP.rcb01 A1/LLN0$ds1", "A1/LLN0.RP.rcb02 A1/LLN0$ds1",
        "A1/P1.Pos %IX0.0", "10.0.0.2"] := by decide
  rw [e] at h
  exact h

/-- C10: for every binding table and every list of documents processed in client
role, the lines written after the blank separator are exactly the concatenation
`dump(d1) ++ … ++ dump(dN)` of the record dumps that the server role produces for
each document alone with the same table, and none of them is blank.  The run
reaches the separator whenever all report counts are readable and the endpoint
list is empty or has an entry for every document. -/
theorem C10_combined_dump_is_concatenation (fs : FileSystem) (g0 : Globals)
    (docs : List xml_document)
    (ht : g0.target = CLIENT)
    (hbuf : g0.mapvaraddr_buffer = [] ∧ g0.ipaddr_buffer = [] ∧
      g0.report_dataset_buffer = [])
    (hload : g0.sclfilenames.map fs.scl_file = docs.map load_result.status_ok) :
    (∀ g1 out, process_scl_files fs g0 = Except.ok (0, g1) → write_output g1 = Except.ok out →
      ∃ groups, out = groups ++ [""] ++ docs.flatMap (server_dump g0.var_addr_map) ∧
        "" ∉ docs.flatMap (server_dump g0.var_addr_map)) ∧
    ((∀ d ∈ docs, ∀ r ∈ scl_reports d, report_readable r = true) →
      (docs.flatMap scl_endpoints = [] ∨ docs.length ≤ (docs.flatMap scl_endpoints).length) →
      ∃ g1 out, process_scl_files fs g0 = Except.ok (0, g1) ∧
        write_output g1 = Except.ok out) := by
  obtain ⟨hb1, hb2, hb3⟩ := hbuf
  have hdump : docs.flatMap (scl_records CLIENT (resolve g0.var_addr_map)) =
      docs.flatMap (server_dump g0.var_addr_map) := by
    congr 1
    funext d
    rw [server_dump_eq, scl_records_client_server]
  have hlen : g0.sclfilenames.length = docs.length := by
    have := congrArg List.length hload
    simpa using this
  refine ⟨fun g1 out hp hw => ?_, fun hread hep => ?_⟩
  · obtain ⟨h1, _, h3⟩ := scl_loop_client_records fs g0.sclfilenames docs g0 0 g1 ht hload hp
    obtain ⟨groups, hg⟩ := write_output_client_inv g1 h1 out hw
    refine ⟨groups, ?_, ?_⟩
    · rw [hg, h3, hb1, hdump]; rfl
    · intro hmem
      rw [← hdump] at hmem
      obtain ⟨d, _, hd⟩ := List.mem_flatMap.mp hmem
      exact scl_records_ne_empty _ _ d "" hd rfl
  · obtain ⟨m, _, e⟩ := scl_loop_client_ok fs g0.sclfilenames docs g0 ht hload hread
    obtain ⟨lines, hl⟩ := client_groups_total
      { g0 with
        var_addr_map := m
        mapvaraddr_buffer := (g0.mapvaraddr_buffer ++
          docs.flatMap (scl_records CLIENT (resolve g0.var_addr_map)))
        controlVariables := (g0.controlVariables ++
          docs.flatMap (fun d => scl_controls CLIENT (resolve g0.var_addr_map) d ++ [""]))
        ipaddr_buffer := (g0.ipaddr_buffer ++ docs.flatMap scl_endpoints)
        report_dataset_buffer := (g0.report_dataset_buffer ++ docs.map scl_report_list) }
      g0.sclfilenames.length 0 0
      (by
        rcases hep with h | h
        · left; simp [hb2, h]
        · right; simp only [hb2, List.nil_append]; omega)
      (by simp [hb3, hlen])
    have hw := write_output_client_ok _ (by exact ht) _ hl
    exact ⟨_, _, e, hw⟩

/-- An instance of C10: the output of the client run over the two sample documents. -/
theorem C10_combined_dump_is_concatenation_witness :
    ∃ groups,
      ["10.0.0.1", "A1/LLN0.RP.rcb01 A1/LLN0$ds1", "A1/LLN0.RP.rcb02 A1/LLN0$ds1",
        "A1/P1.Pos %IX0.0", "10.0.0.2", "", "CONTROL A1/P1.Pos %IX0.0", "MONITOR A1/P1.Pos X"]
        = groups ++ [""] ++
          [sample_doc_a, sample_doc_b].flatMap (server_dump sample_client_globals.var_addr_map) ∧
      "" ∉ [sample_doc_a, sample_doc_b].flatMap
        (server_dump sample_client_globals.var_addr_map) :=
  (C10_combined_dump_is_concatenation sample_client_fs sample_client_globals
    [sample_doc_a, sample_doc_b] rfl ⟨rfl, rfl, rfl⟩ rfl).1
    { sample_client_globals with
      var_addr_map := [("V1", "%IX0.0"), ("V9", "")]
      ipaddr_buffer := ["10.0.0.1", "10.0.0.2"]
      report_dataset_buffer :=
        [["A1/LLN0.RP.rcb01 A1/LLN0$ds1", "A1/LLN0.RP.rcb02 A1/LLN0$ds1"], []]
      controlVariables := ["A1/P1.Pos %IX0.0", "", ""]
      mapvaraddr_buffer := ["CONTROL A1/P1.Pos %IX0.0", "MONITOR A1/P1.Pos X"] }
    _ (by decide) (by decide)

/-! ### Instances on the sample inputs -/

/-- An instance of C4: in the first sample document `V1` is bound and `V9` is not. -/
theorem C4_sentinel_on_binding_miss_witness :
    (get_scl_variables sample_doc_a
        { sample_client_globals with var_addr_map := st_table minimal_st }).mapvaraddr_buffer
      = ["CONTROL A1/P1.Pos %IX0.0", "MONITOR A1/P1.Pos X"] :=
  ((C4_sentinel_on_binding_miss minimal_st sample_client_globals).2.1 sample_doc_a).trans
    (by decide)

/-- An instance of C5: the path of the only `DO` of the minimal document. -/
theorem C5_data_object_path_composition_witness :
    (scl_do_ln_mapping (minimal_scl property_capitalised)).find "DOT1" = some "D1/P1.Pos" :=
  ((C5_data_object_path_composition (minimal_scl property_capitalised)).2.1 []
    ("T1", .element "DO" [("name", "Pos"), ("type", "DOT1")] []) [] rfl
    (fun _ h => absurd h (List.not_mem_nil _))).trans (by decide)

/-! ### Endpoints -/

theorem scl_endpoints_eq (sclfile : xml_document) :
    scl_endpoints sclfile = (scl_ip_entries sclfile).map ip_text := by
  unfold scl_endpoints get_IP_address
  rw [get_IP_address_foldl]
  simp [Globals.initial, scl_ip_entries, ip_text]

theorem flatMap_singletons {α β : Type} (f : α → List β) (l : List α)
    (h : ∀ d ∈ l, (f d).length = 1) :
    (l.flatMap f).map (fun e => [e]) = l.map f := by
  induction l with
  | nil => rfl
  | cons d ds ih =>
    have hd := h d (List.mem_cons_self _ _)
    rw [List.flatMap_cons, List.map_append, List.map_cons,
      ih (fun x hx => h x (List.mem_cons_of_mem _ hx))]
    match hf : f d, hd with
    | [e], _ => rfl

/-- C11 (as stated): `get_IP_address` does not append exactly one entry for
every document: it appends none for a document without a `P` entry of type `IP`
and two for a document with two such entries. -/
theorem C11_endpoint_count_follows_ip_entries :
    (get_IP_address (sample_scl "A" [] [] []) Globals.initial).ipaddr_buffer = []
    ∧ (get_IP_address (sample_scl "A" ["10.0.0.1", "10.0.0.9"] [] [])
        Globals.initial).ipaddr_buffer = ["10.0.0.1", "10.0.0.9"] := by
  decide

/-- C11 (amended): for every document `get_IP_address` appends one entry for each
`Address/P` entry whose `type` is `IP`, in document order, the entry being the
text content; so it appends exactly one entry exactly for the documents with one
such `P`.  After a client run over documents that each have exactly one such `P`
(and readable report counts) the endpoint list has one entry per document and
entry `i` is the endpoint of document `i`. -/
theorem C11_one_endpoint_per_ip_entry (fs : FileSystem) (g0 : Globals)
    (docs : List xml_document)
    (ht : g0.target = CLIENT) (hbuf : g0.ipaddr_buffer = [])
    (hload : g0.sclfilenames.map fs.scl_file = docs.map load_result.status_ok)
    (hone : ∀ d ∈ docs, (scl_ip_entries d).length = 1)
    (hread : ∀ d ∈ docs, ∀ r ∈ scl_reports d, report_readable r = true) :
    (∀ (sclfile : xml_document) (g : Globals),
      get_IP_address sclfile g =
        { g with ipaddr_buffer := g.ipaddr_buffer ++ (scl_ip_entries sclfile).map ip_text }) ∧
    ∃ g1, process_scl_files fs g0 = Except.ok (0, g1) ∧
      g1.ipaddr_buffer.length = docs.length ∧
      g1.ipaddr_buffer.map (fun e => [e]) =
        docs.map (fun d => (scl_ip_entries d).map ip_text) := by
  refine ⟨fun sclfile g => ?_, ?_⟩
  · rw [get_IP_address_eq, scl_endpoints_eq]
  · obtain ⟨m, _, e⟩ := scl_loop_client_ok fs g0.sclfilenames docs g0 ht hload hread
    refine ⟨_, e, ?_, ?_⟩
    · have := congrArg List.length (flatMap_singletons (fun d => (scl_ip_entries d).map ip_text)
        docs (fun d hd => by rw [List.length_map]; exact hone d hd))
      simp only [List.length_map] at this
      show (g0.ipaddr_buffer ++ docs.flatMap scl_endpoints).length = _
      rw [hbuf, List.nil_append, ← this]
      congr 2
      funext d
      exact scl_endpoints_eq d
    · show (g0.ipaddr_buffer ++ docs.flatMap scl_endpoints).map _ = _
      rw [hbuf, List.nil_append]
      have hf : scl_endpoints = fun d => (scl_ip_entries d).map ip_text := by
        funext d; exact scl_endpoints_eq d
      rw [hf]
      exact flatMap_singletons _ docs (fun d hd => by rw [List.length_map]; exact hone d hd)

/-- An instance of C11 (amended): the two sample documents in client role. -/
theorem C11_one_endpoint_per_ip_entry_witness :
    ∃ g1, process_scl_files sample_client_fs sample_client_globals = Except.ok (0, g1) ∧
      g1.ipaddr_buffer.length = 2 ∧
      g1.ipaddr_buffer.map (fun e => [e]) = [["10.0.0.1"], ["10.0.0.2"]] :=
  (C11_one_endpoint_per_ip_entry sample_client_fs sample_client_globals
    [sample_doc_a, sample_doc_b] rfl rfl rfl (by decide) (by decide)).2

/-! ### The arguments -/

/-- One step of the loop of `process_args`, with the locals written out. -/
theorem process_args_loop_cons (arg : String) (rest : List String) (inST inSCL inOutput : Bool)
    (g : Globals) :
    process_args_loop (arg :: rest) inST inSCL inOutput g =
      if inST then
        process_args_loop rest false inSCL inOutput { g with stfilename := some arg }
      else if inOutput then
        process_args_loop rest inST inSCL false { g with outfilename := some arg, hasOutfile := true }
      else if (inSCL && !starts_with arg "-") = true then
        process_args_loop rest inST true inOutput { g with sclfilenames := g.sclfilenames ++ [arg] }
      else if starts_with arg "-st" then process_args_loop rest true false inOutput g
      else if starts_with arg "-scl" then process_args_loop rest inST true inOutput g
      else if starts_with arg "-o" then process_args_loop rest inST false true g
      else if starts_with arg "-server" then
        if g.target > 0 then (1, g)
        else process_args_loop rest inST false inOutput { g with target := SERVER }
      else if starts_with arg "-client" then
        if g.target > 0 then (1, g)
        else process_args_loop rest inST false inOutput { g with target := CLIENT }
      else (1, g) := by
  rw [process_args_loop]
  by_cases h1 : inST = true
  · simp [h1]
  · by_cases h2 : inOutput = true
    · simp [h1, h2]
    · by_cases h3 : (inSCL && !starts_with arg "-") = true
      · simp only [h1, h2, h3, if_true, if_false, Bool.not_true, Bool.false_eq_true]
      · have h3f : (inSCL && !starts_with arg "-") = false := by simpa using h3
        simp only [h1, h2, h3f, if_false, Bool.not_false, if_true, Bool.false_eq_true]

theorem process_args_loop_code (args : List String) :
    ∀ (inST inSCL inOutput : Bool) (g : Globals),
      (process_args_loop args inST inSCL inOutput g).1 = 0 ∨
      (process_args_loop args inST inSCL inOutput g).1 = 1 := by
  induction args with
  | nil => intro _ _ _ g; left; rfl
  | cons arg rest ih =>
    intro inST inSCL inOutput g
    rw [process_args_loop_cons]
    split_ifs <;> first | exact ih _ _ _ _ | exact Or.inr rfl

theorem process_args_loop_docs (docs : List String)
    (h : ∀ d ∈ docs, starts_with d "-" = false) : ∀ g : Globals,
    process_args_loop docs false true false g =
      (0, { g with sclfilenames := g.sclfilenames ++ docs }) := by
  induction docs with
  | nil => intro g; simp [process_args_loop]
  | cons d rest ih =>
    intro g
    have hd := h d (List.mem_cons_self _ _)
    rw [process_args_loop_cons]
    simp only [hd, Bool.false_eq_true, if_false, Bool.not_false, Bool.and_true, if_true,
      Bool.true_and]
    rw [ih (fun x hx => h x (List.mem_cons_of_mem _ hx))]
    simp [List.append_assoc]

theorem main_of_process_args_fail (fs : FileSystem) (argv : List String)
    (h : (process_args argv Globals.initial).1 = 1) : main fs argv = Except.ok (1, []) := by
  unfold main
  simp [h]

theorem process_args_initial (argv : List String) :
    process_args argv Globals.initial =
      if argv.length < 6 then (1, Globals.initial)
      else if ((args_scan argv).1 != 0) = true then args_scan argv
      else if ((args_scan argv).2.target == NO_TARGET) = true then (1, (args_scan argv).2)
      else if ((args_scan argv).2.target == SERVER &&
          decide ((args_scan argv).2.sclfilenames.length > 1)) = true then
        (1, (args_scan argv).2)
      else (0, (args_scan argv).2) := rfl

theorem starts_with_dash (d : String) (h : (d.data.head? != some '-') = true) :
    starts_with d "-" = false := by
  unfold starts_with
  cases hd : d.data with
  | nil => rfl
  | cons c cs =>
    rw [hd] at h
    have hc : c ≠ '-' := by simpa using h
    have e : "-".data = ['-'] := rfl
    rw [e]
    simp [List.isPrefixOf, Ne.symm hc]

/-- Once the server role is selected and two documents are collected, the loop
either returns 1 or runs to the end with both still true. -/
theorem process_args_loop_tail (args : List String) :
    ∀ (inST inSCL inOutput : Bool) (g : Globals),
      g.target = SERVER → 2 ≤ g.sclfilenames.length →
      (process_args_loop args inST inSCL inOutput g).1 = 1 ∨
      ((process_args_loop args inST inSCL inOutput g).2.target = SERVER ∧
        2 ≤ (process_args_loop args inST inSCL inOutput g).2.sclfilenames.length) := by
  induction args with
  | nil => intro _ _ _ g ht h2; right; exact ⟨ht, h2⟩
  | cons arg rest ih =>
    intro inST inSCL inOutput g ht h2
    have hpos : g.target > 0 := by rw [ht]; decide
    rw [process_args_loop_cons]
    split_ifs
    · exact ih _ _ _ _ ht h2
    · exact ih _ _ _ _ ht h2
    · exact ih _ _ _ _ ht (by simp only [List.length_append, List.length_cons, List.length_nil]; omega)
    · exact ih _ _ _ _ ht h2
    · exact ih _ _ _ _ ht h2
    · exact ih _ _ _ _ ht h2
    · exact Or.inl rfl
    · exact Or.inl rfl
    · exact Or.inl rfl

theorem process_args_loop_docs_then (docs more : List String)
    (h : ∀ d ∈ docs, starts_with d "-" = false) : ∀ g : Globals,
    process_args_loop (docs ++ more) false true false g =
      process_args_loop more false true false
        { g with sclfilenames := g.sclfilenames ++ docs } := by
  induction docs with
  | nil => intro g; simp
  | cons d rest ih =>
    intro g
    have hd := h d (List.mem_cons_self _ _)
    rw [List.cons_append, process_args_loop_cons]
    simp only [hd, Bool.false_eq_true, if_false, Bool.not_false, Bool.and_true, if_true,
      Bool.true_and]
    rw [ih (fun x hx => h x (List.mem_cons_of_mem _ hx))]
    simp [List.append_assoc]

/-- The loop of `process_args` over the words of well-formed options: it returns
1, or it reaches the words that follow with every supplied document collected,
and with the server role selected when an option selects it. -/
theorem process_args_loop_options (opts : List arg_option)
    (hwf : ∀ o ∈ opts, o.well_formed = true) :
    ∀ (inSCL : Bool) (g : Globals) (rest : List String),
      (process_args_loop (opts.flatMap arg_option.words ++ rest) false inSCL false g).1 = 1 ∨
      ∃ (inSCL1 : Bool) (g1 : Globals),
        process_args_loop (opts.flatMap arg_option.words ++ rest) false inSCL false g =
          process_args_loop rest false inSCL1 false g1 ∧
        g1.sclfilenames = g.sclfilenames ++ opts.flatMap arg_option.documents ∧
        ((g.target = SERVER ∨ arg_option.server ∈ opts) → g1.target = SERVER) := by
  induction opts with
  | nil =>
    intro inSCL g rest
    right
    refine ⟨inSCL, g, rfl, by simp, ?_⟩
    rintro (h | h)
    · exact h
    · cases h
  | cons o os ih =>
    intro inSCL g rest
    have ih := ih (fun x hx => hwf x (List.mem_cons_of_mem _ hx))
    have e1 : starts_with "-server" "-" = true := by decide
    have e2 : starts_with "-server" "-st" = false := by decide
    have e3 : starts_with "-server" "-scl" = false := by decide
    have e4 : starts_with "-server" "-o" = false := by decide
    have e5 : starts_with "-server" "-server" = true := by decide
    have c1 : starts_with "-client" "-" = true := by decide
    have c2 : starts_with "-client" "-st" = false := by decide
    have c3 : starts_with "-client" "-scl" = false := by decide
    have c4 : starts_with "-client" "-o" = false := by decide
    have c5 : starts_with "-client" "-server" = false := by decide
    have c6 : starts_with "-client" "-client" = true := by decide
    have s1 : starts_with "-st" "-" = true := by decide
    have s2 : starts_with "-st" "-st" = true := by decide
    have l1 : starts_with "-scl" "-" = true := by decide
    have l2 : starts_with "-scl" "-st" = false := by decide
    have l3 : starts_with "-scl" "-scl" = true := by decide
    have o1 : starts_with "-o" "-" = true := by decide
    have o2 : starts_with "-o" "-st" = false := by decide
    have o3 : starts_with "-o" "-scl" = false := by decide
    have o4 : starts_with "-o" "-o" = true := by decide
    rw [List.flatMap_cons, List.append_assoc]
    cases o with
    | server =>
      show (process_args_loop ("-server" :: _) _ _ _ _).1 = 1 ∨ ∃ inSCL1 g1,
        process_args_loop ("-server" :: _) _ _ _ _ = _ ∧ _
      rw [process_args_loop_cons]
      simp only [e1, e2, e3, e4, e5, Bool.false_eq_true, if_false, if_true, Bool.not_true,
        Bool.and_false]
      by_cases hpos : g.target > 0
      · left; rw [if_pos hpos]
      · rw [if_neg hpos]
        rcases ih false { g with target := SERVER } rest with h | ⟨i1, g1, h1, h2, h3⟩
        · exact Or.inl h
        · exact Or.inr ⟨i1, g1, h1, by simpa [arg_option.documents] using h2,
            fun _ => h3 (Or.inl rfl)⟩
    | client =>
      show (process_args_loop ("-client" :: _) _ _ _ _).1 = 1 ∨ ∃ inSCL1 g1,
        process_args_loop ("-client" :: _) _ _ _ _ = _ ∧ _
      rw [process_args_loop_cons]
      simp only [c1, c2, c3, c4, c5, c6, Bool.false_eq_true, if_false, if_true, Bool.not_true,
        Bool.and_false]
      by_cases hpos : g.target > 0
      · left; rw [if_pos hpos]
      · rw [if_neg hpos]
        rcases ih false { g with target := CLIENT } rest with h | ⟨i1, g1, h1, h2, h3⟩
        · exact Or.inl h
        · refine Or.inr ⟨i1, g1, h1, by simpa [arg_option.documents] using h2, ?_⟩
          rintro (ht | hm)
          · rw [ht] at hpos; exact absurd (by decide) hpos
          · rcases List.mem_cons.1 hm with hm | hm
            · cases hm
            · exact h3 (Or.inr hm)
    | st file =>
      show (process_args_loop ("-st" :: file :: _) _ _ _ _).1 = 1 ∨ ∃ inSCL1 g1,
        process_args_loop ("-st" :: file :: _) _ _ _ _ = _ ∧ _
      rw [process_args_loop_cons]
      simp only [s1, s2, Bool.false_eq_true, if_false, if_true, Bool.not_true, Bool.and_false]
      rw [process_args_loop_cons]
      simp only [if_true]
      rcases ih false { g with stfilename := some file } rest with h | ⟨i1, g1, h1, h2, h3⟩
      · exact Or.inl h
      · refine Or.inr ⟨i1, g1, h1, by simpa [arg_option.documents] using h2, ?_⟩
        rintro (ht | hm)
        · exact h3 (Or.inl ht)
        · rcases List.mem_cons.1 hm with hm | hm
          · cases hm
          · exact h3 (Or.inr hm)
    | out file =>
      show (process_args_loop ("-o" :: file :: _) _ _ _ _).1 = 1 ∨ ∃ inSCL1 g1,
        process_args_loop ("-o" :: file :: _) _ _ _ _ = _ ∧ _
      rw [process_args_loop_cons]
      simp only [o1, o2, o3, o4, Bool.false_eq_true, if_false, if_true, Bool.not_true,
        Bool.and_false]
      rw [process_args_loop_cons]
      simp only [Bool.false_eq_true, if_false, if_true]
      rcases ih false { g with outfilename := some file, hasOutfile := true } rest with
        h | ⟨i1, g1, h1, h2, h3⟩
      · exact Or.inl h
      · refine Or.inr ⟨i1, g1, h1, by simpa [arg_option.documents] using h2, ?_⟩
        rintro (ht | hm)
        · exact h3 (Or.inl ht)
        · rcases List.mem_cons.1 hm with hm | hm
          · cases hm
          · exact h3 (Or.inr hm)
    | scl docs =>
      have hd : ∀ d ∈ docs, starts_with d "-" = false := by
        intro d hdm
        have hw := hwf (.scl docs) (List.mem_cons_self _ _)
        simp only [arg_option.well_formed, List.all_eq_true] at hw
        exact starts_with_dash d (hw d hdm)
      show (process_args_loop ("-scl" :: (docs ++ _)) _ _ _ _).1 = 1 ∨ ∃ inSCL1 g1,
        process_args_loop ("-scl" :: (docs ++ _)) _ _ _ _ = _ ∧ _
      rw [process_args_loop_cons]
      simp only [l1, l2, l3, Bool.false_eq_true, if_false, if_true, Bool.not_true,
        Bool.and_false]
      rw [process_args_loop_docs_then docs _ hd]
      rcases ih true { g with sclfilenames := g.sclfilenames ++ docs } rest with
        h | ⟨i1, g1, h1, h2, h3⟩
      · exact Or.inl h
      · refine Or.inr ⟨i1, g1, h1, ?_, ?_⟩
        · rw [h2, List.flatMap_cons]
          simp [arg_option.documents, List.append_assoc]
        · rintro (ht | hm)
          · exact h3 (Or.inl ht)
          · rcases List.mem_cons.1 hm with hm | hm
            · cases hm
            · exact h3 (Or.inr hm)

theorem process_args_of_scan (argv : List String)
    (h : (args_scan argv).1 = 1 ∨
      ((args_scan argv).2.target = SERVER ∧ 2 ≤ (args_scan argv).2.sclfilenames.length)) :
    (process_args argv Globals.initial).1 = 1 := by
  rw [process_args_initial]
  split_ifs with h1 h3 h4 h5
  · rfl
  · rcases process_args_loop_code (argv.drop 1) false false false
        { Globals.initial with numSCL := 0, target := NO_TARGET } with h0 | h0
    · have h' : (args_scan argv).1 = 0 := h0
      rw [h'] at h3; exact absurd h3 (by decide)
    · exact h0
  · rfl
  · rfl
  · exfalso
    rcases h with h | ⟨hs, h2⟩
    · apply h3
      rw [h]
      decide
    · apply h5
      rw [hs]
      simp only [beq_self_eq_true, Bool.true_and, decide_eq_true_eq]
      omega

/-- C12: every argument list made of the program name, options of the usage
text among which `-server` occurs and whose `-scl` options supply two or more
document paths in all (in one run or over several `-scl` flags, in any order
with the other options), and any further words, makes `process_args` return 1;
`main` then exits with code 1 whatever the files hold, with no record
written. -/
theorem C12_server_rejects_two_documents (prog : String) (opts : List arg_option)
    (rest : List String)
    (hwf : ∀ o ∈ opts, o.well_formed = true)
    (hserver : arg_option.server ∈ opts)
    (htwo : 2 ≤ (opts.flatMap arg_option.documents).length) :
    (process_args (command_line prog opts rest) Globals.initial).1 = 1 ∧
    ∀ fs : FileSystem, main fs (command_line prog opts rest) = Except.ok (1, []) := by
  have key : (process_args (command_line prog opts rest) Globals.initial).1 = 1 := by
    apply process_args_of_scan
    show (process_args_loop (opts.flatMap arg_option.words ++ rest) false false false
        { Globals.initial with numSCL := 0, target := NO_TARGET }).1 = 1 ∨
      ((process_args_loop (opts.flatMap arg_option.words ++ rest) false false false
        { Globals.initial with numSCL := 0, target := NO_TARGET }).2.target = SERVER ∧
       2 ≤ (process_args_loop (opts.flatMap arg_option.words ++ rest) false false false
        { Globals.initial with numSCL := 0, target := NO_TARGET }).2.sclfilenames.length)
    rcases process_args_loop_options opts hwf false
        { Globals.initial with numSCL := 0, target := NO_TARGET } rest with
      h | ⟨i1, g1, h1, h2, h3⟩
    · exact Or.inl h
    · rw [h1]
      apply process_args_loop_tail rest false i1 false g1 (h3 (Or.inr hserver))
      rw [h2]
      simpa [Globals.initial] using htwo
  exact ⟨key, fun fs => main_of_process_args_fail fs _ key⟩

/-- An instance of C12: the server role with two documents, each after its own
`-scl` flag. -/
theorem C12_server_rejects_two_documents_witness :
    (process_args ["mapper", "-server", "-st", "prog.st", "-scl", "a.scl", "-scl", "b.scl"]
      Globals.initial).1 = 1 ∧
    (∀ fs : FileSystem,
      main fs ["mapper", "-server", "-st", "prog.st", "-scl", "a.scl", "-scl", "b.scl"]
        = Except.ok (1, [])) :=
  C12_server_rejects_two_documents "mapper"
    [.server, .st "prog.st", .scl ["a.scl"], .scl ["b.scl"]] []
    (by decide) (by decide) (by decide)

/-- C13 (the code at the failing inputs): `process_args` accepts an argument list
without `-st` (six arguments reached through `-o`), leaving `stfilename` null,
which `main` then prints; it accepts `-scl` without any document, and `main`
then runs to the end with exit code 0; and it accepts a trailing `-st` without a
value. -/
theorem C13_missing_values_are_accepted :
    (process_args ["mapper", "-server", "-scl", "ied.scl", "-o", "out.txt"] Globals.initial).1 = 0
    ∧ (process_args ["mapper", "-server", "-scl", "ied.scl", "-o", "out.txt"]
        Globals.initial).2.stfilename = none
    ∧ main (minimal_fs property_capitalised)
        ["mapper", "-server", "-scl", "ied.scl", "-o", "out.txt"]
        = Except.error Exn.undefined_behaviour
    ∧ (process_args ["mapper", "-server", "-st", "prog.st", "-o", "out.txt", "-scl"]
        Globals.initial).1 = 0
    ∧ (process_args ["mapper", "-server", "-st", "prog.st", "-o", "out.txt", "-scl"]
        Globals.initial).2.sclfilenames = []
    ∧ main (minimal_fs property_capitalised)
        ["mapper", "-server", "-st", "prog.st", "-o", "out.txt", "-scl"]
        = Except.ok (0, [])
    ∧ (process_args ["mapper", "-client", "-scl", "a.scl", "b.scl", "-st"] Globals.initial).1 = 0
    ∧ (process_args ["mapper", "-client", "-scl", "a.scl", "b.scl", "-st"]
        Globals.initial).2.stfilename = none := by
  decide

/-! ### The grammar of a record -/

theorem split_blank_no_blank (a : List Char) (h : ∀ x ∈ a, x ≠ ' ') : split_blank a = [a] := by
  induction a with
  | nil => rfl
  | cons c t ih =>
    have hc : (c == ' ') = false := by simpa using h c (List.mem_cons_self _ _)
    rw [split_blank]
    simp only [hc, Bool.false_eq_true, if_false]
    rw [ih (fun x hx => h x (List.mem_cons_of_mem _ hx))]

theorem split_blank_append (a rest : List Char) (h : ∀ x ∈ a, x ≠ ' ') :
    split_blank (a ++ ' ' :: rest) = a :: split_blank rest := by
  induction a with
  | nil => simp [split_blank]
  | cons c t ih =>
    have hc : (c == ' ') = false := by simpa using h c (List.mem_cons_self _ _)
    rw [List.cons_append, split_blank]
    simp only [hc, Bool.false_eq_true, if_false]
    rw [ih (fun x hx => h x (List.mem_cons_of_mem _ hx))]

theorem no_blank_iff (s : String) : no_blank s = true ↔ ∀ x ∈ s.data, x ≠ ' ' := by
  simp [no_blank, List.all_eq_true]

theorem no_blank_append (a b : String) :
    no_blank (a ++ b) = (no_blank a && no_blank b) := by
  simp [no_blank, String.data_append, List.all_append]

theorem is_record_of_parts (role path addr : String)
    (hr : role = "MONITOR" ∨ role = "CONTROL")
    (hp : path ≠ "") (hpb : no_blank path = true) (ha : addr ≠ "") (hab : no_blank addr = true) :
    is_record (role ++ " " ++ path ++ " " ++ addr) = true := by
  have hrb : ∀ x ∈ role.data, x ≠ ' ' := by
    rcases hr with rfl | rfl <;> decide
  have hdata : (role ++ " " ++ path ++ " " ++ addr).data =
      role.data ++ ' ' :: (path.data ++ ' ' :: addr.data) := by
    simp only [String.data_append]
    show role.data ++ [' '] ++ path.data ++ [' '] ++ addr.data = _
    simp
  unfold is_record
  rw [hdata, split_blank_append _ _ hrb, split_blank_append _ _ ((no_blank_iff path).mp hpb),
    split_blank_no_blank _ ((no_blank_iff addr).mp hab)]
  have hp' : path.data.isEmpty = false := by
    cases h : path.data with
    | nil => exact absurd (String.ext h) hp
    | cons _ _ => rfl
  have ha' : addr.data.isEmpty = false := by
    cases h : addr.data with
    | nil => exact absurd (String.ext h) ha
    | cons _ _ => rfl
  simp only [hp', ha', Bool.not_false, Bool.and_true]
  rcases hr with rfl | rfl <;> decide

theorem lookup_mem {k : String} {l : List (String × String)} {v : String}
    (h : List.lookup k l = some v) : (k, v) ∈ l := by
  induction l with
  | nil => simp at h
  | cons e rest ih =>
    obtain ⟨k1, v1⟩ := e
    rw [List.lookup_cons] at h
    by_cases hk : k = k1
    · subst hk
      simp only [beq_self_eq_true] at h
      rw [← Option.some.inj h]
      exact List.mem_cons_self _ _
    · have hb : (k == k1) = false := by simpa using hk
      rw [hb] at h
      exact List.mem_cons_of_mem _ (ih h)

theorem no_blank_empty : no_blank "" = true := rfl

theorem clean_attribute_value (t : xml_tree) (h : clean t = true) (a : String) :
    no_blank (t.attribute_value a) = true := by
  unfold xml_tree.attribute_value
  cases hl : List.lookup a t.attrs with
  | none => rfl
  | some v =>
    have hm := lookup_mem hl
    cases t with
    | pcdata _ => simp [xml_tree.attrs] at hm
    | element n attrs cs =>
      unfold clean at h
      rw [Bool.and_eq_true] at h
      exact List.all_eq_true.mp h.1 (a, v) hm

theorem clean_list_mem (cs : List xml_tree) (h : clean_list cs = true) :
    ∀ c ∈ cs, clean c = true := by
  induction cs with
  | nil => intro c hc; simp at hc
  | cons d rest ih =>
    unfold clean_list at h
    rw [Bool.and_eq_true] at h
    intro c hc
    rcases List.mem_cons.mp hc with rfl | hc
    · exact h.1
    · exact ih h.2 c hc

theorem clean_children (t : xml_tree) (h : clean t = true) : ∀ c ∈ t.children, clean c = true := by
  cases t with
  | pcdata _ => intro c hc; simp [xml_tree.children] at hc
  | element n attrs cs =>
    unfold clean at h
    rw [Bool.and_eq_true] at h
    exact clean_list_mem cs h.2

/-- A handle is clean when it is null or points to a clean tree. -/
theorem clean_children_named (n : xml_node) (h : ∀ t, n = some t → clean t = true)
    (tag : String) : ∀ c ∈ n.children_named tag, clean c = true := by
  intro c hc
  cases n with
  | none => simp [xml_node.children_named] at hc
  | some t =>
    unfold xml_node.children_named at hc
    exact clean_children t (h t rfl) c (List.mem_of_mem_filter hc)

theorem clean_child (n : xml_node) (h : ∀ t, n = some t → clean t = true) (tag : String) :
    ∀ t, n.child tag = some t → clean t = true := by
  intro t ht
  unfold xml_node.child at ht
  exact clean_children_named n h tag t (List.mem_of_mem_head? ht)

theorem clean_node_attribute_value (n : xml_node) (h : ∀ t, n = some t → clean t = true)
    (a : String) : no_blank (n.attribute_value a) = true := by
  cases n with
  | none => rfl
  | some t => exact clean_attribute_value t (h t rfl) a

mutual
theorem visited_leaves_names_clean (t : xml_tree) (h : clean t = true) :
    ∀ l ∈ visited_leaves t, ∀ n ∈ l.1, no_blank n = true :=
  match t with
  | .pcdata _ => by intro l hl; simp [visited_leaves] at hl
  | .element n a cs => by
    have hcs : clean_list cs = true := by
      unfold clean at h
      rw [Bool.and_eq_true] at h
      exact h.2
    unfold visited_leaves
    split
    · exact visited_leaves_private_names_clean cs hcs
    · intro l hl
      obtain ⟨x, _, rfl⟩ := List.mem_map.mp hl
      intro n hn
      simp at hn
theorem visited_leaves_private_names_clean (cs : List xml_tree) (h : clean_list cs = true) :
    ∀ l ∈ visited_leaves_private cs, ∀ n ∈ l.1, no_blank n = true :=
  match cs with
  | [] => by intro l hl; simp [visited_leaves_private] at hl
  | c :: rest => by
    unfold clean_list at h
    rw [Bool.and_eq_true] at h
    unfold visited_leaves_private
    split
    · intro l hl
      rcases List.mem_append.mp hl with hl | hl
      · obtain ⟨x, hx, rfl⟩ := List.mem_map.mp hl
        intro n hn
        rcases List.mem_cons.mp hn with rfl | hn
        · exact clean_attribute_value c h.1 "name"
        · exact visited_leaves_names_clean c h.1 x hx n hn
      · exact visited_leaves_private_names_clean rest h.2 l hl
    · exact visited_leaves_private_names_clean rest h.2
end

theorem leaf_path_clean (names : List String) (hn : ∀ n ∈ names, no_blank n = true) :
    ∀ p : String, p ≠ "" → no_blank p = true →
      leaf_path p names ≠ "" ∧ no_blank (leaf_path p names) = true := by
  induction names with
  | nil => intro p hp hb; exact ⟨hp, hb⟩
  | cons a rest ih =>
    intro p hp hb
    rw [leaf_path_cons]
    apply ih (fun n hn' => hn n (List.mem_cons_of_mem _ hn'))
    · intro he
      have := congrArg (fun s => s.data.length) he
      simp only [String.data_append, List.length_append, List.length_cons,
        List.length_nil] at this
      omega
    · rw [no_blank_append, no_blank_append, hb, hn a (List.mem_cons_self _ _)]
      rfl

theorem find_foldl_assign_mem (f : String × xml_tree → String) (es : List (String × xml_tree))
    (k : String) (h : ∃ e ∈ es, e.2.attribute_value "type" = k) :
    ∀ m : unordered_map, ∃ e ∈ es,
      (es.foldl (fun (m : unordered_map) e => m.assign (e.2.attribute_value "type") (f e)) m).find k
        = some (f e) := by
  induction es using List.reverseRecOn with
  | nil => obtain ⟨e, he, _⟩ := h; simp at he
  | append_singleton es x ih =>
    intro m
    rw [List.foldl_concat, find_assign]
    by_cases hk : k = x.2.attribute_value "type"
    · exact ⟨x, by simp, by rw [if_pos hk]⟩
    · rw [if_neg hk]
      obtain ⟨e, he, hte⟩ := h
      have he' : e ∈ es := by
        rcases List.mem_append.mp he with he | he
        · exact he
        · rw [List.mem_singleton] at he
          subst he
          exact absurd hte.symm hk
      obtain ⟨e2, he2, hf⟩ := ih ⟨e, he', hte⟩ m
      exact ⟨e2, List.mem_append_left _ he2, hf⟩

theorem clean_root (sclfile : xml_document) (h : clean sclfile = true) :
    ∀ t, sclfile.node = some t → clean t = true := by
  intro t ht
  have : sclfile = t := Option.some.inj ht
  rw [← this]; exact h

theorem clean_ldevice (sclfile : xml_document) (h : clean sclfile = true) :
    ∀ t, scl_ldevice sclfile = some t → clean t = true :=
  clean_child _ (clean_child _ (clean_child _ (clean_child _ (clean_child _
    (clean_root sclfile h) "SCL") "IED") "AccessPoint") "Server") "LDevice"

theorem ln_label_clean (sclfile : xml_document) (h : clean sclfile = true) (L : String) :
    no_blank (ln_label sclfile L) = true := by
  unfold ln_label
  cases hl : (((scl_ldevice sclfile).children_named "LN").filter
      (fun ln => ln.attribute_value "lnType" == L)).getLast? with
  | none => rfl
  | some ln =>
    have hmem : ln ∈ (scl_ldevice sclfile).children_named "LN" :=
      List.mem_of_mem_filter (List.mem_of_getLast?_eq_some hl)
    have hc := clean_children_named _ (clean_ldevice sclfile h) "LN" ln hmem
    show no_blank (ln.attribute_value "lnClass" ++ ln.attribute_value "inst") = true
    rw [no_blank_append, clean_attribute_value ln hc, clean_attribute_value ln hc]
    rfl

theorem do_path_clean (sclfile : xml_document) (h : clean sclfile = true)
    (e : String × xml_tree) (he : e ∈ scl_do_entries sclfile) :
    do_path sclfile e ≠ "" ∧ no_blank (do_path sclfile e) = true := by
  constructor
  · intro h0
    have := congrArg (fun s => s.data.length) h0
    unfold do_path at this
    simp only [String.data_append, List.length_append, List.length_cons, List.length_nil] at this
    omega
  · unfold scl_do_entries at he
    obtain ⟨lt, hlt, hmap⟩ := List.mem_flatMap.mp he
    obtain ⟨d, hd, hde⟩ := List.mem_map.mp hmap
    subst hde
    have hdtt := clean_child _ (clean_child _ (clean_root sclfile h) "SCL") "DataTypeTemplates"
    have hltc := clean_children_named _ hdtt "LNodeType" lt hlt
    have hdc := clean_children_named lt.node
      (fun t ht => by rw [← Option.some.inj ht]; exact hltc) "DO" d hd
    have hied := clean_child _ (clean_child _ (clean_root sclfile h) "SCL") "IED"
    unfold do_path scl_ied_name
    simp only [no_blank_append, ln_label_clean sclfile h,
      clean_node_attribute_value _ hied, clean_node_attribute_value _ (clean_ldevice sclfile h),
      clean_attribute_value d hdc, Bool.and_true]
    rfl

theorem BindingLine_addr_no_blank {t n a : String} (h : BindingLine t n a) :
    no_blank a = true := by
  obtain ⟨x, _, _, _, _, h3, _, h5, _⟩ := h
  rw [no_blank_iff, h3]
  intro c hc
  rcases List.mem_cons.mp hc with rfl | hc
  · decide
  · exact isAddrChar_ne_blank c (h5 c hc)

theorem table_address_clean (text v : String) :
    table_address (st_table text) v ≠ "" ∧ no_blank (table_address (st_table text) v) = true := by
  unfold table_address
  cases hf : (st_table text).find v with
  | none => exact ⟨by decide, by decide⟩
  | some a =>
    refine ⟨st_table_value_ne_empty text v a hf, ?_⟩
    rw [st_table_eq] at hf
    obtain ⟨i, ⟨_, line, _, hbl⟩, _⟩ := ((st_fold_spec (getLines text)).2 v a).mp hf
    exact BindingLine_addr_no_blank hbl

theorem leaf_record_is_record (res : String → String) (p : String) (l : List String × xml_tree)
    (hres : ∀ v, res v ≠ "" ∧ no_blank (res v) = true)
    (hp : p ≠ "") (hpb : no_blank p = true) (hn : ∀ n ∈ l.1, no_blank n = true)
    (r : String) (h : leaf_record res p l = some r) : is_record r = true := by
  obtain ⟨h1, h2⟩ := leaf_path_clean l.1 hn p hp hpb
  unfold leaf_record at h
  simp only at h
  split at h
  · rw [← Option.some.inj h]
    exact is_record_of_parts "MONITOR" _ _ (Or.inl rfl) h1 h2 (hres _).1 (hres _).2
  · split at h
    · rw [← Option.some.inj h]
      exact is_record_of_parts "CONTROL" _ _ (Or.inr rfl) h1 h2 (hres _).1 (hres _).2
    · exact absurd h (by simp)

theorem start_path_clean (sclfile : xml_document) (h : clean sclfile = true) (id : String)
    (hidx : ∃ e ∈ scl_do_entries sclfile, e.2.attribute_value "type" = id) :
    lookup_or_empty (scl_do_ln_mapping sclfile) id ≠ "" ∧
      no_blank (lookup_or_empty (scl_do_ln_mapping sclfile) id) = true := by
  obtain ⟨e, he, hf⟩ := find_foldl_assign_mem (do_path sclfile) (scl_do_entries sclfile) id hidx []
  rw [← scl_do_ln_mapping_eq] at hf
  unfold lookup_or_empty
  rw [hf]
  exact do_path_clean sclfile h e he

theorem scl_records_are_records (target : Nat) (res : String → String)
    (hres : ∀ v, res v ≠ "" ∧ no_blank (res v) = true)
    (sclfile : xml_document) (hclean : clean sclfile = true)
    (hidx : ∀ dt ∈ scl_dotypes sclfile, ∃ e ∈ scl_do_entries sclfile,
      e.2.attribute_value "type" = dt.attribute_value "id") :
    ∀ r ∈ scl_records target res sclfile, is_record r = true := by
  intro r hr
  unfold scl_records at hr
  obtain ⟨dt, hdt, hr⟩ := List.mem_flatMap.mp hr
  obtain ⟨da, hda, hr⟩ := List.mem_flatMap.mp hr
  unfold records_of at hr
  split at hr
  · obtain ⟨l, hl, hrec⟩ := List.mem_filterMap.mp hr
    have hdtt := clean_child _ (clean_child _ (clean_root sclfile hclean) "SCL")
      "DataTypeTemplates"
    have hdtc := clean_children_named _ hdtt "DOType" dt hdt
    have hdac := clean_children_named dt.node
      (fun t ht => by rw [← Option.some.inj ht]; exact hdtc) "DA" da hda
    obtain ⟨hp, hpb⟩ := start_path_clean sclfile hclean _ (hidx dt hdt)
    exact leaf_record_is_record res _ l hres hp hpb
      (visited_leaves_names_clean da hdac l hl) r hrec
  · simp at hr

/-- C14 (as stated): in a document whose names and attribute values are all
non-empty and free of blanks, a `DOType` that no `DO` refers to has no indexed
path; its record has an empty path token (two blanks in a row) and is not of the
form role, path, address. -/
theorem C14_unreferenced_dotype_gives_empty_path :
    clean orphan_scl = true ∧ values_nonempty orphan_scl = true
    ∧ (get_scl_variables orphan_scl
        { Globals.initial with target := SERVER, var_addr_map := st_table minimal_st }
      ).mapvaraddr_buffer = ["MONITOR  %IX0.0"]
    ∧ split_blank "MONITOR  %IX0.0".data = ["MONITOR".data, [], "%IX0.0".data]
    ∧ is_record "MONITOR  %IX0.0" = false := by
  decide

/-- C14 (amended): with the binding table built by `process_st_file` from any
source, for every document whose attribute values hold no blank and in which the
id of every `DOType` is the type of some `DO` entry, every record that
`get_scl_variables` appends consists of exactly three non-empty tokens separated
by single blanks: `MONITOR` or `CONTROL`, the path, the address. -/
theorem C14_record_grammar (text : String) (sclfile : xml_document) (g : Globals)
    (hclean : clean sclfile = true)
    (hidx : ∀ dt ∈ scl_dotypes sclfile, ∃ e ∈ scl_do_entries sclfile,
      e.2.attribute_value "type" = dt.attribute_value "id") :
    ∃ records,
      (get_scl_variables sclfile { g with var_addr_map := st_table text }).mapvaraddr_buffer =
        g.mapvaraddr_buffer ++ records ∧
      ∀ r ∈ records, is_record r = true := by
  obtain ⟨m, _, e⟩ := get_scl_variables_emit sclfile { g with var_addr_map := st_table text }
  refine ⟨scl_records g.target (table_address (st_table text)) sclfile, ?_, ?_⟩
  · rw [e, resolve_st_table]; rfl
  · exact scl_records_are_records _ _ (table_address_clean text) sclfile hclean hidx

/-- An instance of C14 (amended): the minimal document in the server role. -/
theorem C14_record_grammar_witness :
    ∃ records,
      (get_scl_variables (minimal_scl property_capitalised)
        { Globals.initial with target := SERVER, var_addr_map := st_table minimal_st }
        ).mapvaraddr_buffer = [] ++ records ∧
      ∀ r ∈ records, is_record r = true :=
  C14_record_grammar minimal_st (minimal_scl property_capitalised)
    { Globals.initial with target := SERVER } (by decide)
    (by
      intro dt hdt
      refine ⟨("T1", .element "DO" [("name", "Pos"), ("type", "DOT1")] []),
        List.mem_cons_self _ _, ?_⟩
      rcases List.mem_cons.mp hdt with rfl | hdt
      · rfl
      · simp at hdt)

/-! ### The binding table during the walk -/

theorem grows_refl (m : unordered_map) : grows m m := ⟨[], by simp⟩

theorem grows_trans {a b c : unordered_map} (h1 : grows a b) (h2 : grows b c) : grows a c := by
  obtain ⟨x, rfl⟩ := h1
  obtain ⟨y, rfl⟩ := h2
  exact ⟨x ++ y, by simp [List.append_assoc]⟩

theorem grows_index (m : unordered_map) (k : String) : grows m (m.index k).2 := by
  unfold unordered_map.index
  cases m.find k with
  | some v => exact grows_refl m
  | none => exact ⟨[k], rfl⟩

theorem property_step_grows (p : String) (g : Globals) (leaf : xml_tree) :
    grows g.var_addr_map (property_step p g leaf).var_addr_map := by
  have hi := grows_index g.var_addr_map (leaf.attribute_value "Value")
  unfold property_step
  simp only
  split
  · split
    · exact hi
    · split
      · exact hi
      · exact hi
  · split
    · split
      · exact hi
      · split
        · exact hi
        · exact hi
    · exact grows_refl _

theorem property_loop_grows (p : String) (props : List xml_tree) : ∀ g : Globals,
    grows g.var_addr_map (props.foldl (property_step p) g).var_addr_map := by
  induction props with
  | nil => intro g; exact grows_refl _
  | cons a rest ih =>
    intro g
    rw [List.foldl_cons]
    exact grows_trans (property_step_grows p g a) (ih _)

mutual
theorem walk_grows (t : xml_tree) (p : String) (g : Globals) :
    grows g.var_addr_map (getVarAddrMapping t p g).var_addr_map :=
  match t with
  | .pcdata _ => by rw [getVarAddrMapping]; exact grows_refl _
  | .element n a cs => by
    rw [getVarAddrMapping]
    split
    · exact walk_private_grows cs p g
    · split
      · exact property_loop_grows p _ g
      · exact grows_refl _
theorem walk_private_grows (cs : List xml_tree) (p : String) (g : Globals) :
    grows g.var_addr_map (getVarAddrMapping_private cs p g).var_addr_map :=
  match cs with
  | [] => by rw [getVarAddrMapping_private]; exact grows_refl _
  | c :: rest => by
    rw [getVarAddrMapping_private]
    split
    · exact grows_trans (walk_grows c _ g) (walk_private_grows rest p _)
    · exact walk_private_grows rest p g
end

theorem da_loop_grows (id : String) (das : List xml_tree) :
    ∀ st : unordered_map × Globals,
      grows st.2.var_addr_map (das.foldl (da_step id) st).2.var_addr_map := by
  induction das with
  | nil => intro st; exact grows_refl _
  | cons da rest ih =>
    intro st
    rw [List.foldl_cons]
    exact grows_trans (walk_grows da _ st.2) (ih (da_step id st da))

theorem dotype_loop_grows (dts : List xml_tree) :
    ∀ st : unordered_map × Globals,
      grows st.2.var_addr_map
        (dts.foldl (fun st do_node =>
          (do_node.node.children_named "DA").foldl (da_step (do_node.attribute_value "id")) st)
          st).2.var_addr_map := by
  induction dts with
  | nil => intro st; exact grows_refl _
  | cons dt rest ih =>
    intro st
    rw [List.foldl_cons]
    exact grows_trans (da_loop_grows _ _ st) (ih _)

theorem get_scl_variables_grows (sclfile : xml_document) (g : Globals) :
    grows g.var_addr_map (get_scl_variables sclfile g).var_addr_map :=
  dotype_loop_grows (scl_dotypes sclfile) (scl_do_ln_mapping sclfile, g)

theorem grows_find_some {m m' : unordered_map} (h : grows m m') (k a : String)
    (hf : m.find k = some a) : m'.find k = some a := by
  obtain ⟨x, rfl⟩ := h
  unfold unordered_map.find at hf ⊢
  rw [List.lookup_append, hf]
  rfl

theorem grows_find_new {m m' : unordered_map} (h : grows m m') (k : String)
    (hk : k ∉ m.keys) (hk' : k ∈ m'.keys) : m'.find k = some "" := by
  obtain ⟨x, rfl⟩ := h
  have hnone : m.find k = none := by
    cases hf : m.find k with
    | none => rfl
    | some a => exact absurd ((mem_keys_iff m k).mpr ⟨a, hf⟩) hk
  obtain ⟨a, ha⟩ := (mem_keys_iff _ k).mp hk'
  unfold unordered_map.find at hnone ha ⊢
  rw [List.lookup_append, hnone] at ha ⊢
  simp only [Option.none_or] at ha ⊢
  have hm := lookup_mem ha
  obtain ⟨y, _, hy⟩ := List.mem_map.mp hm
  have : a = "" := (congrArg Prod.snd hy).symm
  rw [ha, this]

theorem index_of_mem (m : unordered_map) (k : String) (h : k ∈ m.keys) : (m.index k).2 = m := by
  obtain ⟨a, ha⟩ := (mem_keys_iff m k).mp h
  unfold unordered_map.index
  rw [ha]

theorem property_step_keeps (p : String) (g : Globals) (leaf : xml_tree)
    (h : leaf_bound g.var_addr_map leaf) :
    (property_step p g leaf).var_addr_map = g.var_addr_map := by
  unfold property_step
  simp only
  split
  · rename_i hc
    rw [Bool.and_eq_true] at hc
    have hk := index_of_mem _ _ (h (Or.inl (by simpa using hc.1)) (by simpa using hc.2))
    split
    · exact hk
    · split
      · exact hk
      · exact hk
  · split
    · rename_i hc
      rw [Bool.and_eq_true] at hc
      have hk := index_of_mem _ _ (h (Or.inr (by simpa using hc.1)) (by simpa using hc.2))
      split
      · exact hk
      · split
        · exact hk
        · exact hk
    · rfl

theorem property_loop_keeps (p : String) (m : unordered_map) (props : List xml_tree)
    (h : ∀ leaf ∈ props, leaf_bound m leaf) : ∀ g : Globals, g.var_addr_map = m →
    (props.foldl (property_step p) g).var_addr_map = m := by
  induction props with
  | nil => intro g hg; exact hg
  | cons a rest ih =>
    intro g hg
    rw [List.foldl_cons]
    apply ih (fun l hl => h l (List.mem_cons_of_mem _ hl))
    rw [property_step_keeps p g a (by rw [hg]; exact h a (List.mem_cons_self _ _)), hg]

mutual
theorem walk_keeps (m : unordered_map) (t : xml_tree) (p : String) (g : Globals)
    (h : ∀ l ∈ visited_leaves t, leaf_bound m l.2) (hg : g.var_addr_map = m) :
    (getVarAddrMapping t p g).var_addr_map = m :=
  match t with
  | .pcdata _ => by rw [getVarAddrMapping]; exact hg
  | .element n a cs => by
    rw [visited_leaves] at h
    rw [getVarAddrMapping]
    split
    · rename_i hc
      rw [if_pos hc] at h
      exact walk_private_keeps m cs p g h hg
    · rename_i hc
      rw [if_neg hc] at h
      split
      · exact property_loop_keeps p m _
          (fun leaf hl => h ([], leaf) (List.mem_map.mpr ⟨leaf, hl, rfl⟩)) g hg
      · exact hg
theorem walk_private_keeps (m : unordered_map) (cs : List xml_tree) (p : String) (g : Globals)
    (h : ∀ l ∈ visited_leaves_private cs, leaf_bound m l.2) (hg : g.var_addr_map = m) :
    (getVarAddrMapping_private cs p g).var_addr_map = m :=
  match cs with
  | [] => by rw [getVarAddrMapping_private]; exact hg
  | c :: rest => by
    rw [visited_leaves_private] at h
    rw [getVarAddrMapping_private]
    split
    · rename_i hc
      rw [if_pos hc] at h
      apply walk_private_keeps m rest p _
        (fun l hl => h l (List.mem_append_right _ hl))
      exact walk_keeps m c _ g
        (fun l hl => h (c.attribute_value "name" :: l.1, l.2)
          (List.mem_append_left _ (List.mem_map.mpr ⟨l, hl, rfl⟩))) hg
    · rename_i hc
      rw [if_neg hc] at h
      exact walk_private_keeps m rest p g h hg
end

theorem da_loop_keeps (m : unordered_map) (id : String) (das : List xml_tree)
    (h : ∀ da ∈ das, ∀ l ∈ visited_leaves da, leaf_bound m l.2) :
    ∀ st : unordered_map × Globals, st.2.var_addr_map = m →
      (das.foldl (da_step id) st).2.var_addr_map = m := by
  induction das with
  | nil => intro st hs; exact hs
  | cons da rest ih =>
    intro st hs
    rw [List.foldl_cons]
    apply ih (fun d hd => h d (List.mem_cons_of_mem _ hd))
    exact walk_keeps m da _ st.2 (h da (List.mem_cons_self _ _)) hs

theorem dotype_loop_keeps (m : unordered_map) (dts : List xml_tree)
    (h : ∀ dt ∈ dts, ∀ da ∈ dt.node.children_named "DA", ∀ l ∈ visited_leaves da,
      leaf_bound m l.2) :
    ∀ st : unordered_map × Globals, st.2.var_addr_map = m →
      (dts.foldl (fun st do_node =>
        (do_node.node.children_named "DA").foldl (da_step (do_node.attribute_value "id")) st)
        st).2.var_addr_map = m := by
  induction dts with
  | nil => intro st hs; exact hs
  | cons dt rest ih =>
    intro st hs
    rw [List.foldl_cons]
    apply ih (fun d hd => h d (List.mem_cons_of_mem _ hd))
    exact da_loop_keeps m _ _ (h dt (List.mem_cons_self _ _)) st hs

/-- C15 (as stated): the walk does change the binding table when a property
value misses it: `V9` is not bound by the minimal source, and after
`get_scl_variables` on the first sample document it is a key, bound to the empty
string. -/
theorem C15_miss_inserts_key :
    st_table minimal_st = [("V1", "%IX0.0")]
    ∧ (get_scl_variables sample_doc_a
        { Globals.initial with target := SERVER, var_addr_map := st_table minimal_st }
      ).var_addr_map = [("V1", "%IX0.0"), ("V9", "")]
    ∧ "V9" ∉ (st_table minimal_st).keys
    ∧ "V9" ∈ (get_scl_variables sample_doc_a
        { Globals.initial with target := SERVER, var_addr_map := st_table minimal_st }
      ).var_addr_map.keys := by
  decide

/-- C15 (amended): for every binding table and every document,
`get_scl_variables` keeps every key of the table with its value and resolves
every value to the same address as before; the only change it can make is to
append keys bound to the empty string, which `operator[]` does for a property
value that misses the table; when every property value that asks for a binding
is a key, the table is left unchanged. -/
theorem C15_binding_table_only_grows (sclfile : xml_document) (g : Globals) :
    grows g.var_addr_map (get_scl_variables sclfile g).var_addr_map ∧
    (∀ k a, g.var_addr_map.find k = some a →
      (get_scl_variables sclfile g).var_addr_map.find k = some a) ∧
    (∀ k, k ∉ g.var_addr_map.keys → k ∈ (get_scl_variables sclfile g).var_addr_map.keys →
      (get_scl_variables sclfile g).var_addr_map.find k = some "") ∧
    resolve (get_scl_variables sclfile g).var_addr_map = resolve g.var_addr_map ∧
    ((∀ dt ∈ scl_dotypes sclfile, ∀ da ∈ dt.node.children_named "DA",
        ∀ l ∈ visited_leaves da, leaf_bound g.var_addr_map l.2) →
      (get_scl_variables sclfile g).var_addr_map = g.var_addr_map) := by
  have hg := get_scl_variables_grows sclfile g
  obtain ⟨m, hm, e⟩ := get_scl_variables_emit sclfile g
  refine ⟨hg, fun k a hf => grows_find_some hg k a hf, fun k hk hk' => grows_find_new hg k hk hk',
    ?_, fun h => ?_⟩
  · rw [e]; exact hm
  · exact dotype_loop_keeps g.var_addr_map (scl_dotypes sclfile) h
      (scl_do_ln_mapping sclfile, g) rfl

/-- An instance of C15 (amended): in the minimal document the only value is
bound, so the table is unchanged. -/
theorem C15_binding_table_only_grows_witness :
    (get_scl_variables (minimal_scl property_capitalised)
        { Globals.initial with target := SERVER, var_addr_map := st_table minimal_st }
      ).var_addr_map = st_table minimal_st :=
  (C15_binding_table_only_grows (minimal_scl property_capitalised)
    { Globals.initial with target := SERVER, var_addr_map := st_table minimal_st }).2.2.2.2
    (by
      intro dt hdt da hda l hl _ _
      rcases List.mem_cons.mp hdt with rfl | hdt
      · rcases List.mem_cons.mp hda with rfl | hda
        · rcases List.mem_cons.mp hl with rfl | hl
          · decide
          · simp at hl
        · simp at hda
      · simp at hdt)

/-! ### Shared types -/

theorem ln_label_last (sclfile : xml_document) (pre : List xml_tree) (ln : xml_tree)
    (post : List xml_tree)
    (hsplit : (scl_ldevice sclfile).children_named "LN" = pre ++ ln :: post)
    (hlast : ∀ x ∈ post, x.attribute_value "lnType" ≠ ln.attribute_value "lnType") :
    ln_label sclfile (ln.attribute_value "lnType") =
      ln.attribute_value "lnClass" ++ ln.attribute_value "inst" := by
  unfold ln_label
  rw [hsplit, List.filter_append, List.filter_cons_of_pos (by simp)]
  have hpost : post.filter
      (fun x => x.attribute_value "lnType" == ln.attribute_value "lnType") = [] := by
    rw [List.filter_eq_nil_iff]
    intro x hx hb
    exact hlast x hx (by simpa using hb)
  rw [hpost, List.getLast?_append]
  simp

/-- C16: when several `DO` entries declare the same type `t`, the records found
under a `DOType` with id `t` are emitted once for each leaf, all with the path
of the last `DO` entry of type `t` in document order as start path (so not with
that of an earlier entry); and when several `LN` elements share an `lnType`, the
label is that of the last one. -/
theorem C16_shared_types_take_last_declaration (sclfile : xml_document) (g : Globals)
    (ht : g.target = CLIENT ∨ g.target = SERVER) :
    (get_scl_variables sclfile g).mapvaraddr_buffer =
      g.mapvaraddr_buffer ++
        (scl_dotypes sclfile).flatMap (fun dt =>
          dotype_records (resolve g.var_addr_map)
            (lookup_or_empty (scl_do_ln_mapping sclfile) (dt.attribute_value "id")) dt) ∧
    (∀ pre e post, scl_do_entries sclfile = pre ++ e :: post →
      (∀ e' ∈ post, e'.2.attribute_value "type" ≠ e.2.attribute_value "type") →
      lookup_or_empty (scl_do_ln_mapping sclfile) (e.2.attribute_value "type") =
        do_path sclfile e) ∧
    (∀ pre ln post, (scl_ldevice sclfile).children_named "LN" = pre ++ ln :: post →
      (∀ x ∈ post, x.attribute_value "lnType" ≠ ln.attribute_value "lnType") →
      ln_label sclfile (ln.attribute_value "lnType") =
        ln.attribute_value "lnClass" ++ ln.attribute_value "inst") := by
  refine ⟨?_, fun pre e post hsplit hlast => ?_, fun pre ln post => ln_label_last sclfile pre ln post⟩
  · obtain ⟨m, _, e⟩ := get_scl_variables_emit sclfile g
    rw [e]
    show g.mapvaraddr_buffer ++ scl_records g.target (resolve g.var_addr_map) sclfile = _
    unfold scl_records dotype_records
    simp only [records_of_eq _ ht]
  · unfold lookup_or_empty
    rw [scl_do_ln_mapping_eq, hsplit, List.foldl_append, List.foldl_cons,
      find_foldl_assign_not_mem (do_path sclfile) post _ hlast, find_assign, if_pos rfl]
    rfl

/-- An instance of C16: two `DO` entries of type `DOT1`; the records carry the
path of the second, whose label is that of the last `LN` of type `T2`. -/
theorem C16_shared_types_take_last_declaration_witness :
    (get_scl_variables shared_type_scl
        { Globals.initial with target := CLIENT, var_addr_map := st_table minimal_st }
      ).mapvaraddr_buffer = ["MONITOR D1/Q2.Op %IX0.0", "CONTROL D1/Q2.Op %IX0.0"] :=
  ((C16_shared_types_take_last_declaration shared_type_scl
    { Globals.initial with target := CLIENT, var_addr_map := st_table minimal_st }
    (Or.inl rfl)).1).trans (by decide)

/-! ### Private and Property children -/

theorem walk_output_eq (t : xml_tree) (p : String) (g : Globals) :
    walk_output t p g = records_of g.target (resolve g.var_addr_map) p (visited_leaves t) := by
  unfold walk_output
  obtain ⟨m, _, e⟩ := walk_emit t p { g with mapvaraddr_buffer := [] }
  rw [e]
  simp [Globals.emit]

theorem private_loop_filter (cs : List xml_tree) (p : String) : ∀ g : Globals,
    getVarAddrMapping_private cs p g =
      getVarAddrMapping_private (cs.filter (xml_tree.isNamed "Private")) p g := by
  induction cs with
  | nil => intro g; rfl
  | cons c rest ih =>
    intro g
    by_cases h : c.isNamed "Private" = true
    · rw [List.filter_cons_of_pos h, getVarAddrMapping_private, if_pos h,
        getVarAddrMapping_private, if_pos h]
      exact ih _
    · rw [List.filter_cons_of_neg h, getVarAddrMapping_private, if_neg h]
      exact ih g

theorem records_of_private (target : Nat) (res : String → String) (p : String)
    (cs : List xml_tree) :
    records_of target res p (visited_leaves_private cs) =
      (cs.filter (xml_tree.isNamed "Private")).flatMap (fun c =>
        records_of target res (p ++ "." ++ c.attribute_value "name") (visited_leaves c)) := by
  induction cs with
  | nil => simp [visited_leaves_private, records_of_nil]
  | cons c rest ih =>
    rw [visited_leaves_private]
    by_cases h : c.isNamed "Private" = true
    · rw [if_pos h, List.filter_cons_of_pos h, List.flatMap_cons, records_of_append,
        records_of_nested, ih]
    · rw [if_neg h, List.filter_cons_of_neg h, ih]

/-- C17: for a node with at least one `Private` child, `getVarAddrMapping` does
the same as for the node with all other children (its `Property` children among
them) removed, and the records it appends are exactly the records of its
`Private` children, in order, each walked from the path extended by its name; a
node with neither `Private` nor `Property` children changes nothing. -/
theorem C17_private_children_shadow_properties (n : String) (a : List (String × String))
    (cs : List xml_tree) (p : String) (g : Globals) :
    (cs.any (xml_tree.isNamed "Private") = true →
      getVarAddrMapping (.element n a cs) p g =
        getVarAddrMapping (.element n a (cs.filter (xml_tree.isNamed "Private"))) p g ∧
      (getVarAddrMapping (.element n a cs) p g).mapvaraddr_buffer =
        g.mapvaraddr_buffer ++
          (cs.filter (xml_tree.isNamed "Private")).flatMap (fun c =>
            walk_output c (p ++ "." ++ c.attribute_value "name") g)) ∧
    (cs.any (xml_tree.isNamed "Private") = false →
      cs.any (xml_tree.isNamed "Property") = false →
      getVarAddrMapping (.element n a cs) p g = g) := by
  constructor
  · intro h
    have hf : (cs.filter (xml_tree.isNamed "Private")).any (xml_tree.isNamed "Private") = true := by
      obtain ⟨x, hx, hp⟩ := List.any_eq_true.mp h
      exact List.any_eq_true.mpr ⟨x, List.mem_filter.mpr ⟨hx, hp⟩, hp⟩
    constructor
    · rw [getVarAddrMapping, if_pos h, getVarAddrMapping, if_pos hf]
      exact private_loop_filter cs p g
    · obtain ⟨m, _, e⟩ := walk_emit (.element n a cs) p g
      rw [e]
      show g.mapvaraddr_buffer ++ records_of g.target (resolve g.var_addr_map) p
        (visited_leaves (.element n a cs)) = _
      rw [visited_leaves, if_pos h, records_of_private]
      congr 2
      funext c
      rw [walk_output_eq]
  · intro h1 h2
    rw [getVarAddrMapping, if_neg (by simp [h1]), if_neg (by simp [h2])]

/-- An instance of C17: the data attribute with a `Private` container and a
`Property` next to it. -/
theorem C17_private_children_shadow_properties_witness :
    (getVarAddrMapping mixed_da "p"
        { Globals.initial with target := SERVER, var_addr_map := st_table minimal_st }
      ).mapvaraddr_buffer = ["MONITOR p.a %IX0.0"] :=
  ((C17_private_children_shadow_properties "DA" [("name", "stVal")] _ "p"
    { Globals.initial with target := SERVER, var_addr_map := st_table minimal_st }).1
    (by decide)).2.trans (by decide)

/-! ### Roles and the control list -/

theorem strip_control_control (x : String) : strip_control ("CONTROL " ++ x) = some x := by
  unfold strip_control starts_with
  have hd : ("CONTROL " ++ x).data = "CONTROL ".data ++ x.data := String.data_append _ _
  have hp : "CONTROL ".data.isPrefixOf ("CONTROL " ++ x).data = true := by
    rw [hd, List.isPrefixOf_iff_prefix]; exact List.prefix_append _ _
  rw [if_pos hp, hd]
  have : ("CONTROL ".data ++ x.data).drop 8 = x.data := by
    show (['C', 'O', 'N', 'T', 'R', 'O', 'L', ' '] ++ x.data).drop 8 = x.data
    rfl
  rw [this]

theorem strip_control_monitor (x : String) : strip_control ("MONITOR " ++ x) = none := by
  unfold strip_control starts_with
  have hd : ("MONITOR " ++ x).data = 'M' :: ("ONITOR ".data ++ x.data) := by
    rw [String.data_append]; rfl
  rw [hd]
  rfl

theorem leaf_control_eq (res : String → String) (p : String) (l : List String × xml_tree) :
    leaf_control res p l = (leaf_record res p l).bind strip_control := by
  unfold leaf_control leaf_record
  simp only
  by_cases h1 : (l.2.attribute_value "Name" == "sMonitoringVar" &&
      l.2.attribute_value "Value" != "") = true
  · have h2 : (l.2.attribute_value "Name" == "sControlVar") = false := by
      have := (Bool.and_eq_true _ _).mp h1
      have hn : l.2.attribute_value "Name" = "sMonitoringVar" := by simpa using this.1
      rw [hn]; decide
    rw [if_pos h1, h2]
    simp only [Bool.false_and, Bool.false_eq_true, if_false, Option.some_bind]
    have e : ∀ a b : String, "MONITOR " ++ a ++ " " ++ b = "MONITOR " ++ (a ++ " " ++ b) := by
      intro a b; simp [String.append_assoc]
    rw [e, strip_control_monitor]
  · rw [if_neg h1]
    by_cases h3 : (l.2.attribute_value "Name" == "sControlVar" &&
        l.2.attribute_value "Value" != "") = true
    · have e : ∀ a b : String, "CONTROL " ++ a ++ " " ++ b = "CONTROL " ++ (a ++ " " ++ b) := by
        intro a b; simp [String.append_assoc]
      rw [if_pos h3, if_pos h3, Option.some_bind, e, strip_control_control]
    · rw [if_neg h3, if_neg h3]
      rfl

theorem controls_eq_stripped_records (res : String → String) (p : String)
    (ls : List (List String × xml_tree)) :
    controls_of CLIENT res p ls = (records_of CLIENT res p ls).filterMap strip_control := by
  have h1 : controls_of CLIENT res p ls = ls.filterMap (leaf_control res p) := rfl
  have h2 : records_of CLIENT res p ls = ls.filterMap (leaf_record res p) := rfl
  rw [h1, h2, List.filterMap_filterMap]
  congr 1
  funext l
  exact leaf_control_eq res p l

theorem scl_controls_eq_stripped_records (res : String → String) (sclfile : xml_document) :
    scl_controls CLIENT res sclfile =
      (scl_records CLIENT res sclfile).filterMap strip_control := by
  unfold scl_controls scl_records
  rw [List.filterMap_flatMap]
  congr 1
  funext dt
  rw [List.filterMap_flatMap]
  congr 1
  funext da
  exact controls_eq_stripped_records res _ _

/-- C18: for every binding table and document, the records appended to the
mapping buffer are the same under the client role and the server role; under
the client role the control-variable lines appended are exactly the `CONTROL`
records among them, in the same order, without the leading `CONTROL `, each
non-empty; under the server role no control-variable line is appended. -/
theorem C18_role_independent_dump_and_control_list (sclfile : xml_document) (g : Globals) :
    ∃ records,
      (get_scl_variables sclfile { g with target := CLIENT }).mapvaraddr_buffer =
        g.mapvaraddr_buffer ++ records ∧
      (get_scl_variables sclfile { g with target := SERVER }).mapvaraddr_buffer =
        g.mapvaraddr_buffer ++ records ∧
      (get_scl_variables sclfile { g with target := CLIENT }).controlVariables =
        g.controlVariables ++ records.filterMap strip_control ∧
      (∀ c ∈ records.filterMap strip_control, c ≠ "") ∧
      (get_scl_variables sclfile { g with target := SERVER }).controlVariables =
        g.controlVariables := by
  obtain ⟨m1, _, e1⟩ := get_scl_variables_emit sclfile { g with target := CLIENT }
  obtain ⟨m2, _, e2⟩ := get_scl_variables_emit sclfile { g with target := SERVER }
  refine ⟨scl_records CLIENT (resolve g.var_addr_map) sclfile, ?_, ?_, ?_, ?_, ?_⟩
  · rw [e1]; rfl
  · rw [e2]; rfl
  · rw [e1, ← scl_controls_eq_stripped_records]; rfl
  · rw [← scl_controls_eq_stripped_records]
    exact scl_controls_ne_empty _ _ _
  · rw [e2]
    show g.controlVariables ++ scl_controls SERVER (resolve g.var_addr_map) sclfile = _
    have : scl_controls SERVER (resolve g.var_addr_map) sclfile = [] := by
      unfold scl_controls
      simp [controls_of, SERVER, CLIENT]
    rw [this, List.append_nil]

/-- An instance of C18: the first sample document, with one `CONTROL` and one
`MONITOR` record. -/
theorem C18_role_independent_dump_and_control_list_witness :
    (get_scl_variables sample_doc_a sample_client_globals).mapvaraddr_buffer =
        ["CONTROL A1/P1.Pos %IX0.0", "MONITOR A1/P1.Pos X"] ∧
      (get_scl_variables sample_doc_a
        { sample_client_globals with target := SERVER }).mapvaraddr_buffer =
        ["CONTROL A1/P1.Pos %IX0.0", "MONITOR A1/P1.Pos X"] ∧
      (get_scl_variables sample_doc_a sample_client_globals).controlVariables =
        ["A1/P1.Pos %IX0.0"] ∧
      (get_scl_variables sample_doc_a
        { sample_client_globals with target := SERVER }).controlVariables = [] := by
  obtain ⟨records, h1, h2, h3, _, h5⟩ :=
    C18_role_independent_dump_and_control_list sample_doc_a sample_client_globals
  have hr : records = ["CONTROL A1/P1.Pos %IX0.0", "MONITOR A1/P1.Pos X"] := by
    have h0 : (get_scl_variables sample_doc_a
        { sample_client_globals with target := CLIENT }).mapvaraddr_buffer =
        ["CONTROL A1/P1.Pos %IX0.0", "MONITOR A1/P1.Pos X"] := by decide
    rw [h1] at h0
    exact h0
  subst hr
  exact ⟨h1, h2, h3.trans (by decide), h5⟩

/-! ### Readable report counts -/

theorem stoi_eq (s : String) :
    stoi s =
      if ((after_sign s).takeWhile Char.isDigit).isEmpty then Except.error Exn.invalid_argument
      else if leading_integer s < -2147483648 || 2147483647 < leading_integer s then
        Except.error Exn.out_of_range
      else Except.ok (leading_integer s) := rfl

theorem takeWhile_isEmpty_iff (r : List Char) :
    (r.takeWhile Char.isDigit).isEmpty =
      !(match r with | c :: _ => c.isDigit | [] => false) := by
  cases r with
  | nil => rfl
  | cons c t =>
    by_cases h : c.isDigit = true
    · rw [List.takeWhile_cons_of_pos h]; simp [h]
    · rw [List.takeWhile_cons_of_neg h]; simp [h]

theorem stoi_spec (s : String) :
    stoi s =
      if begins_with_integer s = false then Except.error Exn.invalid_argument
      else if leading_integer s < -2147483648 ∨ 2147483647 < leading_integer s then
        Except.error Exn.out_of_range
      else Except.ok (leading_integer s) := by
  have hb : begins_with_integer s =
      (match after_sign s with | c :: _ => c.isDigit | [] => false) := rfl
  rw [stoi_eq, takeWhile_isEmpty_iff, ← hb]
  cases h : begins_with_integer s
  · simp
  · simp

theorem report_readable_iff (report : xml_tree) :
    report_readable report = true ↔
      begins_with_integer (report_max_text report) = true ∧
      -2147483648 ≤ leading_integer (report_max_text report) ∧
      leading_integer (report_max_text report) < 1000000000 := by
  have hdef : report_readable report =
      match stoi (report_max_text report) with
      | Except.ok n => decide (n < 1000000000)
      | Except.error _ => false := rfl
  rw [hdef, stoi_spec]
  cases hb : begins_with_integer (report_max_text report)
  · simp
  · simp only [Bool.true_eq_false, if_false, true_and]
    by_cases hr : leading_integer (report_max_text report) < -2147483648 ∨
        2147483647 < leading_integer (report_max_text report)
    · rw [if_pos hr]
      constructor
      · intro h; exact absurd h (by simp)
      · intro h; omega
    · rw [if_neg hr]
      simp only [decide_eq_true_eq]
      constructor
      · intro h; omega
      · intro h; exact h.2

theorem get_report_dataset_loop_fail (sclfile : xml_document) (pdld : String)
    (reports : List xml_tree) (h : ∃ r ∈ reports, report_readable r = false) :
    ∀ acc : List String, ∃ e, get_report_dataset_loop sclfile pdld reports acc = Except.error e := by
  induction reports with
  | nil => obtain ⟨r, hr, _⟩ := h; simp at hr
  | cons r rest ih =>
    intro acc
    unfold get_report_dataset_loop
    cases hm : report_max r with
    | error e =>
      have hm' : stoi ((r.node.child "RptEnabled").attribute_value "max") = Except.error e := hm
      simp only [hm']
      exact ⟨e, rfl⟩
    | ok n =>
      have hm' : stoi ((r.node.child "RptEnabled").attribute_value "max") = Except.ok n := hm
      simp only [hm']
      by_cases hn : (1000000000 : Int) ≤ n
      · rw [if_pos hn]; exact ⟨_, rfl⟩
      · rw [if_neg hn]
        have hread : report_readable r = true := by
          unfold report_readable
          rw [hm]
          simp only [decide_eq_true_eq]
          omega
        obtain ⟨x, hx, hxr⟩ := h
        have hx' : x ∈ rest := by
          rcases List.mem_cons.mp hx with rfl | hx
          · rw [hread] at hxr; exact absurd hxr (by simp)
          · exact hx
        exact ih ⟨x, hx', hxr⟩ _

theorem get_report_dataset_fail (sclfile : xml_document) (g : Globals)
    (h : ∃ r ∈ scl_reports sclfile, report_readable r = false) :
    ∃ e, get_report_dataset sclfile g = Except.error e := by
  obtain ⟨e, he⟩ := get_report_dataset_loop_fail sclfile (scl_pdld_name sclfile)
    (scl_reports sclfile) h []
  refine ⟨e, ?_⟩
  unfold get_report_dataset
  show (match get_report_dataset_loop sclfile (scl_pdld_name sclfile) (scl_reports sclfile) []
    with
    | Except.error e => Except.error e
    | Except.ok reports_datasets => Except.ok _) = _
  rw [he]

/-- C19 (as stated): a `max` value that begins with a decimal integer too large
for an `int` makes the conversion raise (`out_of_range`), so report resolution
fails although every count begins with a decimal integer; and a value that
begins with a blank, not with a digit, is read, since `std::stoi` skips leading
white space. -/
theorem C19_integer_prefix_does_not_decide :
    begins_with_digit "99999999999" = true
    ∧ get_report_dataset
        (sample_scl "D" ["10.0.0.1"] [sample_report "rcb" "ds1" "99999999999"] [])
        Globals.initial = Except.error Exn.out_of_range
    ∧ begins_with_digit " 1" = false
    ∧ get_report_dataset
        (sample_scl "D" ["10.0.0.1"] [sample_report "rcb" "ds1" " 1"] [])
        Globals.initial =
      Except.ok { Globals.initial with report_dataset_buffer := [["D1/LLN0.RP.rcb01 D1/LLN0$ds1"]] } := by
  decide

/-- C19 (amended): a report count is readable exactly when the `max` value
begins, after optional white space and an optional sign, with a decimal integer
that is an `int` below 1000000000; it is not readable when the `RptEnabled` child
or its `max` attribute is absent (the conversion of the empty string raises).
For every document with a `ReportControl` whose count is not readable,
`get_report_dataset` fails and appends nothing; for every document in which all
counts are readable it succeeds and appends exactly one report list. -/
theorem C19_report_resolution_fails_on_unreadable_count (sclfile : xml_document)
    (g : Globals) :
    ((∃ r ∈ scl_reports sclfile, report_readable r = false) →
      ∃ e, get_report_dataset sclfile g = Except.error e) ∧
    ((∀ r ∈ scl_reports sclfile, report_readable r = true) →
      ∃ rs, get_report_dataset sclfile g =
        Except.ok { g with report_dataset_buffer := g.report_dataset_buffer ++ [rs] }) ∧
    (∀ report : xml_tree, report_readable report = true ↔
      begins_with_integer (report_max_text report) = true ∧
      -2147483648 ≤ leading_integer (report_max_text report) ∧
      leading_integer (report_max_text report) < 1000000000) ∧
    (∀ report : xml_tree, begins_with_integer (report_max_text report) = false →
      report_max report = Except.error Exn.invalid_argument) ∧
    (∀ report : xml_tree, report.node.child "RptEnabled" = none →
      report_max report = Except.error Exn.invalid_argument) ∧
    (∀ (report c : xml_tree), report.node.child "RptEnabled" = some c →
      List.lookup "max" c.attrs = none →
      report_max report = Except.error Exn.invalid_argument) := by
  refine ⟨get_report_dataset_fail sclfile g, fun h => ⟨_, get_report_dataset_ok sclfile g h⟩,
    report_readable_iff, fun report h => ?_, fun report h => ?_, fun report c hc hl => ?_⟩
  · show stoi (report_max_text report) = _
    rw [stoi_spec, if_pos h]
  · show stoi ((report.node.child "RptEnabled").attribute_value "max") = _
    rw [h]
    rfl
  · show stoi ((report.node.child "RptEnabled").attribute_value "max") = _
    rw [hc]
    show stoi (c.attribute_value "max") = _
    unfold xml_tree.attribute_value
    rw [hl]
    rfl

/-- An instance of C19 (amended): a document with a report without `RptEnabled`
fails, one with the count 3 succeeds. -/
theorem C19_report_resolution_fails_on_unreadable_count_witness :
    (∃ e, get_report_dataset
        (sample_scl "D" [] [sample_report "rcb" "ds1" "2", sample_report_no_max "r2" "ds1"] [])
        Globals.initial = Except.error e) ∧
    (∃ rs, get_report_dataset (sample_scl "D" [] [sample_report "rcb" "ds1" "3"] [])
        Globals.initial =
      Except.ok { Globals.initial with
        report_dataset_buffer := Globals.initial.report_dataset_buffer ++ [rs] }) :=
  ⟨(C19_report_resolution_fails_on_unreadable_count
      (sample_scl "D" [] [sample_report "rcb" "ds1" "2", sample_report_no_max "r2" "ds1"] [])
      Globals.initial).1 ⟨sample_report_no_max "r2" "ds1",
        List.mem_cons_of_mem _ (List.mem_cons_self _ _), by decide⟩,
    (C19_report_resolution_fails_on_unreadable_count
      (sample_scl "D" [] [sample_report "rcb" "ds1" "3"] []) Globals.initial).2.1 (by decide)⟩

/-! ### Trimming -/

theorem findIdx_none_of_all (l : List Char) (h : ∀ c ∈ l, isTrimChar c = true) :
    l.findIdx? (fun c => !isTrimChar c) = none := by
  rw [List.findIdx?_eq_none_iff]
  intro c hc
  simp [h c hc]

theorem findIdx_takeWhile (l : List Char) (h : ∃ c ∈ l, isTrimChar c = false) :
    l.findIdx? (fun c => !isTrimChar c) = some (l.takeWhile isTrimChar).length := by
  induction l with
  | nil => obtain ⟨c, hc, _⟩ := h; cases hc
  | cons x xs ih =>
    rw [List.findIdx?_cons]
    cases hx : isTrimChar x with
    | false => simp [List.takeWhile_cons, hx]
    | true =>
      have h2 : ∃ c ∈ xs, isTrimChar c = false := by
        obtain ⟨c, hc, hcf⟩ := h
        rcases List.mem_cons.1 hc with rfl | hc
        · rw [hx] at hcf; cases hcf
        · exact ⟨c, hc, hcf⟩
      simp [List.takeWhile_cons, hx, List.findIdx?_succ, ih h2]

theorem takeWhile_append_of_exists (a b : List Char) (h : ∃ c ∈ a, isTrimChar c = false) :
    (a ++ b).takeWhile isTrimChar = a.takeWhile isTrimChar := by
  induction a with
  | nil => obtain ⟨c, hc, _⟩ := h; cases hc
  | cons x xs ih =>
    cases hx : isTrimChar x with
    | false => simp [List.takeWhile_cons, hx]
    | true =>
      have h2 : ∃ c ∈ xs, isTrimChar c = false := by
        obtain ⟨c, hc, hcf⟩ := h
        rcases List.mem_cons.1 hc with rfl | hc
        · rw [hx] at hcf; cases hcf
        · exact ⟨c, hc, hcf⟩
      simp [List.takeWhile_cons, hx, ih h2]

theorem takeWhile_length_lt (a : List Char) (h : ∃ c ∈ a, isTrimChar c = false) :
    (a.takeWhile isTrimChar).length < a.length := by
  induction a with
  | nil => obtain ⟨c, hc, _⟩ := h; cases hc
  | cons x xs ih =>
    cases hx : isTrimChar x with
    | false => simp [List.takeWhile_cons, hx]
    | true =>
      have h2 : ∃ c ∈ xs, isTrimChar c = false := by
        obtain ⟨c, hc, hcf⟩ := h
        rcases List.mem_cons.1 hc with rfl | hc
        · rw [hx] at hcf; cases hcf
        · exact ⟨c, hc, hcf⟩
      simp [List.takeWhile_cons, hx, ih h2]

theorem dropWhile_has_nonblank (l : List Char) (h : ∃ c ∈ l, isTrimChar c = false) :
    ∃ c ∈ l.dropWhile isTrimChar, isTrimChar c = false := by
  induction l with
  | nil => obtain ⟨c, hc, _⟩ := h; cases hc
  | cons x xs ih =>
    cases hx : isTrimChar x with
    | false =>
      refine ⟨x, ?_, hx⟩
      simp [List.dropWhile_cons, hx]
    | true =>
      have h2 : ∃ c ∈ xs, isTrimChar c = false := by
        obtain ⟨c, hc, hcf⟩ := h
        rcases List.mem_cons.1 hc with rfl | hc
        · rw [hx] at hcf; cases hcf
        · exact ⟨c, hc, hcf⟩
      simpa [List.dropWhile_cons, hx] using ih h2

theorem substr_trim (l : List Char) (h : ∃ c ∈ l, isTrimChar c = false) :
    (l.takeWhile isTrimChar).length + (l.reverse.takeWhile isTrimChar).length < l.length
    ∧ substr l (l.takeWhile isTrimChar).length
        (l.length - (l.reverse.takeWhile isTrimChar).length - (l.takeWhile isTrimChar).length)
      = trim_both_ends l := by
  have hl : l.takeWhile isTrimChar ++ l.dropWhile isTrimChar = l := List.takeWhile_append_dropWhile _ _
  have hd := dropWhile_has_nonblank l h
  have hdr : ∃ c ∈ (l.dropWhile isTrimChar).reverse, isTrimChar c = false := by
    obtain ⟨c, hc, hcf⟩ := hd
    exact ⟨c, List.mem_reverse.2 hc, hcf⟩
  have hrev : l.reverse.takeWhile isTrimChar = (l.dropWhile isTrimChar).reverse.takeWhile isTrimChar := by
    conv_lhs => rw [← hl, List.reverse_append]
    exact takeWhile_append_of_exists _ _ hdr
  have hlt := takeWhile_length_lt _ hdr
  have hlen : l.length = (l.takeWhile isTrimChar).length + (l.dropWhile isTrimChar).length := by
    conv_lhs => rw [← hl, List.length_append]
  rw [List.length_reverse] at hlt
  refine ⟨by rw [hrev]; omega, ?_⟩
  have hdrop : (l.takeWhile isTrimChar ++ l.dropWhile isTrimChar).drop (l.takeWhile isTrimChar).length
      = l.dropWhile isTrimChar := List.drop_left' rfl
  rw [hl] at hdrop
  unfold substr trim_both_ends
  rw [hdrop, hrev]
  clear hdrop hrev hl hd hdr h
  generalize l.dropWhile isTrimChar = d at *
  have hsplit : (d.reverse.dropWhile isTrimChar).reverse ++ (d.reverse.takeWhile isTrimChar).reverse = d := by
    rw [← List.reverse_append, List.takeWhile_append_dropWhile, List.reverse_reverse]
  have hdl : d.length = (d.reverse.dropWhile isTrimChar).length + (d.reverse.takeWhile isTrimChar).length := by
    conv_lhs => rw [← hsplit, List.length_append, List.length_reverse, List.length_reverse]
  have htake : ((d.reverse.dropWhile isTrimChar).reverse ++ (d.reverse.takeWhile isTrimChar).reverse).take
      (d.reverse.dropWhile isTrimChar).reverse.length = (d.reverse.dropWhile isTrimChar).reverse :=
    List.take_left' rfl
  rw [hsplit, List.length_reverse] at htake
  rw [List.rdropWhile]
  have e : l.length - (d.reverse.takeWhile isTrimChar).length - (l.takeWhile isTrimChar).length
      = (d.reverse.dropWhile isTrimChar).length := by omega
  rw [e, htake]

theorem size_t_to_int_of_lt (n : Nat) (h : n < 2 ^ 31) : size_t_to_int n = (n : Int) := by
  unfold size_t_to_int
  have e : n % 2 ^ 32 = n := Nat.mod_eq_of_lt (by omega)
  simp only [e]
  rw [if_pos h]

theorem wrap_int_of_range (z : Int) (h0 : 0 ≤ z) (h1 : z < 2 ^ 31) : wrap_int z = z := by
  unfold wrap_int
  have e : z % 2 ^ 32 = z := Int.emod_eq_of_lt h0 (by omega)
  simp only [e]
  rw [if_pos h1]

theorem int_to_size_t_natCast (n : Nat) (h : n < 2 ^ 64) : int_to_size_t (n : Int) = n := by
  unfold int_to_size_t
  have e : (n : Int) % 2 ^ 64 = n := Int.emod_eq_of_lt (by omega) (by omega)
  rw [e, Int.toNat_ofNat]

theorem trimWhitespace_blank (s : String) (h : ∀ c ∈ s.data, isTrimChar c = true) :
    trimWhitespace s = s := by
  unfold trimWhitespace find_first_not_of
  rw [findIdx_none_of_all _ h]
  have e : size_t_to_int npos = -1 := by decide
  simp only [e]
  simp

theorem trimWhitespace_nonblank (s : String) (h : ∃ c ∈ s.data, isTrimChar c = false)
    (hlen : s.data.length < 2 ^ 31) :
    trimWhitespace s = ⟨trim_both_ends s.data⟩ := by
  have hr : ∃ c ∈ s.data.reverse, isTrimChar c = false := by
    obtain ⟨c, hc, hcf⟩ := h
    exact ⟨c, List.mem_reverse.2 hc, hcf⟩
  obtain ⟨hij, hsub⟩ := substr_trim s.data h
  unfold trimWhitespace find_first_not_of find_last_not_of
  rw [findIdx_takeWhile _ h, findIdx_takeWhile _ hr]
  generalize (s.data.takeWhile isTrimChar).length = i at *
  generalize (s.data.reverse.takeWhile isTrimChar).length = j at *
  simp only []
  rw [size_t_to_int_of_lt i (by omega), size_t_to_int_of_lt (s.data.length - 1 - j) (by omega)]
  have ec : ((s.data.length - 1 - j : Nat) : Int) - (i : Int) + 1 = ((s.data.length - j - i : Nat) : Int) := by
    omega
  rw [ec, wrap_int_of_range _ (by omega) (by omega), int_to_size_t_natCast i (by omega),
    int_to_size_t_natCast _ (by omega), hsub]
  have hneg : ((i : Int) < 0 || ((s.data.length - 1 - j : Nat) : Int) < 0) = false := by
    simp
  rw [hneg]
  simp

theorem dropWhile_head_not (l : List Char) (x : Char) (xs : List Char)
    (h : l.dropWhile isTrimChar = x :: xs) : isTrimChar x = false := by
  induction l with
  | nil => cases h
  | cons y ys ih =>
    cases hy : isTrimChar y with
    | false =>
      rw [List.dropWhile_cons, hy] at h
      simp at h
      rw [← h.1]; exact hy
    | true =>
      rw [List.dropWhile_cons, hy] at h
      exact ih h

theorem trim_both_ends_head (l : List Char) (x : Char) (xs : List Char)
    (h : trim_both_ends l = x :: xs) : isTrimChar x = false := by
  unfold trim_both_ends at h
  obtain ⟨t, ht⟩ := List.rdropWhile_prefix isTrimChar (l.dropWhile isTrimChar)
  rw [h] at ht
  exact dropWhile_head_not l x (xs ++ t) ht.symm

theorem trim_both_ends_last (l : List Char) (hne : trim_both_ends l ≠ []) :
    isTrimChar ((trim_both_ends l).getLast hne) = false := by
  have := List.rdropWhile_last_not isTrimChar (l.dropWhile isTrimChar) hne
  simpa using this

theorem trim_both_ends_ne_nil (l : List Char) (h : ∃ c ∈ l, isTrimChar c = false) :
    trim_both_ends l ≠ [] := by
  unfold trim_both_ends
  intro hnil
  rw [List.rdropWhile_eq_nil_iff] at hnil
  obtain ⟨c, hc, hcf⟩ := dropWhile_has_nonblank l h
  rw [hnil c hc] at hcf
  cases hcf

theorem trim_both_ends_idem (l : List Char) :
    trim_both_ends (trim_both_ends l) = trim_both_ends l := by
  have hd : (trim_both_ends l).dropWhile isTrimChar = trim_both_ends l := by
    cases hc : trim_both_ends l with
    | nil => rfl
    | cons x xs =>
      rw [List.dropWhile_cons, trim_both_ends_head l x xs hc]
      simp
  have e : ∀ m : List Char, trim_both_ends m = (m.dropWhile isTrimChar).rdropWhile isTrimChar :=
    fun _ => rfl
  rw [e (trim_both_ends l), hd, e l]
  exact List.rdropWhile_idempotent _ _

theorem trim_both_ends_length_le (l : List Char) : (trim_both_ends l).length ≤ l.length := by
  unfold trim_both_ends
  exact le_trans (List.rdropWhile_prefix _ _).length_le (List.dropWhile_suffix _).length_le

theorem trim_both_ends_blank (l : List Char) (h : ∀ c ∈ l, isTrimChar c = true) :
    trim_both_ends l = [] := by
  unfold trim_both_ends
  have e : l.dropWhile isTrimChar = [] := by
    rw [List.dropWhile_eq_nil_iff]
    exact h
  rw [e]
  rfl

theorem trimWhitespace_idem (s : String) (hlen : s.length < 2 ^ 31) :
    trimWhitespace (trimWhitespace s) = trimWhitespace s := by
  by_cases hall : ∀ c ∈ s.data, isTrimChar c = true
  · rw [trimWhitespace_blank s hall]
    exact trimWhitespace_blank s hall
  · have h : ∃ c ∈ s.data, isTrimChar c = false := by
      by_contra hno
      apply hall
      intro c hc
      cases hcf : isTrimChar c with
      | true => rfl
      | false => exact absurd ⟨c, hc, hcf⟩ hno
    rw [trimWhitespace_nonblank s h hlen]
    have hne := trim_both_ends_ne_nil s.data h
    have hcore : ∃ c ∈ trim_both_ends s.data, isTrimChar c = false := by
      cases hc : trim_both_ends s.data with
      | nil => exact absurd hc hne
      | cons x xs => exact ⟨x, List.mem_cons_self _ _, trim_both_ends_head _ x xs hc⟩
    have hl : (trim_both_ends s.data).length < 2 ^ 31 :=
      lt_of_le_of_lt (trim_both_ends_length_le _) hlen
    rw [trimWhitespace_nonblank ⟨trim_both_ends s.data⟩ hcore hl]
    show (⟨trim_both_ends (trim_both_ends s.data)⟩ : String) = ⟨trim_both_ends s.data⟩
    rw [trim_both_ends_idem]

/-- C20 (failing input): on the string of two spaces and a tab, and on a single space,
`trimWhitespace` returns its argument unchanged, so the result starts and ends with a
character of the set, whereas removing the maximal prefix and suffix of such characters
leaves the empty string. The same holds for every non-empty string made only of characters
of the set. On every string shorter than `2 ^ 31` that has a character outside the set the
function does return the string with both maximal runs removed, a result that neither starts
nor ends with a character of the set; and on every string shorter than `2 ^ 31` the function
is idempotent. -/
theorem C20_blank_string_is_returned_untrimmed :
    trimWhitespace "  \t" = "  \t"
    ∧ trim_both_ends "  \t".data = []
    ∧ trimWhitespace " " = " "
    ∧ (∀ s : String, s ≠ "" → (∀ c ∈ s.data, isTrimChar c = true) →
        trimWhitespace s = s ∧ trim_both_ends s.data = []
        ∧ (trimWhitespace s).data ≠ trim_both_ends s.data)
    ∧ (∀ s : String, (∃ c ∈ s.data, isTrimChar c = false) → s.length < 2 ^ 31 →
        (trimWhitespace s).data = trim_both_ends s.data
        ∧ (∀ c, (trimWhitespace s).data.head? = some c → isTrimChar c = false)
        ∧ (∀ c, (trimWhitespace s).data.getLast? = some c → isTrimChar c = false))
    ∧ (∀ s : String, s.length < 2 ^ 31 →
        trimWhitespace (trimWhitespace s) = trimWhitespace s) := by
  refine ⟨by decide, by decide, by decide, ?_, ?_, trimWhitespace_idem⟩
  · intro s hs hall
    refine ⟨trimWhitespace_blank s hall, trim_both_ends_blank _ hall, ?_⟩
    rw [trimWhitespace_blank s hall, trim_both_ends_blank _ hall]
    intro hd
    apply hs
    cases s
    simp only at hd
    rw [hd]
  · intro s h hlen
    rw [trimWhitespace_nonblank s h hlen]
    refine ⟨rfl, ?_, ?_⟩
    · intro c hc
      show isTrimChar c = false
      cases hcore : trim_both_ends s.data with
      | nil =>
        have hc2 : (trim_both_ends s.data).head? = some c := hc
        rw [hcore] at hc2; cases hc2
      | cons x xs =>
        have hc2 : (trim_both_ends s.data).head? = some c := hc
        rw [hcore] at hc2
        simp at hc2
        rw [← hc2]
        exact trim_both_ends_head _ x xs hcore
    · intro c hc
      have hc2 : (trim_both_ends s.data).getLast? = some c := hc
      have hne := trim_both_ends_ne_nil s.data h
      rw [List.getLast?_eq_getLast _ hne] at hc2
      simp at hc2
      rw [← hc2]
      exact trim_both_ends_last _ hne

/-! ### Trimmed lines of the binding source -/

theorem isNameChar_not_trim (c : Char) (h : isNameChar c = true) : isTrimChar c = false := by
  cases ht : isTrimChar c with
  | false => rfl
  | true =>
    exfalso
    unfold isTrimChar at ht
    simp only [Bool.or_eq_true, beq_iff_eq] at ht
    rcases ht with ((rfl | rfl) | rfl) | rfl <;> revert h <;> decide

/-- A line made only of characters of the set is no block delimiter and no
binding line. -/
theorem blank_line_inert (s : String) (h : ∀ c ∈ s.data, isTrimChar c = true) :
    s ≠ "VAR" ∧ s ≠ "END_VAR" ∧ ∀ n a, ¬ BindingLine s n a := by
  refine ⟨?_, ?_, ?_⟩
  · rintro rfl
    exact absurd (h 'V' (by decide)) (by decide)
  · rintro rfl
    exact absurd (h 'E' (by decide)) (by decide)
  · intro n a hb
    obtain ⟨a1, ty, hl, hne, hname, _⟩ := BindingLine_data hb
    cases hn : n.data with
    | nil => exact hne hn
    | cons c cs =>
      have hc : c ∈ s.data := by rw [hl, hn]; simp
      have h1 := h c hc
      rw [isNameChar_not_trim c (hname c (by rw [hn]; simp))] at h1
      cases h1

/-- The line that `trimWhitespace` returns and the trimmed line are read alike
by the loader, for a line shorter than `2 ^ 31`. -/
theorem trimWhitespace_reads_as_trimmed (l : String) (hlen : l.length < 2 ^ 31) :
    (trimWhitespace l = "VAR" ↔ trimmed l = "VAR") ∧
    (trimWhitespace l = "END_VAR" ↔ trimmed l = "END_VAR") ∧
    ∀ n a, BindingLine (trimWhitespace l) n a ↔ BindingLine (trimmed l) n a := by
  by_cases hall : ∀ c ∈ l.data, isTrimChar c = true
  · have e1 : trimWhitespace l = l := trimWhitespace_blank l hall
    have e2 : trimmed l = "" := by
      unfold trimmed
      rw [trim_both_ends_blank _ hall]
    obtain ⟨a1, a2, a3⟩ := blank_line_inert l hall
    obtain ⟨b1, b2, b3⟩ := blank_line_inert "" (by intro c hc; cases hc)
    rw [e1, e2]
    exact ⟨⟨fun h => absurd h a1, fun h => absurd h b1⟩,
      ⟨fun h => absurd h a2, fun h => absurd h b2⟩,
      fun n a => ⟨fun h => absurd h (a3 n a), fun h => absurd h (b3 n a)⟩⟩
  · have h : ∃ c ∈ l.data, isTrimChar c = false := by
      by_contra hno
      apply hall
      intro c hc
      cases hcf : isTrimChar c with
      | true => rfl
      | false => exact absurd ⟨c, hc, hcf⟩ hno
    have e : trimWhitespace l = trimmed l := trimWhitespace_nonblank l h hlen
    rw [e]
    exact ⟨Iff.rfl, Iff.rfl, fun _ _ => Iff.rfl⟩

theorem getElem_map_iff (L : List String) (f g : String → String) (s : String) (j : Nat)
    (h : ∀ l ∈ L, (f l = s ↔ g l = s)) :
    (L.map f)[j]? = some s ↔ (L.map g)[j]? = some s := by
  rw [List.getElem?_map, List.getElem?_map]
  cases hj : L[j]? with
  | none => simp
  | some l =>
    have hm : l ∈ L := List.getElem?_mem hj
    simp only [Option.map_some', Option.some.injEq]
    exact h l hm

theorem InBlock_map_iff (L : List String) (f g : String → String) (i : Nat)
    (hv : ∀ l ∈ L, (f l = "VAR" ↔ g l = "VAR"))
    (he : ∀ l ∈ L, (f l = "END_VAR" ↔ g l = "END_VAR")) :
    InBlock (L.map f) i ↔ InBlock (L.map g) i := by
  unfold InBlock
  constructor
  · rintro ⟨j, hj, h1, h2⟩
    exact ⟨j, hj, (getElem_map_iff L f g _ j hv).mp h1,
      fun k hk1 hk2 hk => h2 k hk1 hk2 ((getElem_map_iff L f g _ k he).mpr hk)⟩
  · rintro ⟨j, hj, h1, h2⟩
    exact ⟨j, hj, (getElem_map_iff L f g _ j hv).mpr h1,
      fun k hk1 hk2 hk => h2 k hk1 hk2 ((getElem_map_iff L f g _ k he).mp hk)⟩

theorem AcceptedAt_map_iff (L : List String) (f g : String → String) (i : Nat) (n a : String)
    (hv : ∀ l ∈ L, (f l = "VAR" ↔ g l = "VAR"))
    (he : ∀ l ∈ L, (f l = "END_VAR" ↔ g l = "END_VAR"))
    (hb : ∀ l ∈ L, (BindingLine (f l) n a ↔ BindingLine (g l) n a)) :
    AcceptedAt (L.map f) i n a ↔ AcceptedAt (L.map g) i n a := by
  unfold AcceptedAt
  rw [InBlock_map_iff L f g i hv he, List.getElem?_map, List.getElem?_map]
  cases hi : L[i]? with
  | none => simp
  | some l =>
    have hm : l ∈ L := List.getElem?_mem hi
    simp only [Option.map_some', Option.some.injEq, exists_eq_left']
    rw [hb l hm]

theorem st_table_keys_iff (text n : String) :
    n ∈ (st_table text).keys ↔
      ∃ i a, AcceptedAt ((getLines text).map trimWhitespace) i n a := by
  rw [mem_keys_iff, st_table_eq]
  constructor
  · rintro ⟨a, ha⟩
    obtain ⟨i, hi, _⟩ := ((st_fold_spec (getLines text)).2 n a).mp ha
    exact ⟨i, a, hi⟩
  · intro h
    obtain ⟨i, a, hi, hmax⟩ := exists_last_accepted _ n h
    exact ⟨a, ((st_fold_spec (getLines text)).2 n a).mpr ⟨i, hi, hmax⟩⟩

theorem process_st_line_keeps (st : Bool × unordered_map) (raw : String)
    (h : st.1 = false ∨ ∀ n a, ¬ BindingLine (trimWhitespace raw) n a) :
    (process_st_line st raw).2 = st.2 := by
  rw [process_st_line_eq]
  rcases h with h | h
  · rw [if_pos h]
  · by_cases hb : st.1 = false
    · rw [if_pos hb]
    · rw [if_neg hb]
      cases hp : parsed_binding (trimWhitespace raw) with
      | none => rfl
      | some b =>
        exact absurd ((parsed_binding_iff _ b.1 b.2).mp hp) (h _ _)

theorem accepted_trimmed_iff (L : List String) (hlen : ∀ l ∈ L, l.length < 2 ^ 31)
    (i : Nat) (n a : String) :
    AcceptedAt (L.map trimWhitespace) i n a ↔ AcceptedAt (L.map trimmed) i n a :=
  AcceptedAt_map_iff L trimWhitespace trimmed i n a
    (fun l hl => (trimWhitespace_reads_as_trimmed l (hlen l hl)).1)
    (fun l hl => (trimWhitespace_reads_as_trimmed l (hlen l hl)).2.1)
    (fun l hl => (trimWhitespace_reads_as_trimmed l (hlen l hl)).2.2 n a)

/-- C3: for every source text whose lines are shorter than `2 ^ 31` characters, a
name is a key of the table built by `process_st_file` exactly when some line,
with its leading and trailing white space removed, has the form
`name AT %addr : type;` and lies after a line that is `VAR` once trimmed, with
no line that is `END_VAR` once trimmed in between; a line outside a block, and
a line in a block whose trimmed text does not have this form, leaves the table
as it is. -/
theorem C3_keys_iff_accepted_line (text : String)
    (hlen : ∀ l ∈ getLines text, l.length < 2 ^ 31) :
    (∀ n, n ∈ (st_table text).keys ↔
      ∃ i a, AcceptedAt ((getLines text).map trimmed) i n a) ∧
    (∀ (st : Bool × unordered_map) (raw : String), raw.length < 2 ^ 31 →
      (st.1 = false ∨ ∀ n a, ¬ BindingLine (trimmed raw) n a) →
        (process_st_line st raw).2 = st.2) := by
  refine ⟨fun n => ?_, fun st raw hraw h => ?_⟩
  · rw [st_table_keys_iff]
    constructor
    · rintro ⟨i, a, h⟩
      exact ⟨i, a, (accepted_trimmed_iff _ hlen i n a).mp h⟩
    · rintro ⟨i, a, h⟩
      exact ⟨i, a, (accepted_trimmed_iff _ hlen i n a).mpr h⟩
  · apply process_st_line_keeps
    rcases h with h | h
    · exact Or.inl h
    · exact Or.inr (fun n a hb =>
        h n a (((trimWhitespace_reads_as_trimmed raw hraw).2.2 n a).mp hb))

/-- Line 1 of the source with carriage returns, once trimmed, is an accepted
binding of `V1`. -/
theorem crlf_accepted :
    AcceptedAt ((getLines crlf_st).map trimmed) 1 "V1" "%IX0.0" :=
  ⟨⟨0, by decide, by decide, fun k h1 h2 => by omega⟩, "V1 AT %IX0.0 : BOOL;", by decide,
    "IX0.0".data, "BOOL".data, by decide, by decide, by decide, by decide, by decide, by decide,
    by decide, by decide⟩

/-- An instance of C3: `V1` is bound in the block of the source with carriage
returns and indentation, whose raw lines are
`VAR\r`, `\t V1 AT %IX0.0 : BOOL; \r` and `END_VAR\r`. -/
theorem C3_keys_iff_accepted_line_witness :
    (∀ l ∈ getLines crlf_st, l.length < 2 ^ 31) ∧
    (getLines crlf_st).map trimmed = ["VAR", "V1 AT %IX0.0 : BOOL;", "END_VAR"] ∧
    "V1" ∈ (st_table crlf_st).keys :=
  ⟨by decide, by decide,
    ((C3_keys_iff_accepted_line crlf_st (by decide)).1 "V1").mpr ⟨1, "%IX0.0", crlf_accepted⟩⟩

end Mapper
